import Mathlib

/-!
# CHIP-8 emulator (`src/chip8.c`): shallow embedding and verified properties

The machine of `chip8.c` is embedded as a record of naturals and functions on naturals.
Every C array is a function on indices together with an explicit bounds check at each
access; fixed-width integers are naturals reduced modulo `2^w` wherever the C code stores
into a `uint8_t` / `uint16_t` object.  An access outside an array (or a division by zero)
is undefined behaviour in C and is reported as `Except.error`.
-/

namespace Chip8

/-! ## Data model -/

/-- Emulator states (`emul_state_t`); `QUIT` is the enumerator with value 0. -/
inductive emul_state_t where
  | QUIT
  | RUNNING
  | PAUSED
  deriving DecidableEq

/-- Quirk selection (`extension_t`). -/
inductive extension_t where
  | CHIP8
  | SUPERCHIP
  | XOCHIP
  deriving DecidableEq

/-- The fields of `config_t` that the machine core reads. -/
structure config_t where
  window_width : Nat
  window_height : Nat
  bg_color : Nat
  instr_per_sec : Nat
  current_extension : extension_t

/-- Instruction format (`instruction_t`). -/
structure instruction_t where
  opcode : Nat
  nnn : Nat
  nn : Nat
  n : Nat
  x : Nat
  y : Nat
  deriving DecidableEq

/-- The machine object (`chip8_t`).  `stack_ptr` is `none` for the null pointer and
`some d` for the pointer `&stack[d]`; `rom_name` is the name the C pointer refers to (the
empty string for the null pointer). -/
structure chip8_t where
  state : emul_state_t
  ram : Nat → Nat
  display : Nat → Bool
  pixel_color : Nat → Nat
  stack : Nat → Nat
  stack_ptr : Option Nat
  V : Nat → Nat
  I : Nat
  PC : Nat
  delay_timer : Nat
  sound_timer : Nat
  keypad : Nat → Bool
  rom_name : String
  inst : instruction_t
  draw : Bool

/-- Ways in which one step of the C program leaves defined behaviour. -/
inductive fault_t where
  | ram_out_of_bounds
  | display_out_of_bounds
  | stack_out_of_bounds
  | null_pointer
  | keypad_out_of_bounds
  | division_by_zero
  deriving DecidableEq

/-- Array store `a[i] = v`. -/
def write {α : Type} (a : Nat → α) (i : Nat) (v : α) : Nat → α :=
  fun k => if k = i then v else a k

/-- The C loop `for (i = 0; i < count; i++) body(i)`, where the body may leave defined
behaviour: the first `count` iterations run in order, each on the state left by the
previous one. -/
def for_loop (body : chip8_t → Nat → Except fault_t chip8_t) :
    Nat → chip8_t → Except fault_t chip8_t
  | 0, s => .ok s
  | i + 1, s =>
    match for_loop body i s with
    | .ok s1 => body s1 i
    | .error e => .error e

/-- The range of the C types of the machine's fields (`uint8_t`, `uint16_t`, a pointer into
`stack[16]` or one past it). -/
structure chip8_t.WF (s : chip8_t) : Prop where
  ram_u8 : ∀ k, k < 4096 → s.ram k < 256
  V_u8 : ∀ k, k < 16 → s.V k < 256
  stack_u16 : ∀ k, k < 16 → s.stack k < 65536
  stack_ptr_le : ∀ d, s.stack_ptr = some d → d ≤ 16
  I_u16 : s.I < 65536
  PC_u16 : s.PC < 65536
  delay_u8 : s.delay_timer < 256
  sound_u8 : s.sound_timer < 256

/-! ## Configuration and initialisation (`set_config_from_args`, `init_chip8`) -/

/-- The default configuration written by `set_config_from_args` (lines 185-199); the
command line can change `current_extension` but neither window dimension. -/
def set_config_from_args (current_extension : extension_t) : config_t :=
  { window_height := 32
    window_width := 64
    bg_color := 0x000000FF
    instr_per_sec := 700
    current_extension := current_extension }

/-- The table `font[80]` of `init_chip8`. -/
def font : List Nat :=
  [0xF0, 0x90, 0x90, 0x90, 0xF0,
   0x20, 0x60, 0x20, 0x20, 0x70,
   0xF0, 0x10, 0xF0, 0x80, 0xF0,
   0xF0, 0x10, 0xF0, 0x10, 0xF0,
   0x90, 0x90, 0xF0, 0x10, 0x10,
   0xF0, 0x80, 0xF0, 0x10, 0xF0,
   0xF0, 0x80, 0xF0, 0x90, 0xF0,
   0xF0, 0x10, 0x20, 0x40, 0x40,
   0xF0, 0x90, 0xF0, 0x90, 0xF0,
   0xF0, 0x90, 0xF0, 0x10, 0xF0,
   0xF0, 0x90, 0xF0, 0x90, 0x90,
   0xE0, 0x90, 0xE0, 0x90, 0xE0,
   0xF0, 0x80, 0x80, 0x80, 0xF0,
   0xE0, 0x90, 0x90, 0x90, 0xE0,
   0xF0, 0x80, 0xF0, 0x80, 0xF0,
   0xF0, 0x80, 0xF0, 0x80, 0x80]

/-- The object left by `memset(chip8, 0, sizeof(chip8_t))`. -/
def zeroed : chip8_t :=
  { state := .QUIT
    ram := fun _ => 0
    display := fun _ => false
    pixel_color := fun _ => 0
    stack := fun _ => 0
    stack_ptr := none
    V := fun _ => 0
    I := 0
    PC := 0
    delay_timer := 0
    sound_timer := 0
    keypad := fun _ => false
    rom_name := ""
    inst := { opcode := 0, nnn := 0, nn := 0, n := 0, x := 0, y := 0 }
    draw := false }

/-- The library call `fread(&ram[dst], size, 1, rom)` on a stream positioned at the start of
a file with content `file`: the number of complete items read and the array afterwards.
By the C standard (7.21.8.1) the call returns zero and leaves the array unchanged when
`size` is zero; an item is complete when the file holds `size` bytes. -/
def fread_one (ram : Nat → Nat) (dst size : Nat) (file : List Nat) : Nat × (Nat → Nat) :=
  if size = 0 then (0, ram)
  else
    (if size ≤ file.length then 1 else 0,
     fun k => if dst ≤ k ∧ k < dst + min size file.length then file.getD (k - dst) 0 else ram k)

/-- The function `init_chip8`: the returned flag and the machine object afterwards.
`fopen_rb name` is the content of the file `fopen(name, "rb")` opens, `none` when it
cannot be opened. -/
def init_chip8 (fopen_rb : String → Option (List Nat)) (config : config_t)
    (rom_name : String) : Bool × chip8_t :=
  let entry_point := 0x200
  let s0 := zeroed
  let s1 := { s0 with ram := fun k => if k < 80 then font.getD k 0 else s0.ram k }
  match fopen_rb rom_name with
  | none => (false, s1)
  | some rom =>
    let rom_size := rom.length
    let max_size := 4096 - entry_point
    if rom_size > max_size then (false, s1)
    else
      let r := fread_one s1.ram entry_point rom_size rom
      let s2 := { s1 with ram := r.2 }
      if r.1 ≠ 1 then (false, s2)
      else
        (true, { s2 with
                  state := .RUNNING
                  PC := entry_point
                  rom_name := rom_name
                  stack_ptr := some 0
                  pixel_color := fun k =>
                    if k < 2048 then (config.bg_color % 256) * 0x01010101 else s2.pixel_color k })

/-! ## Fetch and decode (`emu_instr`, lines 790-799) -/

/-- Opcode fetch: `(ram[PC] << 8) | ram[PC + 1]` stored into a `uint16_t`. -/
def fetch (chip8 : chip8_t) : Except fault_t Nat :=
  if chip8.PC + 1 < 4096 then
    .ok ((((chip8.ram chip8.PC) <<< 8) ||| chip8.ram (chip8.PC + 1)) % 65536)
  else .error .ram_out_of_bounds

/-- Filling of the instruction format from the opcode. -/
def decode (opcode : Nat) : instruction_t :=
  { opcode := opcode
    nnn := (opcode &&& 0x0FFF) % 65536
    nn := (opcode &&& 0x00FF) % 256
    n := (opcode &&& 0x000F) % 256
    x := ((opcode >>> 8) &&& 0x000F) % 256
    y := ((opcode >>> 4) &&& 0x000F) % 256 }

/-! ## The draw loop of `DXYN` (lines 985-1017) -/

/-- The test `(sprite_byte & (0x80 >> col)) != 0` of the inner loop. -/
def sprite_bit (sprite_byte col : Nat) : Bool :=
  (sprite_byte &&& (0x80 >>> col)) != 0

/-- Body of the inner loop over `col`. -/
def draw_col (config : config_t) (x_start y_pos sprite_byte : Nat) (s : chip8_t) (col : Nat) :
    Except fault_t chip8_t :=
  if config.window_width = 0 then .error .division_by_zero
  else
    let x_pos := ((x_start + col) % 4294967296 % config.window_width) % 256
    if !sprite_bit sprite_byte col then .ok s
    else
      let display_idx := ((y_pos * config.window_width + x_pos) % 4294967296) % 65536
      if display_idx < 2048 then
        let s1 := if s.display display_idx then { s with V := write s.V 0xF 1 } else s
        .ok { s1 with display := write s1.display display_idx (xor (s1.display display_idx) true) }
      else .error .display_out_of_bounds

/-- Body of the outer loop over `row`. -/
def draw_row (config : config_t) (x_start y_start : Nat) (s : chip8_t) (row : Nat) :
    Except fault_t chip8_t :=
  if config.window_height = 0 then .error .division_by_zero
  else
    let y_pos := ((y_start + row) % 4294967296 % config.window_height) % 256
    if s.I + row < 4096 then
      let sprite_byte := s.ram (s.I + row)
      for_loop (draw_col config x_start y_pos sprite_byte) 8 s
    else .error .ram_out_of_bounds

/-- Case `0x0D`. -/
def draw_sprite (config : config_t) (s : chip8_t) : Except fault_t chip8_t :=
  let x_start := s.V s.inst.x
  let y_start := s.V s.inst.y
  let height := s.inst.n
  let s0 := { s with V := write s.V 0xF 0 }
  match for_loop (draw_row config x_start y_start) height s0 with
  | .ok s1 => .ok { s1 with draw := true }
  | .error e => .error e

/-! ## Register dump and load (`FX55`, `FX65`) -/

/-- Body of the `FX55` loop. -/
def store_reg (config : config_t) (s : chip8_t) (i : Nat) : Except fault_t chip8_t :=
  if config.current_extension = .CHIP8 then
    if s.I < 4096 then
      .ok { s with ram := write s.ram s.I (s.V i), I := (s.I + 1) % 65536 }
    else .error .ram_out_of_bounds
  else
    if s.I + i < 4096 then .ok { s with ram := write s.ram (s.I + i) (s.V i) }
    else .error .ram_out_of_bounds

/-- Body of the `FX65` loop. -/
def load_reg (config : config_t) (s : chip8_t) (i : Nat) : Except fault_t chip8_t :=
  if config.current_extension = .CHIP8 then
    if s.I < 4096 then
      .ok { s with V := write s.V i (s.ram s.I), I := (s.I + 1) % 65536 }
    else .error .ram_out_of_bounds
  else
    if s.I + i < 4096 then .ok { s with V := write s.V i (s.ram (s.I + i)) }
    else .error .ram_out_of_bounds

/-! ## The dispatch of `emu_instr` (lines 805-1127) -/

/-- Case `0x08`: the switch on `inst.n`. -/
def exec_alu (config : config_t) (s : chip8_t) : chip8_t :=
  let x := s.inst.x
  let y := s.inst.y
  let n := s.inst.n
  if n = 0 then { s with V := write s.V x (s.V y) }
  else if n = 1 then { s with V := write (write s.V x ((s.V x ||| s.V y) % 256)) 0xF 0 }
  else if n = 2 then { s with V := write (write s.V x ((s.V x &&& s.V y) % 256)) 0xF 0 }
  else if n = 3 then { s with V := write (write s.V x ((s.V x ^^^ s.V y) % 256)) 0xF 0 }
  else if n = 4 then
    let carry : Bool := decide ((s.V x + s.V y) % 65536 > 255)
    { s with V := write (write s.V x ((s.V x + s.V y) % 256)) 0xF (if carry then 1 else 0) }
  else if n = 5 then
    let carry : Bool := decide (s.V x ≥ s.V y)
    { s with V := write (write s.V x (((s.V x : Int) - (s.V y : Int)) % 256).toNat) 0xF
                    (if carry then 1 else 0) }
  else if n = 6 then
    if config.current_extension = .CHIP8 then
      let carry : Bool := (s.V y &&& 1) != 0
      { s with V := write (write s.V x ((s.V y >>> 1) % 256)) 0xF (if carry then 1 else 0) }
    else
      let carry : Bool := (s.V x &&& 1) != 0
      { s with V := write (write s.V x ((s.V x >>> 1) % 256)) 0xF (if carry then 1 else 0) }
  else if n = 7 then
    let carry : Bool := decide (s.V y ≥ s.V x)
    { s with V := write (write s.V x (((s.V y : Int) - (s.V x : Int)) % 256).toNat) 0xF
                    (if carry then 1 else 0) }
  else if n = 0xE then
    if config.current_extension = .CHIP8 then
      let carry : Bool := ((s.V y &&& 0x80) >>> 7) != 0
      { s with V := write (write s.V x ((s.V y <<< 1) % 256)) 0xF (if carry then 1 else 0) }
    else
      let carry : Bool := ((s.V x &&& 0x80) >>> 7) != 0
      { s with V := write (write s.V x ((s.V x <<< 1) % 256)) 0xF (if carry then 1 else 0) }
  else s

/-- Case `0x0F`: the switch on `inst.nn`. -/
def exec_misc (config : config_t) (s : chip8_t) : Except fault_t chip8_t :=
  let x := s.inst.x
  let nn := s.inst.nn
  if nn = 0x0A then
    match (List.range 16).find? (fun i => s.keypad i) with
    | some i => .ok { s with V := write s.V x i }
    | none => .ok { s with PC := (s.PC + 65536 - 2) % 65536 }
  else if nn = 0x1E then .ok { s with I := (s.I + s.V x) % 65536 }
  else if nn = 0x07 then .ok { s with V := write s.V x s.delay_timer }
  else if nn = 0x15 then .ok { s with delay_timer := s.V x }
  else if nn = 0x18 then .ok { s with sound_timer := s.V x }
  else if nn = 0x29 then .ok { s with I := (s.V x * 5) % 65536 }
  else if nn = 0x33 then
    if s.I + 2 < 4096 then
      let bcd := s.V x
      let ram1 := write s.ram (s.I + 2) (bcd % 10)
      let bcd1 := bcd / 10
      let ram2 := write ram1 (s.I + 1) (bcd1 % 10)
      let bcd2 := bcd1 / 10
      .ok { s with ram := write ram2 s.I bcd2 }
    else .error .ram_out_of_bounds
  else if nn = 0x55 then for_loop (store_reg config) (x + 1) s
  else if nn = 0x65 then for_loop (load_reg config) (x + 1) s
  else .ok s

/-- The `switch ((opcode >> 12) & 0x0F)` of `emu_instr`, run on the state in which `PC` has
been advanced and `inst` filled.  `rand` is the value returned by the call of `rand()`. -/
def execute (config : config_t) (rand : Nat) (s : chip8_t) : Except fault_t chip8_t :=
  let inst := s.inst
  let family := (inst.opcode >>> 12) &&& 0x0F
  if family = 0x00 then
    if inst.nn = 0xE0 then
      .ok { s with display := fun k => if k < 2048 then false else s.display k, draw := true }
    else if inst.nn = 0xEE then
      match s.stack_ptr with
      | none => .error .null_pointer
      | some d =>
        if 0 < d ∧ d ≤ 16 then .ok { s with stack_ptr := some (d - 1), PC := s.stack (d - 1) }
        else .error .stack_out_of_bounds
    else .ok s
  else if family = 0x01 then .ok { s with PC := inst.nnn }
  else if family = 0x02 then
    match s.stack_ptr with
    | none => .error .null_pointer
    | some d =>
      if d < 16 then
        .ok { s with stack := write s.stack d s.PC, stack_ptr := some (d + 1), PC := inst.nnn }
      else .error .stack_out_of_bounds
  else if family = 0x03 then
    if s.V inst.x = inst.nn then .ok { s with PC := (s.PC + 2) % 65536 } else .ok s
  else if family = 0x04 then
    if s.V inst.x ≠ inst.nn then .ok { s with PC := (s.PC + 2) % 65536 } else .ok s
  else if family = 0x05 then
    if inst.n ≠ 0 then .ok s
    else if s.V inst.x = s.V inst.y then .ok { s with PC := (s.PC + 2) % 65536 } else .ok s
  else if family = 0x06 then .ok { s with V := write s.V inst.x inst.nn }
  else if family = 0x07 then .ok { s with V := write s.V inst.x ((s.V inst.x + inst.nn) % 256) }
  else if family = 0x08 then .ok (exec_alu config s)
  else if family = 0x09 then
    if s.V inst.x ≠ s.V inst.y then .ok { s with PC := (s.PC + 2) % 65536 } else .ok s
  else if family = 0x0A then .ok { s with I := inst.nnn }
  else if family = 0x0B then .ok { s with PC := (s.V 0 + inst.nnn) % 65536 }
  else if family = 0x0C then
    .ok { s with V := write s.V inst.x (((rand % 256) &&& inst.nn) % 256) }
  else if family = 0x0D then draw_sprite config s
  else if family = 0x0E then
    if inst.nn = 0x9E then
      if s.V inst.x < 16 then
        if s.keypad (s.V inst.x) then .ok { s with PC := (s.PC + 2) % 65536 } else .ok s
      else .error .keypad_out_of_bounds
    else if inst.nn = 0xA1 then
      if s.V inst.x < 16 then
        if !s.keypad (s.V inst.x) then .ok { s with PC := (s.PC + 2) % 65536 } else .ok s
      else .error .keypad_out_of_bounds
    else .ok s
  else if family = 0x0F then exec_misc config s
  else .ok s

/-- One call of `emu_instr`: fetch, advance `PC`, decode, dispatch. -/
def emu_instr (config : config_t) (rand : Nat) (chip8 : chip8_t) : Except fault_t chip8_t :=
  match fetch chip8 with
  | .error e => .error e
  | .ok opcode =>
    execute config rand { chip8 with PC := (chip8.PC + 2) % 65536, inst := decode opcode }

/-- The first `count` consecutive calls of `emu_instr`, the `i`-th with `rands i` as the value
of `rand()`, with no other code touching the machine in between. -/
def emu_steps (config : config_t) (rands : Nat → Nat) (count : Nat) (chip8 : chip8_t) :
    Except fault_t chip8_t :=
  for_loop (fun s i => emu_instr config (rands i) s) count chip8

/-- The machine `init_chip8` leaves for a ROM file with content `rom`, in the default
configuration. -/
def loaded (rom : List Nat) : chip8_t :=
  (init_chip8 (fun _ => some rom) (set_config_from_args .CHIP8) "rom").2

/-! ## Closed form of the draw loop on the 64x32 display -/

/-- Display index of column `col` of a sprite row drawn at line `y_pos`, 64 cells per line. -/
def cell (x_start y_pos col : Nat) : Nat :=
  y_pos * 64 + (x_start + col) % 64

/-- Whether cell `k` is the target of a set bit among the first `cols` columns of a row. -/
def row_hits (sprite_byte x_start y_pos : Nat) : Nat → Nat → Bool
  | 0, _ => false
  | col + 1, k =>
    row_hits sprite_byte x_start y_pos col k ||
      (sprite_bit sprite_byte col && decide (cell x_start y_pos col = k))

/-- Whether a set bit among the first `cols` columns of a row targets a cell that is on in
`display`. -/
def row_collides (display : Nat → Bool) (sprite_byte x_start y_pos : Nat) : Nat → Bool
  | 0 => false
  | col + 1 =>
    row_collides display sprite_byte x_start y_pos col ||
      (sprite_bit sprite_byte col && display (cell x_start y_pos col))

/-- Whether cell `k` is the target of a set bit among the first `rows` rows of the sprite
at `ram[I ..]`. -/
def sprite_hits (ram : Nat → Nat) (I x_start y_start : Nat) : Nat → Nat → Bool
  | 0, _ => false
  | row + 1, k =>
    sprite_hits ram I x_start y_start row k ||
      row_hits (ram (I + row)) x_start ((y_start + row) % 32) 8 k

/-- Whether a set bit among the first `rows` rows of the sprite targets a cell that is on in
`display`. -/
def sprite_collides (display : Nat → Bool) (ram : Nat → Nat) (I x_start y_start : Nat) :
    Nat → Bool
  | 0 => false
  | row + 1 =>
    sprite_collides display ram I x_start y_start row ||
      row_collides display (ram (I + row)) x_start ((y_start + row) % 32) 8

/-! ## Sample machines -/

/-- The machine used to exercise `8XY4`: `8124` at `0x200`, `V1 = 200`, `V2 = 100`. -/
def add_machine : chip8_t :=
  { loaded [0x81, 0x24] with V := fun k => if k = 1 then 200 else if k = 2 then 100 else 0 }

/-- The machine used to exercise `8XY5`: `8345` at `0x200`, `V3 = 5`, every other
register 9. -/
def sub_machine : chip8_t :=
  { loaded [0x83, 0x45] with V := fun k => if k = 3 then 5 else 9 }

/-- The machine used to exercise `00E0`: `00E0` at `0x200`, every display cell on. -/
def clear_machine : chip8_t :=
  { loaded [0x00, 0xE0] with display := fun _ => true }

/-- The machine used to exercise `ANNN` followed by `F055`: `A300 F055` at `0x200`,
`V0 = 0x42`. -/
def store_machine : chip8_t :=
  { loaded [0xA3, 0x00, 0xF0, 0x55] with V := fun k => if k = 0 then 0x42 else 0 }

/-- The machine used to exercise `FX0A`: `F30A` at `0x200`, keys 5 and 9 down. -/
def key_machine : chip8_t :=
  { loaded [0xF3, 0x0A] with keypad := fun k => k == 5 || k == 9 }

/-- The machine used to exercise `DXYN`: `D011 D011` at `0x200`, the one-row sprite `0x80`
at `0x204`, `I = 0x204`, all registers zero, display blank. -/
def draw_machine : chip8_t :=
  { loaded [0xD0, 0x11, 0xD0, 0x11, 0x80] with I := 0x204 }

/-- The machine `draw_machine` after one call of `emu_instr`. -/
def draw_machine_once : chip8_t :=
  match emu_instr (set_config_from_args .CHIP8) 0 draw_machine with
  | .ok s1 => s1
  | .error _ => draw_machine

/-- The machine used to exercise the `8XYN` family: `812N` at `0x200`, `V1 = 0xCA`,
`V2 = 0x35`, every other register `0xFF`. -/
def alu_machine (n : Nat) : chip8_t :=
  { loaded [0x81, 0x20 + n] with V := fun k => if k = 1 then 0xCA else if k = 2 then 0x35 else 0xFF }

/-- Everything but `PC` and the debugging copy `inst` is the same in `s'` as in `s`. -/
def unchanged_except_PC (s s' : chip8_t) : Prop :=
  s'.V = s.V ∧ s'.I = s.I ∧ s'.ram = s.ram ∧ s'.stack = s.stack ∧ s'.stack_ptr = s.stack_ptr ∧
  s'.delay_timer = s.delay_timer ∧ s'.sound_timer = s.sound_timer ∧ s'.display = s.display ∧
  s'.draw = s.draw ∧ s'.keypad = s.keypad ∧ s'.state = s.state

/-! ## Closed forms of the `FX55` and `FX65` loops -/

/-- RAM after the first `count` iterations of the `FX55` loop started with index register
`I`. -/
def stored (ram V : Nat → Nat) (I count : Nat) : Nat → Nat :=
  fun a => if I ≤ a ∧ a < I + count then V (a - I) else ram a

/-- Registers after the first `count` iterations of the `FX65` loop started with index
register `I`. -/
def fetched (ram V : Nat → Nat) (I count : Nat) : Nat → Nat :=
  fun i => if i < count then ram (I + i) else V i

/-- The machine used to exercise the conditional skips: `3107` at `0x200`, `V1 = 7`. -/
def skip_machine : chip8_t :=
  { loaded [0x31, 0x07] with V := fun k => if k = 1 then 7 else 0 }

/-- The machine used to exercise call and return: `2204` at `0x200`, `00EE` at `0x204`. -/
def call_machine : chip8_t :=
  loaded [0x22, 0x04, 0x00, 0x00, 0x00, 0xEE]

/-- The machine used to exercise `FX55` and `FX65`: `F255 F265` at `0x200`, `I = 0x300`,
`Vk = k + 1`. -/
def regs_machine : chip8_t :=
  { loaded [0xF2, 0x55, 0xF2, 0x65] with V := fun k => k + 1, I := 0x300 }

/-- The machine `regs_machine` after `F255` in `CHIP8` mode, with every register then
overwritten by `0xAA` and `I` set back to `0x300`. -/
def regs_machine_clobbered : chip8_t :=
  match emu_instr (set_config_from_args .CHIP8) 0 regs_machine with
  | .ok s1 => { s1 with V := fun _ => 0xAA, I := 0x300 }
  | .error _ => regs_machine

/-- The machine `call_machine` after one call of `emu_instr`. -/
def call_machine_called : chip8_t :=
  match emu_instr (set_config_from_args .CHIP8) 0 call_machine with
  | .ok s1 => s1
  | .error _ => call_machine

/-- The machine used to exercise an opcode of family `0x09` with a nonzero low nibble:
`9011` at `0x200`, `V0 = 1`, `V1 = 0`. -/
def unknown_9_machine : chip8_t :=
  { loaded [0x90, 0x11] with V := fun k => if k = 0 then 1 else 0 }

/-- The machine used to exercise an opcode of family `0x00` with low byte `0xE0` and a
nonzero second nibble: `01E0` at `0x200`, every display cell on. -/
def unknown_0_machine : chip8_t :=
  { loaded [0x01, 0xE0] with display := fun _ => true }

/-! ## Timers and the instruction burst of `main` -/

/-- The function `update_timers`: the machine afterwards and the flag passed to
`SDL_PauseAudioDevice` (`true` pauses the audio device). -/
def update_timers (chip8 : chip8_t) : chip8_t × Bool :=
  let s1 := if chip8.delay_timer > 0 then { chip8 with delay_timer := chip8.delay_timer - 1 }
            else chip8
  if s1.sound_timer > 0 then ({ s1 with sound_timer := s1.sound_timer - 1 }, false)
  else (s1, true)

/-- The loop `for (i = 0; i < instr_per_sec / 60; i++) { emu_instr; if (CHIP8 && family 0xD)
break; }` of `main` (lines 1186-1194), entered at iteration `i` with `budget` iterations
left: the number of calls of `emu_instr` made in total and the machine afterwards. -/
def instr_burst (config : config_t) (rands : Nat → Nat) :
    Nat → Nat → chip8_t → Except fault_t (Nat × chip8_t)
  | 0, i, chip8 => .ok (i, chip8)
  | budget + 1, i, chip8 =>
    match emu_instr config (rands i) chip8 with
    | .error e => .error e
    | .ok s1 =>
      if config.current_extension = .CHIP8 ∧ s1.inst.opcode >>> 12 = 0xD then .ok (i + 1, s1)
      else instr_burst config rands budget (i + 1) s1

/-- The instruction burst of one pass of the main loop. -/
def main_burst (config : config_t) (rands : Nat → Nat) (chip8 : chip8_t) :
    Except fault_t (Nat × chip8_t) :=
  instr_burst config rands (config.instr_per_sec / 60) 0 chip8

/-! ## Input events (`handle_input`) -/

/-- The key symbols `handle_input` distinguishes; `OTHER` is any other key. -/
inductive keysym_t where
  | ESCAPE | SPACE | EQUALS
  | j | k | o | p | t | y
  | n1 | n2 | n3 | n4
  | q | w | e | r
  | a | s | d | f
  | z | x | c | v
  | UP | DOWN | LEFT | RIGHT
  | OTHER
  deriving DecidableEq

/-- The events `handle_input` distinguishes; `OTHER` is any other event type. -/
inductive event_t where
  | QUIT
  | KEYDOWN (sym : keysym_t)
  | KEYUP (sym : keysym_t)
  | OTHER
  deriving DecidableEq

/-- The keypad entry a key is mapped to (the same table serves `SDL_KEYDOWN` and
`SDL_KEYUP`). -/
def keypad_index : keysym_t → Option Nat
  | .n1 => some 0x1 | .n2 => some 0x2 | .n3 => some 0x3 | .n4 => some 0xC
  | .q => some 0x4 | .w => some 0x5 | .e => some 0x6 | .r => some 0xD
  | .a => some 0x7 | .s => some 0x8 | .d => some 0x9 | .f => some 0xE
  | .z => some 0xA | .x => some 0x0 | .c => some 0xB | .v => some 0xF
  | .UP => some 0x5 | .DOWN => some 0x8 | .LEFT => some 0x4 | .RIGHT => some 0x6
  | _ => none

/-- The body of the `while (SDL_PollEvent(&event))` loop of `handle_input`, on the machine.
The keys `j k o p t y` change only rendering and audio fields of the configuration. -/
def handle_event (fopen_rb : String → Option (List Nat)) (config : config_t)
    (chip8 : chip8_t) (event : event_t) : chip8_t :=
  match event with
  | .QUIT => { chip8 with state := .QUIT }
  | .KEYDOWN sym =>
    match sym with
    | .ESCAPE => { chip8 with state := .QUIT }
    | .SPACE =>
      if chip8.state = .RUNNING then { chip8 with state := .PAUSED }
      else { chip8 with state := .RUNNING }
    | .EQUALS => (init_chip8 fopen_rb config chip8.rom_name).2
    | _ =>
      match keypad_index sym with
      | some i => { chip8 with keypad := write chip8.keypad i true }
      | none => chip8
  | .KEYUP sym =>
    match keypad_index sym with
    | some i => { chip8 with keypad := write chip8.keypad i false }
    | none => chip8
  | .OTHER => chip8

/-- The function `handle_input` on the machine, `events` being the events `SDL_PollEvent`
delivers during the call, in order. -/
def handle_input (fopen_rb : String → Option (List Nat)) (config : config_t)
    (events : List event_t) (chip8 : chip8_t) : chip8_t :=
  events.foldl (handle_event fopen_rb config) chip8

/-- The machine used to exercise `FX33`: `F333` at `0x200`, `V3 = 237`, `I = 0x300`. -/
def bcd_machine : chip8_t :=
  { loaded [0xF3, 0x33] with V := fun k => if k = 3 then 237 else 0, I := 0x300 }

/-- The machine used to exercise `7XNN`: `71FF` at `0x200`, `V1 = 2`, `VF = 9`. -/
def imm_machine : chip8_t :=
  { loaded [0x71, 0xFF] with V := fun k => if k = 1 then 2 else if k = 15 then 9 else 0 }

/-- The machine used to exercise `EX9E`: `E29E` at `0x200`, `V2 = 7`, key 7 down. -/
def key_skip_machine : chip8_t :=
  { loaded [0xE2, 0x9E] with V := fun k => if k = 2 then 7 else 0, keypad := fun k => k == 7 }

/-- The machine used to exercise `FX29`: `F129` at `0x200`, `V1 = 0xA`. -/
def font_machine : chip8_t :=
  { loaded [0xF1, 0x29] with V := fun k => if k = 1 then 0xA else 0 }

/-- The machine used to exercise a call on a full stack: `2200` at `0x200`, a subroutine that
calls itself. -/
def recursion_machine : chip8_t :=
  loaded [0x22, 0x00]

/-- The machine used to exercise `8XYN` with the flag register as destination: `8F2N` at
`0x200`, `VF = 0xCA`, `V2 = 0x40`, every other register zero. -/
def flag_dest_machine (n : Nat) : chip8_t :=
  { loaded [0x8F, 0x20 + n] with V := fun k => if k = 15 then 0xCA else if k = 2 then 0x40 else 0 }

/-! ## The display indices of the draw loop -/

/-- The value of `y_pos` in the iteration `row` of the outer loop (line 987), for a nonzero
`window_height`. -/
def y_pos (config : config_t) (y_start row : Nat) : Nat :=
  ((y_start + row) % 4294967296 % config.window_height) % 256

/-- The value of `x_pos` in the iteration `col` of the inner loop (line 998), for a nonzero
`window_width`. -/
def x_pos (config : config_t) (x_start col : Nat) : Nat :=
  ((x_start + col) % 4294967296 % config.window_width) % 256

/-- The value of `display_idx` in the iterations `row`, `col` (line 1007). -/
def display_idx (config : config_t) (x_start y_start row col : Nat) : Nat :=
  ((y_pos config y_start row * config.window_width + x_pos config x_start col) % 4294967296)
    % 65536

/-- The machine used to exercise `DXYN` on an all-zero sprite: `D012` at `0x200`, `I = 0x300`
(two zero bytes there), every register 7, the display lit at cell 0. -/
def zero_sprite_machine : chip8_t :=
  { loaded [0xD0, 0x12] with I := 0x300, display := fun k => k == 0, V := fun _ => 7 }

/-- The machine used to exercise a fetch at the end of RAM: `1FFF` at `0x200`. -/
def jump_end_machine : chip8_t :=
  loaded [0x1F, 0xFF]

/-- The machine `jump_end_machine` after one call of `emu_instr`. -/
def jump_end_machine_once : chip8_t :=
  match emu_instr (set_config_from_args .CHIP8) 0 jump_end_machine with
  | .ok s1 => s1
  | .error _ => jump_end_machine

/-- The machine used to exercise `FX33` at the end of RAM: `AFFF F033` at `0x200`. -/
def index_end_machine : chip8_t :=
  loaded [0xAF, 0xFF, 0xF0, 0x33]

/-- The machine `index_end_machine` after one call of `emu_instr`. -/
def index_end_machine_once : chip8_t :=
  match emu_instr (set_config_from_args .CHIP8) 0 index_end_machine with
  | .ok s1 => s1
  | .error _ => index_end_machine

/-- The machine used to exercise `FX55` with `I` far outside RAM: the ROM `60FF AFFF`, forty
times `F01E`, `606B F01E 6001 F055`, which adds `40 * 255 + 107` to `I = 0xFFF` and then
stores `V0 = 1` through `I = 14402`. -/
def far_store_machine : chip8_t :=
  loaded ([0x60, 0xFF, 0xAF, 0xFF] ++ (List.replicate 40 [0xF0, 0x1E]).flatten
    ++ [0x60, 0x6B, 0xF0, 0x1E, 0x60, 0x01, 0xF0, 0x55])

/-- The machine `far_store_machine` after 45 calls of `emu_instr`. -/
def far_store_machine_at_store : chip8_t :=
  match emu_steps (set_config_from_args .CHIP8) (fun _ => 0) 45 far_store_machine with
  | .ok s1 => s1
  | .error _ => far_store_machine

/-! # Verified properties -/

/-! ## Bit operations as arithmetic -/

theorem land_0FFF (w : Nat) : w &&& 0x0FFF = w % 4096 := Nat.and_pow_two_sub_one_eq_mod w 12

theorem land_00FF (w : Nat) : w &&& 0x00FF = w % 256 := Nat.and_pow_two_sub_one_eq_mod w 8

theorem land_000F (w : Nat) : w &&& 0x000F = w % 16 := Nat.and_pow_two_sub_one_eq_mod w 4

theorem decode_opcode (w : Nat) : (decode w).opcode = w := rfl

theorem decode_nnn (w : Nat) : (decode w).nnn = w % 4096 := by
  simp only [decode, land_0FFF]; omega

theorem decode_nn (w : Nat) : (decode w).nn = w % 256 := by
  simp only [decode, land_00FF]; omega

theorem decode_n (w : Nat) : (decode w).n = w % 16 := by
  simp only [decode, land_000F]; omega

theorem decode_x (w : Nat) : (decode w).x = w / 256 % 16 := by
  simp only [decode, land_000F, Nat.shiftRight_eq_div_pow]; omega

theorem decode_y (w : Nat) : (decode w).y = w / 16 % 16 := by
  simp only [decode, land_000F, Nat.shiftRight_eq_div_pow]; omega

theorem family_eq (w : Nat) : (w >>> 12) &&& 0x0F = w / 4096 % 16 := by
  simp only [land_000F, Nat.shiftRight_eq_div_pow]

/-! ## Fetch -/

theorem fetch_bound {s : chip8_t} {w : Nat} (h : fetch s = .ok w) :
    s.PC + 1 < 4096 ∧ w < 65536 := by
  unfold fetch at h
  split at h
  · injection h with h; subst h; exact ⟨by assumption, Nat.mod_lt _ (by decide)⟩
  · cases h

theorem fetch_congr {s t : chip8_t} (hpc : t.PC = s.PC) (hram : t.ram = s.ram) :
    fetch t = fetch s := by
  simp [fetch, hpc, hram]

theorem emu_instr_of_fetch {config : config_t} {rand : Nat} {s : chip8_t} {w : Nat}
    (h : fetch s = .ok w) :
    emu_instr config rand s
      = execute config rand { s with PC := (s.PC + 2) % 65536, inst := decode w } := by
  simp [emu_instr, h]

/-! ## Initialisation -/

theorem getD_lt_of_forall (l : List Nat) (h : ∀ b ∈ l, b < 256) (k : Nat) : l.getD k 0 < 256 := by
  induction l generalizing k with
  | nil => simp
  | cons a l ih =>
    cases k with
    | zero => simpa using h a (by simp)
    | succ k => simpa using ih (fun b hb => h b (by simp [hb])) k

theorem font_u8 (k : Nat) : font.getD k 0 < 256 :=
  getD_lt_of_forall font (by decide) k

theorem init_chip8_WF (fopen_rb : String → Option (List Nat)) (config : config_t)
    (rom_name : String) (hbytes : ∀ rom, fopen_rb rom_name = some rom → ∀ b ∈ rom, b < 256) :
    (init_chip8 fopen_rb config rom_name).2.WF := by
  have hfont : ∀ k, (if k < 80 then font.getD k 0 else 0) < 256 := by
    intro k; split
    · exact font_u8 k
    · decide
  unfold init_chip8
  cases hf : fopen_rb rom_name with
  | none =>
    refine ⟨fun k _ => hfont k, ?_, ?_, ?_, ?_, ?_, ?_, ?_⟩ <;> simp [zeroed]
  | some rom =>
    have hrom := getD_lt_of_forall rom (hbytes rom hf)
    have hread : ∀ k, (fread_one (fun k => if k < 80 then font.getD k 0 else 0) 0x200
        rom.length rom).2 k < 256 := by
      intro k
      unfold fread_one
      split
      · exact hfont k
      · dsimp only
        split
        · exact hrom _
        · exact hfont k
    dsimp only
    split
    · refine ⟨fun k _ => hfont k, ?_, ?_, ?_, ?_, ?_, ?_, ?_⟩ <;> simp [zeroed]
    · split
      · refine ⟨fun k _ => hread k, ?_, ?_, ?_, ?_, ?_, ?_, ?_⟩ <;> simp [zeroed]
      · refine ⟨fun k _ => hread k, ?_, ?_, ?_, ?_, ?_, ?_, ?_⟩ <;> simp [zeroed]

theorem loaded_WF (rom : List Nat) (h : ∀ b ∈ rom, b < 256) : (loaded rom).WF :=
  init_chip8_WF _ _ _ (fun r hr => by cases hr; exact h)

theorem WF_with_V {s : chip8_t} (h : s.WF) (V : Nat → Nat) (hV : ∀ k, k < 16 → V k < 256) :
    ({ s with V := V } : chip8_t).WF :=
  ⟨h.ram_u8, hV, h.stack_u16, h.stack_ptr_le, h.I_u16, h.PC_u16, h.delay_u8, h.sound_u8⟩

/-! ## Arithmetic with flags (`8XY4`, `8XY5`) -/

/-- Claim C1: with `VX = a`, `VY = b` and `X` other than `0xF`, opcode `8XY4` in any quirk mode
leaves `VX = (a + b) mod 256` and `VF = 1` if `a + b > 255`, `VF = 0` otherwise. -/
theorem add_8XY4 (config : config_t) (rand : Nat) (s : chip8_t) (x y : Nat)
    (hwf : s.WF) (hx : x < 16) (hy : y < 16) (hxF : x ≠ 0xF)
    (hop : fetch s = .ok (0x8004 + x * 256 + y * 16)) :
    ∃ s', emu_instr config rand s = .ok s' ∧ s'.V x = (s.V x + s.V y) % 256 ∧
      s'.V 0xF = if s.V x + s.V y > 255 then 1 else 0 := by
  have hX := hwf.V_u8 x hx
  have hY := hwf.V_u8 y hy
  have e1 : (0x8004 + x * 256 + y * 16) / 4096 % 16 = 8 := by omega
  have e2 : (0x8004 + x * 256 + y * 16) % 16 = 4 := by omega
  have e3 : (0x8004 + x * 256 + y * 16) / 256 % 16 = x := by omega
  have e4 : (0x8004 + x * 256 + y * 16) / 16 % 16 = y := by omega
  rw [emu_instr_of_fetch hop]
  simp only [execute, exec_alu, family_eq, decode_opcode, decode_n, decode_x, decode_y,
    e1, e2, e3, e4]
  simp only [Nat.reduceEqDiff, if_false, if_true]
  refine ⟨_, rfl, ?_, ?_⟩
  · simp [write, hxF]
  · have : (s.V x + s.V y) % 65536 = s.V x + s.V y := by omega
    simp [write, this]

theorem add_8XY4_witness :
    ∃ s', emu_instr (set_config_from_args .SUPERCHIP) 7 add_machine = .ok s' ∧
      s'.V 1 = (add_machine.V 1 + add_machine.V 2) % 256 ∧
      s'.V 0xF = if add_machine.V 1 + add_machine.V 2 > 255 then 1 else 0 :=
  add_8XY4 (set_config_from_args .SUPERCHIP) 7 add_machine 1 2
    (WF_with_V (loaded_WF _ (by decide)) _ (by intro k _; split_ifs <;> decide))
    (by decide) (by decide) (by decide) rfl

/-- Claim C2: with `VX = a`, `VY = b` and `X` other than `0xF`, opcode `8XY5` in any quirk mode
leaves `VX = (a - b) mod 256` and `VF = 1` if `a >= b`, `VF = 0` otherwise. -/
theorem sub_8XY5 (config : config_t) (rand : Nat) (s : chip8_t) (x y : Nat)
    (hx : x < 16) (hy : y < 16) (hxF : x ≠ 0xF)
    (hop : fetch s = .ok (0x8005 + x * 256 + y * 16)) :
    ∃ s', emu_instr config rand s = .ok s' ∧
      (s'.V x : Int) = ((s.V x : Int) - (s.V y : Int)) % 256 ∧
      s'.V 0xF = if s.V x ≥ s.V y then 1 else 0 := by
  have e1 : (0x8005 + x * 256 + y * 16) / 4096 % 16 = 8 := by omega
  have e2 : (0x8005 + x * 256 + y * 16) % 16 = 5 := by omega
  have e3 : (0x8005 + x * 256 + y * 16) / 256 % 16 = x := by omega
  have e4 : (0x8005 + x * 256 + y * 16) / 16 % 16 = y := by omega
  rw [emu_instr_of_fetch hop]
  simp only [execute, exec_alu, family_eq, decode_opcode, decode_n, decode_x, decode_y,
    e1, e2, e3, e4]
  simp only [Nat.reduceEqDiff, if_false, if_true]
  refine ⟨_, rfl, ?_, ?_⟩
  · simp only [write, hxF, if_false, if_true]
    exact Int.toNat_of_nonneg (Int.emod_nonneg _ (by decide))
  · simp [write]

theorem sub_8XY5_witness :
    ∃ s', emu_instr (set_config_from_args .XOCHIP) 0 sub_machine = .ok s' ∧
      (s'.V 3 : Int) = ((sub_machine.V 3 : Int) - (sub_machine.V 4 : Int)) % 256 ∧
      s'.V 0xF = if sub_machine.V 3 ≥ sub_machine.V 4 then 1 else 0 :=
  sub_8XY5 (set_config_from_args .XOCHIP) 0 sub_machine 3 4
    (by decide) (by decide) (by decide) rfl

/-! ## Clear screen (`00E0`) -/

/-- Claim C3: opcode `00E0` leaves all 2048 display cells false and the draw flag true,
changes no register, RAM byte, stack entry or timer, and leaves `PC` 2 past the
instruction. -/
theorem clear_00E0 (config : config_t) (rand : Nat) (s : chip8_t)
    (hop : fetch s = .ok 0x00E0) :
    ∃ s', emu_instr config rand s = .ok s' ∧
      (∀ k, k < 2048 → s'.display k = false) ∧ s'.draw = true ∧
      s'.V = s.V ∧ s'.I = s.I ∧ s'.ram = s.ram ∧
      s'.stack = s.stack ∧ s'.stack_ptr = s.stack_ptr ∧
      s'.delay_timer = s.delay_timer ∧ s'.sound_timer = s.sound_timer ∧
      s'.PC = s.PC + 2 := by
  have hb := (fetch_bound hop).1
  rw [emu_instr_of_fetch hop]
  simp only [execute, family_eq, decode_opcode, decode_nn]
  simp only [Nat.reduceDiv, Nat.reduceMod, if_true]
  refine ⟨_, rfl, ?_, rfl, rfl, rfl, rfl, rfl, rfl, rfl, rfl, ?_⟩
  · intro k hk; simp [hk]
  · show (s.PC + 2) % 65536 = s.PC + 2
    omega

theorem clear_00E0_witness :
    ∃ s', emu_instr (set_config_from_args .CHIP8) 0 clear_machine = .ok s' ∧
      (∀ k, k < 2048 → s'.display k = false) ∧ s'.draw = true :=
  let ⟨s', h, hd, hdraw, _⟩ := clear_00E0 (set_config_from_args .CHIP8) 0 clear_machine rfl
  ⟨s', h, hd, hdraw⟩

/-! ## Program loading (`init_chip8`) -/

/-- Counterexample to claim C4 as stated: an empty ROM file has length `0 <= 3584`, yet
`init_chip8` returns `false` on it, because `fread` of one item of size zero returns 0. -/
theorem init_chip8_empty_rom :
    ¬ ((init_chip8 (fun _ => some []) (set_config_from_args .CHIP8) "rom").1 = true
        ↔ ([] : List Nat).length ≤ 3584) := by
  decide

theorem init_chip8_load (fopen_rb : String → Option (List Nat)) (config : config_t)
    (rom_name : String) (rom : List Nat) (hfile : fopen_rb rom_name = some rom) :
    ((init_chip8 fopen_rb config rom_name).1 = true ↔ 1 ≤ rom.length ∧ rom.length ≤ 3584) ∧
    ((init_chip8 fopen_rb config rom_name).1 = true →
      (init_chip8 fopen_rb config rom_name).2.state = .RUNNING ∧
      ∀ k, k < rom.length → (init_chip8 fopen_rb config rom_name).2.ram (512 + k) = rom.getD k 0) ∧
    ((init_chip8 fopen_rb config rom_name).1 = false →
      (init_chip8 fopen_rb config rom_name).2.state = .QUIT) := by
  unfold init_chip8
  simp only [hfile]
  by_cases hbig : rom.length > 4096 - 0x200
  · simp only [hbig, if_true]
    refine ⟨?_, ?_, ?_⟩
    · simp; omega
    · simp
    · simp [zeroed]
  · simp only [hbig, if_false]
    by_cases hz : rom.length = 0
    · simp [fread_one, hz, zeroed]
    · have hpos : 1 ≤ rom.length := by omega
      simp only [fread_one, hz, if_false, le_refl, if_true, ne_eq, not_true_eq_false, Nat.min_self]
      refine ⟨?_, ?_, ?_⟩
      · simp; omega
      · intro _
        exact ⟨trivial, fun k hk => by simp [hk]⟩
      · simp

/-- Claim C4, amended: for a ROM file of length `L`, `init_chip8` succeeds exactly when
`1 <= L <= 3584`; on success the machine is `RUNNING` and byte `k` of the file is at RAM
address `512 + k` for every `k < L`; on failure (`L = 0` or `L >= 3585`) the machine is left
in state `QUIT`.  In particular a 3584-byte file loads and a 3585-byte file is rejected. -/
theorem init_chip8_size (fopen_rb : String → Option (List Nat)) (config : config_t)
    (rom_name : String) (rom : List Nat) (hfile : fopen_rb rom_name = some rom) :
    ((init_chip8 fopen_rb config rom_name).1 = true ↔ 1 ≤ rom.length ∧ rom.length ≤ 3584) ∧
    ((init_chip8 fopen_rb config rom_name).1 = true →
      (init_chip8 fopen_rb config rom_name).2.state = .RUNNING ∧
      ∀ k, k < rom.length → (init_chip8 fopen_rb config rom_name).2.ram (512 + k) = rom.getD k 0) ∧
    ((init_chip8 fopen_rb config rom_name).1 = false →
      (init_chip8 fopen_rb config rom_name).2.state = .QUIT) ∧
    (rom.length = 3584 → (init_chip8 fopen_rb config rom_name).1 = true) ∧
    (rom.length = 3585 → (init_chip8 fopen_rb config rom_name).1 = false) := by
  obtain ⟨hiff, hok, hfail⟩ := init_chip8_load fopen_rb config rom_name rom hfile
  refine ⟨hiff, hok, hfail, fun h => hiff.mpr (by omega), fun h => ?_⟩
  cases hflag : (init_chip8 fopen_rb config rom_name).1
  · rfl
  · have := hiff.mp hflag
    omega

theorem init_chip8_size_witness :
    ((init_chip8 (fun _ => some [0x12, 0x00]) (set_config_from_args .CHIP8) "pong.ch8").1 = true
      ↔ 1 ≤ [0x12, 0x00].length ∧ [0x12, 0x00].length ≤ 3584) :=
  (init_chip8_size (fun _ => some [0x12, 0x00]) (set_config_from_args .CHIP8) "pong.ch8"
    [0x12, 0x00] rfl).1

/-! ## `ANNN` followed by `F055` -/

theorem store_F055 (config : config_t) (rand : Nat) (t : chip8_t)
    (hop : fetch t = .ok 0xF055) (hI : t.I < 4096) :
    ∃ s2, emu_instr config rand t = .ok s2 ∧
      s2.ram t.I = t.V 0 ∧ (∀ k, k ≠ t.I → s2.ram k = t.ram k) ∧
      (config.current_extension = .CHIP8 → s2.I = t.I + 1) ∧
      (config.current_extension ≠ .CHIP8 → s2.I = t.I) := by
  rw [emu_instr_of_fetch hop]
  simp only [execute, exec_misc, family_eq, decode_opcode, decode_nn, decode_x]
  simp only [Nat.reduceDiv, Nat.reduceMod, Nat.reduceEqDiff, if_false, if_true, for_loop,
    store_reg]
  have hmod : (t.I + 1) % 65536 = t.I + 1 := by omega
  by_cases hext : config.current_extension = .CHIP8
  · simp only [hext, if_true, hI]
    exact ⟨_, rfl, by simp [write], fun k hk => by simp [write, hk], fun _ => hmod,
      fun h => absurd rfl h⟩
  · simp only [hext, if_false, Nat.add_zero, hI, if_true]
    exact ⟨_, rfl, by simp [write], fun k hk => by simp [write, hk], fun h => h.elim,
      fun _ => rfl⟩

/-- Claim C5: for `NNN <= 4095`, executing `ANNN` and then `F055` writes `V0` to RAM address
`NNN` and changes no other RAM byte; afterwards `I = NNN + 1` in `CHIP8` mode and `I = NNN`
in `SUPERCHIP` and `XOCHIP` modes. -/
theorem set_index_then_store (config : config_t) (rand1 rand2 : Nat) (s : chip8_t) (nnn : Nat)
    (hnnn : nnn ≤ 4095)
    (hop1 : fetch s = .ok (0xA000 + nnn))
    (hop2 : fetch { s with PC := s.PC + 2 } = .ok 0xF055) :
    ∃ s1 s2, emu_instr config rand1 s = .ok s1 ∧ emu_instr config rand2 s1 = .ok s2 ∧
      s2.ram nnn = s.V 0 ∧ (∀ k, k ≠ nnn → s2.ram k = s.ram k) ∧
      (config.current_extension = .CHIP8 → s2.I = nnn + 1) ∧
      (config.current_extension = .SUPERCHIP → s2.I = nnn) ∧
      (config.current_extension = .XOCHIP → s2.I = nnn) := by
  have hb := (fetch_bound hop2).1
  have hpc : (s.PC + 2) % 65536 = s.PC + 2 := by dsimp only at hb; omega
  have e1 : (0xA000 + nnn) / 4096 % 16 = 10 := by omega
  have e2 : (0xA000 + nnn) % 4096 = nnn := by omega
  have h1 : emu_instr config rand1 s
      = .ok { s with PC := s.PC + 2, inst := decode (0xA000 + nnn), I := nnn } := by
    rw [emu_instr_of_fetch hop1]
    simp only [execute, family_eq, decode_opcode, decode_nnn, e1, e2, hpc]
    simp
  have hop2' : fetch { s with PC := s.PC + 2, inst := decode (0xA000 + nnn), I := nnn }
      = .ok 0xF055 := by
    rw [← hop2]; exact fetch_congr rfl rfl
  obtain ⟨s2, h2, hw, hframe, hleg, hmod⟩ :=
    store_F055 config rand2 _ hop2' (show nnn < 4096 by omega)
  exact ⟨_, s2, h1, h2, hw, hframe, hleg, fun h => hmod (by simp [h]), fun h => hmod (by simp [h])⟩

theorem set_index_then_store_witness :
    ∃ s1 s2, emu_instr (set_config_from_args .CHIP8) 0 store_machine = .ok s1 ∧
      emu_instr (set_config_from_args .CHIP8) 0 s1 = .ok s2 ∧
      s2.ram 0x300 = store_machine.V 0 ∧ s2.I = 0x300 + 1 :=
  let ⟨s1, s2, h1, h2, hw, _, hI, _⟩ :=
    set_index_then_store (set_config_from_args .CHIP8) 0 0 store_machine 0x300
      (by decide) rfl rfl
  ⟨s1, s2, h1, h2, hw, hI rfl⟩

/-! ## Waiting for a key (`FX0A`) -/

theorem find?_range_none (p : Nat → Bool) (n : Nat) (h : ∀ i, i < n → p i = false) :
    (List.range n).find? p = none := by
  rw [List.find?_eq_none]
  intro i hi
  simp [h i (List.mem_range.mp hi)]

theorem find?_range_first (p : Nat → Bool) (n i : Nat) (hi : i < n) (hp : p i = true)
    (hlow : ∀ j, j < i → p j = false) : (List.range n).find? p = some i := by
  induction n with
  | zero => omega
  | succ n ih =>
    rw [List.range_succ, List.find?_append]
    by_cases hin : i < n
    · rw [ih hin]; rfl
    · have : i = n := by omega
      subst this
      rw [find?_range_none p i hlow]
      simp [hp]

theorem wait_key_step (config : config_t) (rand : Nat) (s : chip8_t) (x : Nat)
    (hx : x < 16) (hop : fetch s = .ok (0xF00A + x * 256))
    (hup : ∀ i, i < 16 → s.keypad i = false) :
    ∃ s', emu_instr config rand s = .ok s' ∧ s'.PC = s.PC ∧ s'.V = s.V ∧ s'.ram = s.ram ∧
      s'.keypad = s.keypad := by
  have hb := (fetch_bound hop).1
  have e1 : (0xF00A + x * 256) / 4096 % 16 = 15 := by omega
  have e2 : (0xF00A + x * 256) % 256 = 10 := by omega
  rw [emu_instr_of_fetch hop]
  simp only [execute, exec_misc, family_eq, decode_opcode, decode_nn, decode_x, e1, e2]
  simp only [Nat.reduceEqDiff, if_false, if_true, find?_range_none _ 16 hup]
  refine ⟨_, rfl, ?_, rfl, rfl, rfl⟩
  show ((s.PC + 2) % 65536 + 65536 - 2) % 65536 = s.PC
  omega

/-- Claim C8: on opcode `FX0A`, if all 16 keypad entries are up then `PC` is left at the
address of the instruction and no `V` register changes, after one step and after any
number of consecutive steps; if some key is down then `VX` receives the index of the
lowest-numbered key that is down and `PC` ends 2 past the instruction. -/
theorem wait_key_FX0A (config : config_t) (rand : Nat) (s : chip8_t) (x : Nat)
    (hx : x < 16) (hop : fetch s = .ok (0xF00A + x * 256)) :
    ((∀ i, i < 16 → s.keypad i = false) →
      (∃ s', emu_instr config rand s = .ok s' ∧ s'.PC = s.PC ∧ s'.V = s.V) ∧
      (∀ (rands : Nat → Nat) (count : Nat),
        ∃ s', emu_steps config rands count s = .ok s' ∧ s'.PC = s.PC ∧ s'.V = s.V)) ∧
    (∀ i, i < 16 → s.keypad i = true → (∀ j, j < i → s.keypad j = false) →
      ∃ s', emu_instr config rand s = .ok s' ∧ s'.V x = i ∧ s'.PC = s.PC + 2) := by
  constructor
  · intro hup
    constructor
    · obtain ⟨s', h, hpc, hV, _⟩ := wait_key_step config rand s x hx hop hup
      exact ⟨s', h, hpc, hV⟩
    · intro rands count
      suffices h : ∃ s', emu_steps config rands count s = .ok s' ∧ s'.PC = s.PC ∧ s'.V = s.V ∧
          s'.ram = s.ram ∧ s'.keypad = s.keypad by
        obtain ⟨s', h, hpc, hV, _⟩ := h
        exact ⟨s', h, hpc, hV⟩
      induction count with
      | zero => exact ⟨s, rfl, rfl, rfl, rfl, rfl⟩
      | succ n ih =>
        obtain ⟨t, ht, hpc, hV, hram, hkey⟩ := ih
        have hopt : fetch t = .ok (0xF00A + x * 256) := by rw [fetch_congr hpc hram]; exact hop
        obtain ⟨s', h, hpc', hV', hram', hkey'⟩ :=
          wait_key_step config (rands n) t x hx hopt (by rw [hkey]; exact hup)
        refine ⟨s', ?_, hpc'.trans hpc, hV'.trans hV, hram'.trans hram, hkey'.trans hkey⟩
        unfold emu_steps at ht ⊢
        simp only [for_loop, ht]
        exact h
  · intro i hi hdown hlow
    have hb := (fetch_bound hop).1
    have e1 : (0xF00A + x * 256) / 4096 % 16 = 15 := by omega
    have e2 : (0xF00A + x * 256) % 256 = 10 := by omega
    have e3 : (0xF00A + x * 256) / 256 % 16 = x := by omega
    rw [emu_instr_of_fetch hop]
    simp only [execute, exec_misc, family_eq, decode_opcode, decode_nn, decode_x, e1, e2, e3]
    simp only [Nat.reduceEqDiff, if_false, if_true,
      find?_range_first (fun i => s.keypad i) 16 i hi hdown hlow]
    refine ⟨_, rfl, ?_, ?_⟩
    · simp [write]
    · show (s.PC + 2) % 65536 = s.PC + 2
      omega

theorem wait_key_FX0A_witness :
    ∃ s', emu_instr (set_config_from_args .CHIP8) 0 key_machine = .ok s' ∧ s'.V 3 = 5 ∧
      s'.PC = key_machine.PC + 2 :=
  (wait_key_FX0A (set_config_from_args .CHIP8) 0 key_machine 3 (by decide) rfl).2 5
    (by decide) rfl (by intro j hj; interval_cases j <;> rfl)

/-! ## Decoding -/

/-- Claim C9: for every opcode `w` the decoded fields are `nnn = w & 0x0FFF`, `nn = w & 0x00FF`,
`n = w & 0x000F`, `x = (w >> 8) & 0xF`, `y = (w >> 4) & 0xF`; decoding is a total function,
and `nnn = x*256 + nn`, `nn = y*16 + n`, `w = (w >> 12)*4096 + nnn`. -/
theorem decode_total (w : Nat) :
    (decode w).opcode = w ∧
    (decode w).nnn = w &&& 0x0FFF ∧ (decode w).nn = w &&& 0x00FF ∧ (decode w).n = w &&& 0x000F ∧
    (decode w).x = (w >>> 8) &&& 0xF ∧ (decode w).y = (w >>> 4) &&& 0xF ∧
    (decode w).nnn = (decode w).x * 256 + (decode w).nn ∧
    (decode w).nn = (decode w).y * 16 + (decode w).n ∧
    w = (w >>> 12) * 4096 + (decode w).nnn := by
  refine ⟨rfl, ?_, ?_, ?_, ?_, ?_, ?_, ?_, ?_⟩
  · rw [decode_nnn, land_0FFF]
  · rw [decode_nn, land_00FF]
  · rw [decode_n, land_000F]
  · rw [decode_x, land_000F, Nat.shiftRight_eq_div_pow]
  · rw [decode_y, land_000F, Nat.shiftRight_eq_div_pow]
  · rw [decode_nnn, decode_x, decode_nn]; omega
  · rw [decode_nn, decode_y, decode_n]; omega
  · rw [decode_nnn, Nat.shiftRight_eq_div_pow]; omega

/-! ## The draw loop (`DXYN`) on the 64x32 display -/

theorem row_hits_iff (b vx yp : Nat) (n k : Nat) :
    row_hits b vx yp n k = true ↔ ∃ c, c < n ∧ sprite_bit b c = true ∧ cell vx yp c = k := by
  induction n with
  | zero => simp [row_hits]
  | succ n ih =>
    simp only [row_hits, Bool.or_eq_true, Bool.and_eq_true, decide_eq_true_eq, ih]
    constructor
    · rintro (⟨c, hc, h⟩ | h)
      · exact ⟨c, by omega, h⟩
      · exact ⟨n, by omega, h⟩
    · rintro ⟨c, hc, h⟩
      by_cases hcn : c = n
      · subst hcn; exact Or.inr h
      · exact Or.inl ⟨c, by omega, h⟩

theorem row_collides_iff (d : Nat → Bool) (b vx yp : Nat) (n : Nat) :
    row_collides d b vx yp n = true ↔
      ∃ c, c < n ∧ sprite_bit b c = true ∧ d (cell vx yp c) = true := by
  induction n with
  | zero => simp [row_collides]
  | succ n ih =>
    simp only [row_collides, Bool.or_eq_true, Bool.and_eq_true, ih]
    constructor
    · rintro (⟨c, hc, h⟩ | h)
      · exact ⟨c, by omega, h⟩
      · exact ⟨n, by omega, h⟩
    · rintro ⟨c, hc, h⟩
      by_cases hcn : c = n
      · subst hcn; exact Or.inr h
      · exact Or.inl ⟨c, by omega, h⟩

theorem cell_inj {vx yp yp' c c' : Nat} (hc : c < 8) (hc' : c' < 8)
    (h : cell vx yp c = cell vx yp' c') : yp = yp' ∧ c = c' := by
  unfold cell at h
  omega

theorem cell_lt {vx yp c : Nat} (hy : yp < 32) : cell vx yp c < 2048 := by
  unfold cell
  omega

theorem row_hits_self (b vx yp n : Nat) (hn : n < 8) :
    row_hits b vx yp n (cell vx yp n) = false := by
  rw [Bool.eq_false_iff]
  intro h
  obtain ⟨c, hc, _, hcell⟩ := (row_hits_iff b vx yp n _).mp h
  have := (cell_inj (by omega) hn hcell).2
  omega

theorem write_write {α : Type} (a : Nat → α) (i : Nat) (v v' : α) :
    write (write a i v) i v' = write a i v' := by
  funext k
  unfold write
  split <;> rfl

theorem draw_col_64 (config : config_t) (hw : config.window_width = 64)
    (vx yp b : Nat) (hy : yp < 32) (t : chip8_t) (c : Nat) :
    draw_col config vx yp b t c
      = .ok (if sprite_bit b c then
          { t with
            display := write t.display (cell vx yp c) (!t.display (cell vx yp c))
            V := if t.display (cell vx yp c) then write t.V 0xF 1 else t.V }
        else t) := by
  have hidx : ((yp * 64 + (vx + c) % 4294967296 % 64 % 256) % 4294967296) % 65536
      = cell vx yp c := by unfold cell; omega
  have hlt := @cell_lt vx yp c hy
  simp only [draw_col, hw, hidx, hlt, if_true]
  cases hbit : sprite_bit b c
  · simp
  · cases hd : t.display (cell vx yp c) <;> simp [hd]

theorem draw_cols_eq (config : config_t) (hw : config.window_width = 64)
    (vx yp b : Nat) (hy : yp < 32) (s : chip8_t) (n : Nat) (hn : n ≤ 8) :
    for_loop (draw_col config vx yp b) n s
      = .ok { s with
              display := fun k => xor (s.display k) (row_hits b vx yp n k)
              V := if row_collides s.display b vx yp n then write s.V 0xF 1 else s.V } := by
  induction n with
  | zero => simp [for_loop, row_hits, row_collides]
  | succ n ih =>
    simp only [for_loop, ih (by omega), draw_col_64 config hw vx yp b hy,
      row_hits_self b vx yp n (by omega), Bool.xor_false]
    cases hbit : sprite_bit b n
    · simp [row_hits, row_collides, hbit]
    · simp only [if_true, row_hits, row_collides, hbit, Bool.true_and]
      congr 2
      · funext k
        by_cases hk : k = cell vx yp n
        · subst hk
          simp [write, row_hits_self b vx yp n (by omega)]
        · have hk' : ¬ cell vx yp n = k := fun h => hk h.symm
          simp [write, hk, hk']
      · cases hc : row_collides s.display b vx yp n <;>
          cases hd : s.display (cell vx yp n) <;> simp [write_write]

theorem sprite_hits_iff (ram : Nat → Nat) (I vx vy n k : Nat) :
    sprite_hits ram I vx vy n k = true ↔
      ∃ r, r < n ∧ ∃ c, c < 8 ∧ sprite_bit (ram (I + r)) c = true ∧
        cell vx ((vy + r) % 32) c = k := by
  induction n with
  | zero => simp [sprite_hits]
  | succ n ih =>
    simp only [sprite_hits, Bool.or_eq_true, ih, row_hits_iff]
    constructor
    · rintro (⟨r, hr, h⟩ | h)
      · exact ⟨r, by omega, h⟩
      · exact ⟨n, by omega, h⟩
    · rintro ⟨r, hr, h⟩
      by_cases hrn : r = n
      · subst hrn; exact Or.inr h
      · exact Or.inl ⟨r, by omega, h⟩

theorem sprite_collides_iff (d : Nat → Bool) (ram : Nat → Nat) (I vx vy n : Nat) :
    sprite_collides d ram I vx vy n = true ↔
      ∃ r, r < n ∧ ∃ c, c < 8 ∧ sprite_bit (ram (I + r)) c = true ∧
        d (cell vx ((vy + r) % 32) c) = true := by
  induction n with
  | zero => simp [sprite_collides]
  | succ n ih =>
    simp only [sprite_collides, Bool.or_eq_true, ih, row_collides_iff]
    constructor
    · rintro (⟨r, hr, h⟩ | h)
      · exact ⟨r, by omega, h⟩
      · exact ⟨n, by omega, h⟩
    · rintro ⟨r, hr, h⟩
      by_cases hrn : r = n
      · subst hrn; exact Or.inr h
      · exact Or.inl ⟨r, by omega, h⟩

theorem row_collides_congr (d d' : Nat → Bool) (b vx yp n : Nat)
    (h : ∀ c, c < n → d (cell vx yp c) = d' (cell vx yp c)) :
    row_collides d b vx yp n = row_collides d' b vx yp n := by
  induction n with
  | zero => rfl
  | succ n ih =>
    simp only [row_collides, ih (fun c hc => h c (by omega)), h n (by omega)]

theorem sprite_hits_next_row (ram : Nat → Nat) (I vx vy n c : Nat) (hn : n < 16) (hc : c < 8) :
    sprite_hits ram I vx vy n (cell vx ((vy + n) % 32) c) = false := by
  rw [Bool.eq_false_iff]
  intro h
  obtain ⟨r, hr, c', hc', _, hcell⟩ := (sprite_hits_iff ram I vx vy n _).mp h
  have := (cell_inj hc' hc hcell).1
  omega

theorem draw_row_64x32 (config : config_t) (hw : config.window_width = 64)
    (hh : config.window_height = 32) (vx vy : Nat) (t : chip8_t) (r : Nat)
    (hI : t.I + r < 4096) :
    draw_row config vx vy t r
      = .ok { t with
              display := fun k =>
                xor (t.display k) (row_hits (t.ram (t.I + r)) vx ((vy + r) % 32) 8 k)
              V := if row_collides t.display (t.ram (t.I + r)) vx ((vy + r) % 32) 8
                   then write t.V 0xF 1 else t.V } := by
  have hy : ((vy + r) % 4294967296 % 32) % 256 = (vy + r) % 32 := by omega
  have hy32 : (vy + r) % 32 < 32 := Nat.mod_lt _ (by decide)
  simp only [draw_row, hh, hy, hI, if_true, draw_cols_eq config hw vx _ _ hy32 t 8 (le_refl 8)]
  simp

theorem draw_rows_eq (config : config_t) (hw : config.window_width = 64)
    (hh : config.window_height = 32) (vx vy : Nat) (s : chip8_t) (n : Nat) (hn : n ≤ 16)
    (hI : n = 0 ∨ s.I + n ≤ 4096) :
    for_loop (draw_row config vx vy) n s
      = .ok { s with
              display := fun k => xor (s.display k) (sprite_hits s.ram s.I vx vy n k)
              V := if sprite_collides s.display s.ram s.I vx vy n
                   then write s.V 0xF 1 else s.V } := by
  induction n with
  | zero => simp [for_loop, sprite_hits, sprite_collides]
  | succ n ih =>
    have hI' : s.I + (n + 1) ≤ 4096 := by omega
    rw [for_loop, ih (by omega) (Or.inr (by omega))]
    simp only []
    rw [draw_row_64x32 config hw hh vx vy _ n (by simp only []; omega)]
    simp only [sprite_hits, sprite_collides]
    have hcol : row_collides (fun k => xor (s.display k) (sprite_hits s.ram s.I vx vy n k))
          (s.ram (s.I + n)) vx ((vy + n) % 32) 8
        = row_collides s.display (s.ram (s.I + n)) vx ((vy + n) % 32) 8 :=
      row_collides_congr _ _ _ _ _ _ (fun c hc => by
        simp only [sprite_hits_next_row s.ram s.I vx vy n c (by omega) hc, Bool.xor_false])
    rw [hcol]
    congr 2
    · funext k
      cases hrow : row_hits (s.ram (s.I + n)) vx ((vy + n) % 32) 8 k
      · simp
      · obtain ⟨c, hc, _, hcell⟩ := (row_hits_iff _ _ _ _ _).mp hrow
        have := sprite_hits_next_row s.ram s.I vx vy n c (by omega) hc
        rw [hcell] at this
        simp [this]
    · by_cases h1 : sprite_collides s.display s.ram s.I vx vy n = true <;>
        by_cases h2 : row_collides s.display (s.ram (s.I + n)) vx ((vy + n) % 32) 8 = true <;>
          simp [h1, h2, write_write]

theorem for_loop_error_mono (body : chip8_t → Nat → Except fault_t chip8_t) (s : chip8_t)
    (e : fault_t) (m m' : Nat) (hm : m ≤ m') (h : for_loop body m s = .error e) :
    for_loop body m' s = .error e := by
  induction m' with
  | zero =>
    have : m = 0 := by omega
    subst this; exact h
  | succ k ih =>
    by_cases hk : m = k + 1
    · subst hk; exact h
    · rw [for_loop, ih (by omega)]

theorem sprite_bit_eq_testBit (b c : Nat) (hc : c < 8) : sprite_bit b c = b.testBit (7 - c) := by
  have hshift : 0x80 >>> c = 2 ^ (7 - c) := by
    interval_cases c <;> rfl
  unfold sprite_bit
  rw [hshift, Nat.and_two_pow]
  cases b.testBit (7 - c) <;> simp

/-- Result of `DXYN` on the 64x32 display when the sprite rows are inside RAM. -/
theorem draw_DXYN_eq (config : config_t) (hw : config.window_width = 64)
    (hh : config.window_height = 32) (rand : Nat) (s : chip8_t) (x y n : Nat)
    (hx : x < 16) (hy : y < 16) (hn : n < 16)
    (hop : fetch s = .ok (0xD000 + x * 256 + y * 16 + n)) (hI : n = 0 ∨ s.I + n ≤ 4096) :
    emu_instr config rand s
      = .ok { s with
              PC := s.PC + 2
              inst := decode (0xD000 + x * 256 + y * 16 + n)
              display := fun k => xor (s.display k) (sprite_hits s.ram s.I (s.V x) (s.V y) n k)
              V := if sprite_collides s.display s.ram s.I (s.V x) (s.V y) n
                   then write s.V 0xF 1 else write s.V 0xF 0
              draw := true } := by
  have hb := (fetch_bound hop).1
  have hpc : (s.PC + 2) % 65536 = s.PC + 2 := by omega
  have e1 : (0xD000 + x * 256 + y * 16 + n) / 4096 % 16 = 13 := by omega
  have e2 : (0xD000 + x * 256 + y * 16 + n) % 16 = n := by omega
  have e3 : (0xD000 + x * 256 + y * 16 + n) / 256 % 16 = x := by omega
  have e4 : (0xD000 + x * 256 + y * 16 + n) / 16 % 16 = y := by omega
  rw [emu_instr_of_fetch hop]
  simp only [execute, draw_sprite, family_eq, decode_opcode, decode_n, decode_x, decode_y,
    e1, e2, e3, e4, hpc]
  simp only [Nat.reduceEqDiff, if_false, if_true]
  have key : ∀ s0 : chip8_t, s0.I = s.I → for_loop (draw_row config (s.V x) (s.V y)) n s0 = _ :=
    fun s0 h0 => draw_rows_eq config hw hh (s.V x) (s.V y) s0 n (by omega) (by rw [h0]; exact hI)
  rw [key]
  · simp only [write_write]
  · rfl

theorem draw_DXYN_oob (config : config_t) (hw : config.window_width = 64)
    (hh : config.window_height = 32) (rand : Nat) (s : chip8_t) (x y n : Nat)
    (hx : x < 16) (hy : y < 16) (hn : n < 16)
    (hop : fetch s = .ok (0xD000 + x * 256 + y * 16 + n)) (hI : ¬ (n = 0 ∨ s.I + n ≤ 4096)) :
    emu_instr config rand s = .error .ram_out_of_bounds := by
  have e1 : (0xD000 + x * 256 + y * 16 + n) / 4096 % 16 = 13 := by omega
  have e2 : (0xD000 + x * 256 + y * 16 + n) % 16 = n := by omega
  have e3 : (0xD000 + x * 256 + y * 16 + n) / 256 % 16 = x := by omega
  have e4 : (0xD000 + x * 256 + y * 16 + n) / 16 % 16 = y := by omega
  rw [emu_instr_of_fetch hop]
  simp only [execute, draw_sprite, family_eq, decode_opcode, decode_n, decode_x, decode_y,
    e1, e2, e3, e4]
  simp only [Nat.reduceEqDiff, if_false, if_true]
  have hfail : ∀ s0 : chip8_t, s0.I = s.I →
      for_loop (draw_row config (s.V x) (s.V y)) (4096 - s.I + 1) s0
        = .error .ram_out_of_bounds := by
    intro s0 hI0
    rw [for_loop]
    by_cases hle : s.I ≤ 4096
    · rw [draw_rows_eq config hw hh _ _ s0 (4096 - s.I) (by omega) (Or.inr (by omega))]
      simp only [draw_row, hh]
      have : ¬ (s0.I + (4096 - s.I) < 4096) := by omega
      simp [this]
    · have hz : 4096 - s.I = 0 := by omega
      rw [hz, for_loop]
      simp only [draw_row, hh]
      have : ¬ (s0.I < 4096) := by omega
      simp [this]
  have key : ∀ s0 : chip8_t, s0.I = s.I →
      for_loop (draw_row config (s.V x) (s.V y)) n s0 = .error .ram_out_of_bounds :=
    fun s0 h0 => for_loop_error_mono _ _ _ (4096 - s.I + 1) n (by omega) (hfail s0 h0)
  rw [key]
  rfl

/-! ## Which cells `DXYN` toggles -/

/-- Claim C10: on the 64x32 display and with `I + N <= 4096`, `DXYN` toggles display cell
`(cx, cy)` if and only if there are `row < N` and `col < 8` such that bit `7 - col` of
`RAM[I + row]` is set, `cx = (VX + col) mod 64` and `cy = (VY + row) mod 32`, with `VX`, `VY`
the register values before the instruction; every other cell is unchanged. -/
theorem draw_DXYN_toggles (config : config_t) (hw : config.window_width = 64)
    (hh : config.window_height = 32) (rand : Nat) (s : chip8_t) (x y n : Nat)
    (hx : x < 16) (hy : y < 16) (hn : n < 16)
    (hop : fetch s = .ok (0xD000 + x * 256 + y * 16 + n)) (hI : s.I + n ≤ 4096) :
    ∃ s', emu_instr config rand s = .ok s' ∧
      (∀ cx cy, cx < 64 → cy < 32 →
        (s'.display (cy * 64 + cx) ≠ s.display (cy * 64 + cx) ↔
          ∃ row col, row < n ∧ col < 8 ∧ (s.ram (s.I + row)).testBit (7 - col) = true ∧
            cx = (s.V x + col) % 64 ∧ cy = (s.V y + row) % 32)) ∧
      (∀ k, 2048 ≤ k → s'.display k = s.display k) := by
  refine ⟨_, draw_DXYN_eq config hw hh rand s x y n hx hy hn hop (Or.inr hI), ?_, ?_⟩
  · intro cx cy hcx hcy
    have hxor : ∀ d h : Bool, (xor d h ≠ d) ↔ h = true := by decide
    simp only [hxor, sprite_hits_iff]
    constructor
    · rintro ⟨r, hr, c, hc, hbit, hcell⟩
      rw [sprite_bit_eq_testBit _ _ hc] at hbit
      unfold cell at hcell
      exact ⟨r, c, hr, hc, hbit, by omega, by omega⟩
    · rintro ⟨r, c, hr, hc, hbit, hcx', hcy'⟩
      refine ⟨r, hr, c, hc, ?_, ?_⟩
      · rw [sprite_bit_eq_testBit _ _ hc]; exact hbit
      · unfold cell; rw [hcx', hcy']
  · intro k hk
    have hno : sprite_hits s.ram s.I (s.V x) (s.V y) n k = false := by
      rw [Bool.eq_false_iff]
      intro h
      obtain ⟨r, _, c, _, _, hcell⟩ := (sprite_hits_iff _ _ _ _ _ _).mp h
      have := @cell_lt (s.V x) ((s.V y + r) % 32) c (Nat.mod_lt _ (by decide))
      omega
    simp [hno]

theorem draw_DXYN_toggles_witness :
    ∃ s', emu_instr (set_config_from_args .SUPERCHIP) 0 draw_machine = .ok s' ∧
      (∀ cx cy, cx < 64 → cy < 32 →
        (s'.display (cy * 64 + cx) ≠ draw_machine.display (cy * 64 + cx) ↔
          ∃ row col, row < 1 ∧ col < 8 ∧
            (draw_machine.ram (draw_machine.I + row)).testBit (7 - col) = true ∧
            cx = (draw_machine.V 0 + col) % 64 ∧ cy = (draw_machine.V 1 + row) % 32)) ∧
      (∀ k, 2048 ≤ k → s'.display k = draw_machine.display k) :=
  draw_DXYN_toggles (set_config_from_args .SUPERCHIP) rfl rfl 0 draw_machine 0 1 1
    (by decide) (by decide) (by decide) rfl (by decide)

/-! ## Drawing the same sprite twice -/

/-- Claim C6: on the 64x32 display, two consecutive executions of the same `DXYN` opcode with
the same start coordinates `(VX, VY)` in both (the index register and the sprite bytes are
then the same as well) leave every display cell equal to its value before the first
execution. -/
theorem draw_twice_restores (config : config_t) (hw : config.window_width = 64)
    (hh : config.window_height = 32) (rand1 rand2 : Nat) (s s1 : chip8_t) (x y n : Nat)
    (hx : x < 16) (hy : y < 16) (hn : n < 16)
    (hop1 : fetch s = .ok (0xD000 + x * 256 + y * 16 + n))
    (h1 : emu_instr config rand1 s = .ok s1)
    (hop2 : fetch s1 = .ok (0xD000 + x * 256 + y * 16 + n))
    (hX : s1.V x = s.V x) (hY : s1.V y = s.V y) :
    s1.I = s.I ∧ (∀ row, row < n → s1.ram (s1.I + row) = s.ram (s.I + row)) ∧
    ∃ s2, emu_instr config rand2 s1 = .ok s2 ∧ ∀ k, s2.display k = s.display k := by
  have hI : n = 0 ∨ s.I + n ≤ 4096 := by
    by_contra hI
    rw [draw_DXYN_oob config hw hh rand1 s x y n hx hy hn hop1 hI] at h1
    cases h1
  rw [draw_DXYN_eq config hw hh rand1 s x y n hx hy hn hop1 hI] at h1
  injection h1 with h1
  have hI1 : s1.I = s.I := by rw [← h1]
  have hram : s1.ram = s.ram := by rw [← h1]
  have hd : ∀ k, s1.display k = xor (s.display k) (sprite_hits s.ram s.I (s.V x) (s.V y) n k) := by
    intro k; rw [← h1]
  refine ⟨hI1, fun row _ => by rw [hram, hI1], ?_⟩
  refine ⟨_, draw_DXYN_eq config hw hh rand2 s1 x y n hx hy hn hop2 (by rw [hI1]; exact hI), ?_⟩
  intro k
  simp only [hd, hram, hI1, hX, hY]
  cases s.display k <;> cases sprite_hits s.ram s.I (s.V x) (s.V y) n k <;> rfl

theorem draw_twice_restores_witness :
    draw_machine_once.I = draw_machine.I ∧
    (∀ row, row < 1 →
      draw_machine_once.ram (draw_machine_once.I + row) = draw_machine.ram (draw_machine.I + row)) ∧
    ∃ s2, emu_instr (set_config_from_args .CHIP8) 3 draw_machine_once = .ok s2 ∧
      ∀ k, s2.display k = draw_machine.display k :=
  draw_twice_restores (set_config_from_args .CHIP8) rfl rfl 0 3 draw_machine draw_machine_once
    0 1 1 (by decide) (by decide) (by decide) rfl rfl rfl rfl rfl

/-- Counterexample to claim C7 as stated: the one-pixel sprite `0x80` drawn twice at `(0, 0)`
on a blank display, by two consecutive `D011`, leaves `VF` nonzero after the second call. -/
theorem draw_twice_reports_collision :
    ∃ s1 s2, (∀ k, draw_machine.display k = false) ∧
      emu_instr (set_config_from_args .CHIP8) 0 draw_machine = .ok s1 ∧
      emu_instr (set_config_from_args .CHIP8) 0 s1 = .ok s2 ∧
      fetch draw_machine = .ok 0xD011 ∧ fetch s1 = .ok 0xD011 ∧
      s1.I = draw_machine.I ∧ s1.ram = draw_machine.ram ∧
      s1.V 0 = draw_machine.V 0 ∧ s1.V 1 = draw_machine.V 1 ∧
      s2.V 0xF ≠ 0 :=
  ⟨draw_machine_once,
   match emu_instr (set_config_from_args .CHIP8) 0 draw_machine_once with
   | .ok s2 => s2
   | .error _ => draw_machine,
   fun _ => rfl, rfl, rfl, rfl, rfl, rfl, rfl, rfl, rfl, by decide⟩

/-- Claim C7, amended: when the same sprite is drawn twice at the same coordinates by two
consecutive `DXYN` executions onto an initially all-false 64x32 display, the first execution
leaves `VF = 0`; the second leaves `VF = 1` if at least one bit of the `N` sprite rows is
set, and `VF = 0` if none is. -/
theorem draw_twice_collision (config : config_t) (hw : config.window_width = 64)
    (hh : config.window_height = 32) (rand1 rand2 : Nat) (s s1 : chip8_t) (x y n : Nat)
    (hx : x < 16) (hy : y < 16) (hn : n < 16)
    (hblank : ∀ k, k < 2048 → s.display k = false)
    (hop1 : fetch s = .ok (0xD000 + x * 256 + y * 16 + n))
    (h1 : emu_instr config rand1 s = .ok s1)
    (hop2 : fetch s1 = .ok (0xD000 + x * 256 + y * 16 + n))
    (hX : s1.V x = s.V x) (hY : s1.V y = s.V y) :
    s1.V 0xF = 0 ∧
    ∃ s2, emu_instr config rand2 s1 = .ok s2 ∧
      ((∃ row col, row < n ∧ col < 8 ∧ (s.ram (s.I + row)).testBit (7 - col) = true) →
        s2.V 0xF = 1) ∧
      ((¬ ∃ row col, row < n ∧ col < 8 ∧ (s.ram (s.I + row)).testBit (7 - col) = true) →
        s2.V 0xF = 0) := by
  have hI : n = 0 ∨ s.I + n ≤ 4096 := by
    by_contra hI
    rw [draw_DXYN_oob config hw hh rand1 s x y n hx hy hn hop1 hI] at h1
    cases h1
  have hblank' : ∀ r c, s.display (cell (s.V x) ((s.V y + r) % 32) c) = false := fun r c =>
    hblank _ (cell_lt (Nat.mod_lt _ (by decide)))
  have hno : sprite_collides s.display s.ram s.I (s.V x) (s.V y) n = false := by
    rw [Bool.eq_false_iff]
    intro h
    obtain ⟨r, _, c, _, _, hd⟩ := (sprite_collides_iff _ _ _ _ _ _).mp h
    rw [hblank' r c] at hd
    cases hd
  rw [draw_DXYN_eq config hw hh rand1 s x y n hx hy hn hop1 hI] at h1
  injection h1 with h1
  have hI1 : s1.I = s.I := by rw [← h1]
  have hram : s1.ram = s.ram := by rw [← h1]
  have hd : ∀ k, s1.display k = xor (s.display k) (sprite_hits s.ram s.I (s.V x) (s.V y) n k) := by
    intro k; rw [← h1]
  have hVF : s1.V 0xF = 0 := by
    rw [← h1]; simp [hno, write]
  refine ⟨hVF, _,
    draw_DXYN_eq config hw hh rand2 s1 x y n hx hy hn hop2 (by rw [hI1]; exact hI), ?_, ?_⟩
  · rintro ⟨r, c, hr, hc, hbit⟩
    have hcoll : sprite_collides s1.display s1.ram s1.I (s1.V x) (s1.V y) n = true := by
      rw [sprite_collides_iff]
      refine ⟨r, hr, c, hc, ?_, ?_⟩
      · rw [hram, hI1, sprite_bit_eq_testBit _ _ hc]; exact hbit
      · rw [hd, hX, hY, hblank' r c]
        have : sprite_hits s.ram s.I (s.V x) (s.V y) n (cell (s.V x) ((s.V y + r) % 32) c)
            = true := by
          rw [sprite_hits_iff]
          exact ⟨r, hr, c, hc, by rw [sprite_bit_eq_testBit _ _ hc]; exact hbit, rfl⟩
        rw [this]; rfl
    simp [hcoll, write]
  · intro hnone
    have hcoll : sprite_collides s1.display s1.ram s1.I (s1.V x) (s1.V y) n = false := by
      rw [Bool.eq_false_iff]
      intro h
      obtain ⟨r, hr, c, hc, hbit, _⟩ := (sprite_collides_iff _ _ _ _ _ _).mp h
      rw [hram, hI1, sprite_bit_eq_testBit _ _ hc] at hbit
      exact hnone ⟨r, c, hr, hc, hbit⟩
    simp [hcoll, write]

theorem draw_twice_collision_witness :
    draw_machine_once.V 0xF = 0 ∧
    ∃ s2, emu_instr (set_config_from_args .CHIP8) 1 draw_machine_once = .ok s2 ∧
      ((∃ row col, row < 1 ∧ col < 8 ∧
          (draw_machine.ram (draw_machine.I + row)).testBit (7 - col) = true) → s2.V 0xF = 1) ∧
      ((¬ ∃ row col, row < 1 ∧ col < 8 ∧
          (draw_machine.ram (draw_machine.I + row)).testBit (7 - col) = true) → s2.V 0xF = 0) :=
  draw_twice_collision (set_config_from_args .CHIP8) rfl rfl 0 1 draw_machine draw_machine_once
    0 1 1 (by decide) (by decide) (by decide) (fun _ _ => rfl) rfl rfl rfl rfl rfl


/-! ## The arithmetic family `8XYN` -/

theorem emu_instr_alu (config : config_t) (rand : Nat) (s : chip8_t) (x y n w : Nat)
    (hx : x < 16) (hy : y < 16) (hn : n < 16) (hw : w = 0x8000 + x * 256 + y * 16 + n)
    (hop : fetch s = .ok w) :
    emu_instr config rand s
      = .ok (exec_alu config
          { s with PC := (s.PC + 2) % 65536
                   inst := { opcode := w
                             nnn := x * 256 + y * 16 + n
                             nn := y * 16 + n
                             n := n
                             x := x
                             y := y } }) := by
  have e1 : w / 4096 % 16 = 8 := by omega
  have hdec : decode w
      = { opcode := w, nnn := x * 256 + y * 16 + n, nn := y * 16 + n, n := n, x := x, y := y } := by
    have h1 := decode_nnn w
    have h2 := decode_nn w
    have h3 := decode_n w
    have h4 := decode_x w
    have h5 := decode_y w
    have h0 := decode_opcode w
    cases hd : decode w with
    | mk o a b c d e =>
      rw [hd] at h0 h1 h2 h3 h4 h5
      simp only at h0 h1 h2 h3 h4 h5
      subst h0 h1 h2 h3 h4 h5
      congr 1 <;> omega
  rw [emu_instr_of_fetch hop, hdec]
  simp only [execute, family_eq, e1]
  simp

theorem lor_u8 {a b : Nat} (ha : a < 256) (hb : b < 256) : (a ||| b) % 256 = a ||| b :=
  Nat.mod_eq_of_lt (Nat.or_lt_two_pow (n := 8) ha hb)

theorem land_u8 {a b : Nat} (hb : b < 256) : (a &&& b) % 256 = a &&& b :=
  Nat.mod_eq_of_lt (Nat.and_lt_two_pow (n := 8) a hb)

theorem xor_u8 {a b : Nat} (ha : a < 256) (hb : b < 256) : (a ^^^ b) % 256 = a ^^^ b :=
  Nat.mod_eq_of_lt (Nat.xor_lt_two_pow (n := 8) ha hb)

theorem sub_u8 (a b : Nat) : ((((a : Int) - (b : Int)) % 256).toNat : Int) = ((a : Int) - b) % 256 :=
  Int.toNat_of_nonneg (Int.emod_nonneg _ (by decide))

theorem land_1 (w : Nat) : w &&& 1 = w % 2 := Nat.and_pow_two_sub_one_eq_mod w 1

theorem bit7 (w : Nat) : (w &&& 0x80) >>> 7 = w / 128 % 2 := by
  have h := Nat.and_two_pow w 7
  rw [show (2 : Nat) ^ 7 = 0x80 from rfl] at h
  rw [h, Nat.shiftRight_eq_div_pow, Nat.testBit_to_div_mod]
  have h2 : w / 2 ^ 7 % 2 = w / 128 % 2 := rfl
  rw [h2]
  rcases Nat.mod_two_eq_zero_or_one (w / 128) with h0 | h0 <;> simp [h0]

/-- Claim C17: for `X` other than `0xF`, in every quirk mode, `8XY1`, `8XY2` and `8XY3` leave
`VX` equal to the bitwise OR, AND and XOR respectively of the old `VX` and old `VY`, and
leave `VF = 0`. -/
theorem logic_8XY123 (config : config_t) (rand : Nat) (s : chip8_t) (x y : Nat)
    (hwf : s.WF) (hx : x < 16) (hy : y < 16) (hxF : x ≠ 0xF) :
    (fetch s = .ok (0x8001 + x * 256 + y * 16) →
      ∃ s', emu_instr config rand s = .ok s' ∧ s'.V x = s.V x ||| s.V y ∧ s'.V 0xF = 0) ∧
    (fetch s = .ok (0x8002 + x * 256 + y * 16) →
      ∃ s', emu_instr config rand s = .ok s' ∧ s'.V x = s.V x &&& s.V y ∧ s'.V 0xF = 0) ∧
    (fetch s = .ok (0x8003 + x * 256 + y * 16) →
      ∃ s', emu_instr config rand s = .ok s' ∧ s'.V x = s.V x ^^^ s.V y ∧ s'.V 0xF = 0) := by
  have hX := hwf.V_u8 x hx
  have hY := hwf.V_u8 y hy
  refine ⟨fun hop => ?_, fun hop => ?_, fun hop => ?_⟩
  · refine ⟨_, emu_instr_alu config rand s x y 1 _ hx hy (by decide) (by omega) hop, ?_, ?_⟩
    · simp [exec_alu, write, hxF, lor_u8 hX hY]
    · simp [exec_alu, write]
  · refine ⟨_, emu_instr_alu config rand s x y 2 _ hx hy (by decide) (by omega) hop, ?_, ?_⟩
    · simp [exec_alu, write, hxF, land_u8 hY]
    · simp [exec_alu, write]
  · refine ⟨_, emu_instr_alu config rand s x y 3 _ hx hy (by decide) (by omega) hop, ?_, ?_⟩
    · simp [exec_alu, write, hxF, xor_u8 hX hY]
    · simp [exec_alu, write]

theorem logic_8XY123_witness :
    ∃ s', emu_instr (set_config_from_args .SUPERCHIP) 0 (alu_machine 1) = .ok s' ∧
      s'.V 1 = (alu_machine 1).V 1 ||| (alu_machine 1).V 2 ∧ s'.V 0xF = 0 :=
  (logic_8XY123 (set_config_from_args .SUPERCHIP) 0 (alu_machine 1) 1 2
    (WF_with_V (loaded_WF _ (by decide)) _ (by intro k _; split_ifs <;> decide)) (by decide) (by decide) (by decide)).1 rfl

/-- Claim C18: for `X` other than `0xF`, `8XY6` in `CHIP8` mode leaves `VX = floor(VY / 2)` and
`VF = VY mod 2`; in the other modes it leaves `VX = floor(VX / 2)` and `VF = VX mod 2` (old
values on the right); `VY` is unchanged whenever `Y` differs from `X` and from `0xF`. -/
theorem shr_8XY6 (config : config_t) (rand : Nat) (s : chip8_t) (x y : Nat)
    (hwf : s.WF) (hx : x < 16) (hy : y < 16) (hxF : x ≠ 0xF)
    (hop : fetch s = .ok (0x8006 + x * 256 + y * 16)) :
    ∃ s', emu_instr config rand s = .ok s' ∧
      (config.current_extension = .CHIP8 → s'.V x = s.V y / 2 ∧ s'.V 0xF = s.V y % 2) ∧
      (config.current_extension ≠ .CHIP8 → s'.V x = s.V x / 2 ∧ s'.V 0xF = s.V x % 2) ∧
      (y ≠ x → y ≠ 0xF → s'.V y = s.V y) := by
  have hX := hwf.V_u8 x hx
  have hY := hwf.V_u8 y hy
  have hsh : ∀ w : Nat, w < 256 → (w >>> 1) % 256 = w / 2 := by
    intro w hw
    rw [Nat.shiftRight_eq_div_pow]
    omega
  refine ⟨_, emu_instr_alu config rand s x y 6 _ hx hy (by decide) (by omega) hop, ?_, ?_, ?_⟩
  · intro hext
    refine ⟨by simp [exec_alu, write, hxF, hext, hsh _ hY], ?_⟩
    simp only [exec_alu, write, hext, land_1]
    simp only [Nat.reduceEqDiff, if_false, if_true]
    rcases Nat.mod_two_eq_zero_or_one (s.V y) with h | h <;> simp [h, write]
  · intro hext
    refine ⟨by simp [exec_alu, write, hxF, hext, hsh _ hX], ?_⟩
    simp only [exec_alu, write, hext, land_1]
    simp only [Nat.reduceEqDiff, if_false, if_true]
    rcases Nat.mod_two_eq_zero_or_one (s.V x) with h | h <;> simp [h, write]
  · intro hyx hyF
    by_cases hext : config.current_extension = .CHIP8 <;> simp [exec_alu, write, hext, hyx, hyF]

theorem shr_8XY6_witness :
    ∃ s', emu_instr (set_config_from_args .CHIP8) 0 (alu_machine 6) = .ok s' ∧
      s'.V 1 = (alu_machine 6).V 2 / 2 ∧ s'.V 0xF = (alu_machine 6).V 2 % 2 :=
  let ⟨s', h, hleg, _⟩ := shr_8XY6 (set_config_from_args .CHIP8) 0 (alu_machine 6) 1 2
    (WF_with_V (loaded_WF _ (by decide)) _ (by intro k _; split_ifs <;> decide)) (by decide) (by decide) (by decide) rfl
  ⟨s', h, hleg rfl⟩

/-- Claim C19: for `X` other than `0xF`, `8XYE` in `CHIP8` mode leaves `VX = (2 * VY) mod 256`
and `VF` = bit 7 of old `VY`; in the other modes it leaves `VX = (2 * VX) mod 256` and `VF` =
bit 7 of old `VX`. -/
theorem shl_8XYE (config : config_t) (rand : Nat) (s : chip8_t) (x y : Nat)
    (hx : x < 16) (hy : y < 16) (hxF : x ≠ 0xF)
    (hop : fetch s = .ok (0x800E + x * 256 + y * 16)) :
    ∃ s', emu_instr config rand s = .ok s' ∧
      (config.current_extension = .CHIP8 →
        s'.V x = (2 * s.V y) % 256 ∧ s'.V 0xF = s.V y / 128 % 2) ∧
      (config.current_extension ≠ .CHIP8 →
        s'.V x = (2 * s.V x) % 256 ∧ s'.V 0xF = s.V x / 128 % 2) := by
  have hsh : ∀ w : Nat, (w <<< 1) % 256 = (2 * w) % 256 := by
    intro w
    rw [Nat.shiftLeft_eq]
    omega
  refine ⟨_, emu_instr_alu config rand s x y 0xE _ hx hy (by decide) (by omega) hop, ?_, ?_⟩
  · intro hext
    refine ⟨by simp [exec_alu, write, hxF, hext, hsh], ?_⟩
    simp only [exec_alu, write, hext, bit7]
    simp only [Nat.reduceEqDiff, if_false, if_true]
    rcases Nat.mod_two_eq_zero_or_one (s.V y / 128) with h | h <;> simp [h, write]
  · intro hext
    refine ⟨by simp [exec_alu, write, hxF, hext, hsh], ?_⟩
    simp only [exec_alu, write, hext, bit7]
    simp only [Nat.reduceEqDiff, if_false, if_true]
    rcases Nat.mod_two_eq_zero_or_one (s.V x / 128) with h | h <;> simp [h, write]

theorem shl_8XYE_witness :
    ∃ s', emu_instr (set_config_from_args .XOCHIP) 0 (alu_machine 0xE) = .ok s' ∧
      s'.V 1 = (2 * (alu_machine 0xE).V 1) % 256 ∧ s'.V 0xF = (alu_machine 0xE).V 1 / 128 % 2 :=
  let ⟨s', h, _, hmod⟩ := shl_8XYE (set_config_from_args .XOCHIP) 0 (alu_machine 0xE) 1 2
    (by decide) (by decide) (by decide) rfl
  ⟨s', h, hmod (by decide)⟩

/-- Claim C20: with `VX = a`, `VY = b` and `X` other than `0xF`, `8XY7` in any quirk mode
leaves `VX = (b - a) mod 256` and `VF = 1` if `b >= a`, `VF = 0` otherwise. -/
theorem subn_8XY7 (config : config_t) (rand : Nat) (s : chip8_t) (x y : Nat)
    (hx : x < 16) (hy : y < 16) (hxF : x ≠ 0xF)
    (hop : fetch s = .ok (0x8007 + x * 256 + y * 16)) :
    ∃ s', emu_instr config rand s = .ok s' ∧
      (s'.V x : Int) = ((s.V y : Int) - (s.V x : Int)) % 256 ∧
      s'.V 0xF = if s.V y ≥ s.V x then 1 else 0 := by
  refine ⟨_, emu_instr_alu config rand s x y 7 _ hx hy (by decide) (by omega) hop, ?_, ?_⟩
  · have hv : ∀ (V : Nat → Nat) (a c : Nat), write (write V x a) 0xF c x = a := by
      intro V a c; simp [write, hxF]
    simp only [exec_alu]
    simp only [Nat.reduceEqDiff, if_false, if_true, hv]
    exact sub_u8 _ _
  · simp [exec_alu, write]

theorem subn_8XY7_witness :
    ∃ s', emu_instr (set_config_from_args .CHIP8) 0 (alu_machine 7) = .ok s' ∧
      (s'.V 1 : Int) = (((alu_machine 7).V 2 : Int) - ((alu_machine 7).V 1 : Int)) % 256 ∧
      s'.V 0xF = if (alu_machine 7).V 2 ≥ (alu_machine 7).V 1 then 1 else 0 :=
  subn_8XY7 (set_config_from_args .CHIP8) 0 (alu_machine 7) 1 2
    (by decide) (by decide) (by decide) rfl

/-! ## Conditional skips (`3XNN`, `4XNN`, `5XY0`, `9XY0`) -/

theorem skip_result (s : chip8_t) (i : instruction_t) (c : Prop) [Decidable c]
    (hb : s.PC + 1 < 4096) :
    ∃ s', (if c then
            (.ok { s with PC := ((s.PC + 2) % 65536 + 2) % 65536, inst := i } :
              Except fault_t chip8_t)
          else .ok { s with PC := (s.PC + 2) % 65536, inst := i }) = .ok s' ∧
      s'.PC = (if c then s.PC + 4 else s.PC + 2) ∧ unchanged_except_PC s s' := by
  by_cases hc : c
  · simp only [hc, if_true]
    refine ⟨_, rfl, ?_, rfl, rfl, rfl, rfl, rfl, rfl, rfl, rfl, rfl, rfl, rfl⟩
    show ((s.PC + 2) % 65536 + 2) % 65536 = s.PC + 4
    omega
  · simp only [hc, if_false]
    refine ⟨_, rfl, ?_, rfl, rfl, rfl, rfl, rfl, rfl, rfl, rfl, rfl, rfl, rfl⟩
    show (s.PC + 2) % 65536 = s.PC + 2
    omega

/-- Claim C16: with the instruction at address `p`, after `3XNN` `PC = p + 4` if `VX = NN` and
`p + 2` otherwise; after `4XNN` `PC = p + 4` if `VX != NN`; after `5XY0` `PC = p + 4` if
`VX = VY`; after `9XY0` `PC = p + 4` if `VX != VY`; none of the four changes any register,
RAM byte, stack entry, timer or display cell. -/
theorem skip_3_4_5_9 (config : config_t) (rand : Nat) (s : chip8_t) (x y nn : Nat)
    (hx : x < 16) (hy : y < 16) (hnn : nn < 256) :
    (fetch s = .ok (0x3000 + x * 256 + nn) →
      ∃ s', emu_instr config rand s = .ok s' ∧
        s'.PC = (if s.V x = nn then s.PC + 4 else s.PC + 2) ∧ unchanged_except_PC s s') ∧
    (fetch s = .ok (0x4000 + x * 256 + nn) →
      ∃ s', emu_instr config rand s = .ok s' ∧
        s'.PC = (if s.V x ≠ nn then s.PC + 4 else s.PC + 2) ∧ unchanged_except_PC s s') ∧
    (fetch s = .ok (0x5000 + x * 256 + y * 16) →
      ∃ s', emu_instr config rand s = .ok s' ∧
        s'.PC = (if s.V x = s.V y then s.PC + 4 else s.PC + 2) ∧ unchanged_except_PC s s') ∧
    (fetch s = .ok (0x9000 + x * 256 + y * 16) →
      ∃ s', emu_instr config rand s = .ok s' ∧
        s'.PC = (if s.V x ≠ s.V y then s.PC + 4 else s.PC + 2) ∧ unchanged_except_PC s s') := by
  refine ⟨fun hop => ?_, fun hop => ?_, fun hop => ?_, fun hop => ?_⟩
  · have hb := (fetch_bound hop).1
    have e1 : (0x3000 + x * 256 + nn) / 4096 % 16 = 3 := by omega
    have e2 : (0x3000 + x * 256 + nn) % 256 = nn := by omega
    have e3 : (0x3000 + x * 256 + nn) / 256 % 16 = x := by omega
    rw [emu_instr_of_fetch hop]
    simp only [execute, family_eq, decode_opcode, decode_nn, decode_x, e1, e2, e3]
    simp only [Nat.reduceEqDiff, if_false, if_true]
    exact skip_result s _ (s.V x = nn) hb
  · have hb := (fetch_bound hop).1
    have e1 : (0x4000 + x * 256 + nn) / 4096 % 16 = 4 := by omega
    have e2 : (0x4000 + x * 256 + nn) % 256 = nn := by omega
    have e3 : (0x4000 + x * 256 + nn) / 256 % 16 = x := by omega
    rw [emu_instr_of_fetch hop]
    simp only [execute, family_eq, decode_opcode, decode_nn, decode_x, e1, e2, e3]
    simp only [Nat.reduceEqDiff, if_false, if_true]
    exact skip_result s _ (s.V x ≠ nn) hb
  · have hb := (fetch_bound hop).1
    have e1 : (0x5000 + x * 256 + y * 16) / 4096 % 16 = 5 := by omega
    have e2 : (0x5000 + x * 256 + y * 16) % 16 = 0 := by omega
    have e3 : (0x5000 + x * 256 + y * 16) / 256 % 16 = x := by omega
    have e4 : (0x5000 + x * 256 + y * 16) / 16 % 16 = y := by omega
    rw [emu_instr_of_fetch hop]
    simp only [execute, family_eq, decode_opcode, decode_n, decode_x, decode_y, e1, e2, e3, e4]
    simp only [Nat.reduceEqDiff, if_false, if_true, ne_eq, not_true_eq_false]
    exact skip_result s _ (s.V x = s.V y) hb
  · have hb := (fetch_bound hop).1
    have e1 : (0x9000 + x * 256 + y * 16) / 4096 % 16 = 9 := by omega
    have e3 : (0x9000 + x * 256 + y * 16) / 256 % 16 = x := by omega
    have e4 : (0x9000 + x * 256 + y * 16) / 16 % 16 = y := by omega
    rw [emu_instr_of_fetch hop]
    simp only [execute, family_eq, decode_opcode, decode_x, decode_y, e1, e3, e4]
    simp only [Nat.reduceEqDiff, if_false, if_true]
    exact skip_result s _ (s.V x ≠ s.V y) hb

theorem skip_3_4_5_9_witness :
    ∃ s', emu_instr (set_config_from_args .CHIP8) 0 skip_machine = .ok s' ∧
      s'.PC = (if skip_machine.V 1 = 7 then skip_machine.PC + 4 else skip_machine.PC + 2) ∧
      unchanged_except_PC skip_machine s' :=
  (skip_3_4_5_9 (set_config_from_args .CHIP8) 0 skip_machine 1 0 7
    (by decide) (by decide) (by decide)).1 rfl

/-! ## Call and return (`2NNN`, `00EE`) -/

theorem call_2NNN_eq (config : config_t) (rand : Nat) (s : chip8_t) (nnn d : Nat)
    (hnnn : nnn < 4096) (hd : d < 16) (hsp : s.stack_ptr = some d)
    (hop : fetch s = .ok (0x2000 + nnn)) :
    emu_instr config rand s
      = .ok { s with inst := decode (0x2000 + nnn)
                     stack := write s.stack d (s.PC + 2)
                     stack_ptr := some (d + 1)
                     PC := nnn } := by
  have hb := (fetch_bound hop).1
  have hpc : (s.PC + 2) % 65536 = s.PC + 2 := by omega
  have e1 : (0x2000 + nnn) / 4096 % 16 = 2 := by omega
  have e2 : (0x2000 + nnn) % 4096 = nnn := by omega
  rw [emu_instr_of_fetch hop]
  simp only [execute, family_eq, decode_opcode, decode_nnn, e1, e2, hpc, hsp]
  simp [hd]

theorem ret_00EE_eq (config : config_t) (rand : Nat) (t : chip8_t) (d : Nat)
    (hd : d < 16) (hsp : t.stack_ptr = some (d + 1)) (hop : fetch t = .ok 0x00EE) :
    emu_instr config rand t
      = .ok { t with inst := decode 0x00EE, stack_ptr := some d, PC := t.stack d } := by
  rw [emu_instr_of_fetch hop]
  simp only [execute, family_eq, decode_opcode, decode_nn, hsp]
  have h16 : d + 1 ≤ 16 := by omega
  simp [h16]

/-- Claim C12: with `d < 16` entries on the call stack and `2NNN` at address `p`, executing
`2NNN` sets `PC = NNN` and makes the stack hold `d + 1` entries with top entry `p + 2` and
the earlier `d` entries unchanged; executing `00EE` next sets `PC = p + 2` and leaves the
stack with its original `d` entries. -/
theorem call_then_return (config : config_t) (rand1 rand2 : Nat) (s : chip8_t) (nnn d : Nat)
    (hnnn : nnn < 4096) (hd : d < 16) (hsp : s.stack_ptr = some d)
    (hop : fetch s = .ok (0x2000 + nnn)) :
    ∃ s1, emu_instr config rand1 s = .ok s1 ∧
      s1.PC = nnn ∧ s1.stack_ptr = some (d + 1) ∧ s1.stack d = s.PC + 2 ∧
      (∀ k, k < d → s1.stack k = s.stack k) ∧
      (fetch s1 = .ok 0x00EE →
        ∃ s2, emu_instr config rand2 s1 = .ok s2 ∧
          s2.PC = s.PC + 2 ∧ s2.stack_ptr = some d ∧ ∀ k, k < d → s2.stack k = s.stack k) := by
  have hframe : ∀ k, k < d → write s.stack d (s.PC + 2) k = s.stack k := by
    intro k hk
    have : k ≠ d := by omega
    simp [write, this]
  refine ⟨_, call_2NNN_eq config rand1 s nnn d hnnn hd hsp hop, rfl, rfl, ?_, hframe, ?_⟩
  · simp [write]
  · intro hop2
    refine ⟨_, ret_00EE_eq config rand2 _ d hd rfl hop2, ?_, rfl, hframe⟩
    simp [write]

theorem call_then_return_witness :
    ∃ s1, emu_instr (set_config_from_args .CHIP8) 0 call_machine = .ok s1 ∧
      s1.PC = 0x204 ∧ s1.stack_ptr = some 1 ∧ s1.stack 0 = call_machine.PC + 2 ∧
      ∃ s2, emu_instr (set_config_from_args .CHIP8) 0 s1 = .ok s2 ∧
        s2.PC = call_machine.PC + 2 ∧ s2.stack_ptr = some 0 := by
  obtain ⟨s1, h, hpc, hsp, htop, _, hret⟩ :=
    call_then_return (set_config_from_args .CHIP8) 0 0 call_machine 0x204 0
      (by decide) (by decide) rfl rfl
  have hs : s1 = call_machine_called := by
    have h' : emu_instr (set_config_from_args .CHIP8) 0 call_machine = .ok call_machine_called :=
      rfl
    rw [h] at h'
    injection h'
  obtain ⟨s2, h2, hpc2, hsp2, _⟩ := hret (by rw [hs]; rfl)
  exact ⟨s1, h, hpc, hsp, htop, s2, h2, hpc2, hsp2⟩

/-! ## Register dump and load (`FX55`, `FX65`) -/

theorem store_loop_eq (config : config_t) (s : chip8_t) (k : Nat) (hI : s.I + k ≤ 4096) :
    for_loop (store_reg config) k s
      = .ok { s with ram := stored s.ram s.V s.I k
                     I := if config.current_extension = .CHIP8 then s.I + k else s.I } := by
  induction k with
  | zero =>
    have : stored s.ram s.V s.I 0 = s.ram := by
      funext a; simp [stored]
    simp [for_loop, this]
  | succ k ih =>
    have hstep : write (stored s.ram s.V s.I k) (s.I + k) (s.V k) = stored s.ram s.V s.I (k + 1) := by
      funext a
      unfold write stored
      by_cases ha : a = s.I + k
      · subst ha; simp
      · simp only [ha, if_false]
        by_cases hin : s.I ≤ a ∧ a < s.I + k
        · have : s.I ≤ a ∧ a < s.I + (k + 1) := ⟨hin.1, by omega⟩
          simp [hin, this]
        · have : ¬ (s.I ≤ a ∧ a < s.I + (k + 1)) := by omega
          simp [hin, this]
    rw [for_loop, ih (by omega)]
    simp only [store_reg]
    by_cases hext : config.current_extension = .CHIP8
    · have h1 : s.I + k < 4096 := by omega
      have h2 : (s.I + k + 1) % 65536 = s.I + (k + 1) := by omega
      simp only [hext, if_true, h1, h2, hstep]
    · have h1 : s.I + k < 4096 := by omega
      simp only [hext, if_false, h1, if_true, hstep]

theorem load_loop_eq (config : config_t) (s : chip8_t) (k : Nat) (hI : s.I + k ≤ 4096) :
    for_loop (load_reg config) k s
      = .ok { s with V := fetched s.ram s.V s.I k
                     I := if config.current_extension = .CHIP8 then s.I + k else s.I } := by
  induction k with
  | zero =>
    have : fetched s.ram s.V s.I 0 = s.V := by
      funext a; simp [fetched]
    simp [for_loop, this]
  | succ k ih =>
    have hstep : write (fetched s.ram s.V s.I k) k (s.ram (s.I + k))
        = fetched s.ram s.V s.I (k + 1) := by
      funext i
      unfold write fetched
      by_cases hi : i = k
      · subst hi; simp
      · simp only [hi, if_false]
        by_cases hin : i < k
        · have : i < k + 1 := by omega
          simp [hin, this]
        · have : ¬ i < k + 1 := by omega
          simp [hin, this]
    rw [for_loop, ih (by omega)]
    simp only [load_reg]
    by_cases hext : config.current_extension = .CHIP8
    · have h1 : s.I + k < 4096 := by omega
      have h2 : (s.I + k + 1) % 65536 = s.I + (k + 1) := by omega
      simp only [hext, if_true, h1, h2, hstep]
    · have h1 : s.I + k < 4096 := by omega
      simp only [hext, if_false, h1, if_true, hstep]

theorem emu_instr_FX55 (config : config_t) (rand : Nat) (s : chip8_t) (x : Nat)
    (hx : x < 16) (hop : fetch s = .ok (0xF055 + x * 256)) (hI : s.I + x ≤ 4095) :
    emu_instr config rand s
      = .ok { s with PC := s.PC + 2
                     inst := decode (0xF055 + x * 256)
                     ram := stored s.ram s.V s.I (x + 1)
                     I := if config.current_extension = .CHIP8 then s.I + (x + 1) else s.I } := by
  have hb := (fetch_bound hop).1
  have hpc : (s.PC + 2) % 65536 = s.PC + 2 := by omega
  have e1 : (0xF055 + x * 256) / 4096 % 16 = 15 := by omega
  have e2 : (0xF055 + x * 256) % 256 = 0x55 := by omega
  have e3 : (0xF055 + x * 256) / 256 % 16 = x := by omega
  rw [emu_instr_of_fetch hop]
  simp only [execute, exec_misc, family_eq, decode_opcode, decode_nn, decode_x, e1, e2, e3, hpc]
  simp only [Nat.reduceEqDiff, if_false, if_true]
  have key : ∀ s0 : chip8_t, s0.I = s.I → for_loop (store_reg config) (x + 1) s0 = _ :=
    fun s0 h0 => store_loop_eq config s0 (x + 1) (by rw [h0]; omega)
  rw [key]
  rfl

theorem emu_instr_FX65 (config : config_t) (rand : Nat) (s : chip8_t) (x : Nat)
    (hx : x < 16) (hop : fetch s = .ok (0xF065 + x * 256)) (hI : s.I + x ≤ 4095) :
    emu_instr config rand s
      = .ok { s with PC := s.PC + 2
                     inst := decode (0xF065 + x * 256)
                     V := fetched s.ram s.V s.I (x + 1)
                     I := if config.current_extension = .CHIP8 then s.I + (x + 1) else s.I } := by
  have hb := (fetch_bound hop).1
  have hpc : (s.PC + 2) % 65536 = s.PC + 2 := by omega
  have e1 : (0xF065 + x * 256) / 4096 % 16 = 15 := by omega
  have e2 : (0xF065 + x * 256) % 256 = 0x65 := by omega
  have e3 : (0xF065 + x * 256) / 256 % 16 = x := by omega
  rw [emu_instr_of_fetch hop]
  simp only [execute, exec_misc, family_eq, decode_opcode, decode_nn, decode_x, e1, e2, e3, hpc]
  simp only [Nat.reduceEqDiff, if_false, if_true]
  have key : ∀ s0 : chip8_t, s0.I = s.I → for_loop (load_reg config) (x + 1) s0 = _ :=
    fun s0 h0 => load_loop_eq config s0 (x + 1) (by rw [h0]; omega)
  rw [key]
  rfl

/-- Claim C13: with `I + X <= 4095`, `FX55` stores `V[i]` at RAM address `I + i` for every
`0 <= i <= X`, changes no other RAM byte and no `V` register, and afterwards `I` is its old
value plus `X + 1` in `CHIP8` mode and its old value in `SUPERCHIP` and `XOCHIP` modes. -/
theorem store_FX55 (config : config_t) (rand : Nat) (s : chip8_t) (x : Nat)
    (hx : x < 16) (hop : fetch s = .ok (0xF055 + x * 256)) (hI : s.I + x ≤ 4095) :
    ∃ s', emu_instr config rand s = .ok s' ∧
      (∀ i, i ≤ x → s'.ram (s.I + i) = s.V i) ∧
      (∀ a, (a < s.I ∨ s.I + x < a) → s'.ram a = s.ram a) ∧
      s'.V = s.V ∧
      (config.current_extension = .CHIP8 → s'.I = s.I + x + 1) ∧
      (config.current_extension = .SUPERCHIP → s'.I = s.I) ∧
      (config.current_extension = .XOCHIP → s'.I = s.I) := by
  refine ⟨_, emu_instr_FX55 config rand s x hx hop hI, ?_, ?_, rfl, ?_, ?_, ?_⟩
  · intro i hi
    have : s.I ≤ s.I + i ∧ s.I + i < s.I + (x + 1) := ⟨by omega, by omega⟩
    simp [stored, this]
  · intro a ha
    have : ¬ (s.I ≤ a ∧ a < s.I + (x + 1)) := by omega
    simp [stored, this]
  · intro h; simp [h]; omega
  · intro h; simp [h]
  · intro h; simp [h]

theorem store_FX55_witness :
    ∃ s', emu_instr (set_config_from_args .CHIP8) 0 regs_machine = .ok s' ∧
      (∀ i, i ≤ 2 → s'.ram (regs_machine.I + i) = regs_machine.V i) ∧
      s'.I = regs_machine.I + 2 + 1 :=
  let ⟨s', h, hst, _, _, hI, _⟩ :=
    store_FX55 (set_config_from_args .CHIP8) 0 regs_machine 2 (by decide) rfl (by decide)
  ⟨s', h, hst, hI rfl⟩

/-- Claim C14: with `I + X <= 4095`, in every quirk mode, if `FX55` is executed, then the `V`
registers are overwritten arbitrarily and `I` is set back to its value before `FX55`, then
`FX65` with the same `X` restores `V0..VX` to their values before `FX55`, leaves `VX+1..VF`
and all RAM untouched, and changes `I` by the rule of `FX55`. -/
theorem load_FX65_inverts_store (config : config_t) (rand1 rand2 : Nat) (s : chip8_t) (x : Nat)
    (hx : x < 16) (hop : fetch s = .ok (0xF055 + x * 256)) (hI : s.I + x ≤ 4095) :
    ∃ s1, emu_instr config rand1 s = .ok s1 ∧
      ∀ t : chip8_t, t.ram = s1.ram → t.I = s.I → fetch t = .ok (0xF065 + x * 256) →
        ∃ t', emu_instr config rand2 t = .ok t' ∧
          (∀ i, i ≤ x → t'.V i = s.V i) ∧
          (∀ j, x < j → t'.V j = t.V j) ∧
          t'.ram = t.ram ∧
          (config.current_extension = .CHIP8 → t'.I = t.I + x + 1) ∧
          (config.current_extension = .SUPERCHIP → t'.I = t.I) ∧
          (config.current_extension = .XOCHIP → t'.I = t.I) := by
  refine ⟨_, emu_instr_FX55 config rand1 s x hx hop hI, ?_⟩
  intro t hram hIt hopt
  refine ⟨_, emu_instr_FX65 config rand2 t x hx hopt (by rw [hIt]; exact hI), ?_, ?_, rfl,
    ?_, ?_, ?_⟩
  · intro i hi
    have h1 : i < x + 1 := by omega
    have h2 : s.I ≤ s.I + i ∧ s.I + i < s.I + (x + 1) := ⟨by omega, by omega⟩
    simp [fetched, h1, hram, hIt, stored, h2]
  · intro j hj
    have h1 : ¬ j < x + 1 := by omega
    simp [fetched, h1]
  · intro h; simp [h]; omega
  · intro h; simp [h]
  · intro h; simp [h]

theorem load_FX65_inverts_store_witness :
    ∃ t', emu_instr (set_config_from_args .CHIP8) 0 regs_machine_clobbered = .ok t' ∧
      (∀ i, i ≤ 2 → t'.V i = regs_machine.V i) ∧
      (∀ j, 2 < j → t'.V j = regs_machine_clobbered.V j) ∧
      t'.ram = regs_machine_clobbered.ram := by
  obtain ⟨s1, h, hinv⟩ :=
    load_FX65_inverts_store (set_config_from_args .CHIP8) 0 0 regs_machine 2
      (by decide) rfl (by decide)
  have hc : regs_machine_clobbered = { s1 with V := fun _ => 0xAA, I := 0x300 } := by
    unfold regs_machine_clobbered
    rw [h]
  obtain ⟨t', ht, hv, hrest, hram, _⟩ :=
    hinv regs_machine_clobbered (by rw [hc]) (by rw [hc]; rfl) rfl
  exact ⟨t', ht, hv, hrest, hram⟩

/-! ## The collision flag of `DXYN` -/

theorem collides_iff_toggled_on (d : Nat → Bool) (ram : Nat → Nat) (I vx vy n : Nat) :
    sprite_collides d ram I vx vy n = true ↔
      ∃ k, sprite_hits ram I vx vy n k = true ∧ d k = true := by
  rw [sprite_collides_iff]
  constructor
  · rintro ⟨r, hr, c, hc, hbit, hd⟩
    exact ⟨_, (sprite_hits_iff _ _ _ _ _ _).mpr ⟨r, hr, c, hc, hbit, rfl⟩, hd⟩
  · rintro ⟨k, hk, hd⟩
    obtain ⟨r, hr, c, hc, hbit, hcell⟩ := (sprite_hits_iff _ _ _ _ _ _).mp hk
    exact ⟨r, hr, c, hc, hbit, by rw [hcell]; exact hd⟩

theorem sprite_collides_congr (d : Nat → Bool) (ram ram' : Nat → Nat) (I I' vx vy n : Nat)
    (h : ∀ r, r < n → ram' (I' + r) = ram (I + r)) :
    sprite_collides d ram' I' vx vy n = sprite_collides d ram I vx vy n := by
  induction n with
  | zero => rfl
  | succ n ih =>
    simp only [sprite_collides, ih (fun r hr => h r (by omega)), h n (by omega)]

/-- Claim C11: on the 64x32 display and with `I + N <= 4096`, after `DXYN` the flag `VF` is 1
if at least one cell toggled by the instruction was on immediately before it, and 0
otherwise, in particular when `N = 0` or no sprite bit is set; the value is the same for
every machine with the same display, sprite rows and start coordinates, whatever its `VF`
was. -/
theorem draw_DXYN_flag (config : config_t) (hw : config.window_width = 64)
    (hh : config.window_height = 32) (rand : Nat) (s : chip8_t) (x y n : Nat)
    (hx : x < 16) (hy : y < 16) (hn : n < 16)
    (hop : fetch s = .ok (0xD000 + x * 256 + y * 16 + n)) (hI : s.I + n ≤ 4096) :
    ∃ s', emu_instr config rand s = .ok s' ∧
      ((∃ k, s'.display k ≠ s.display k ∧ s.display k = true) → s'.V 0xF = 1) ∧
      ((¬ ∃ k, s'.display k ≠ s.display k ∧ s.display k = true) → s'.V 0xF = 0) ∧
      ((∀ row col, row < n → col < 8 → (s.ram (s.I + row)).testBit (7 - col) = false) →
        s'.V 0xF = 0) ∧
      (∀ (rand' : Nat) (t : chip8_t),
        fetch t = .ok (0xD000 + x * 256 + y * 16 + n) →
        t.display = s.display → t.I = s.I → (∀ row, row < n → t.ram (t.I + row) = s.ram (s.I + row)) →
        t.V x = s.V x → t.V y = s.V y →
        ∃ t', emu_instr config rand' t = .ok t' ∧ t'.V 0xF = s'.V 0xF) := by
  have hxor : ∀ a h : Bool, (xor a h ≠ a) ↔ h = true := by decide
  refine ⟨_, draw_DXYN_eq config hw hh rand s x y n hx hy hn hop (Or.inr hI), ?_, ?_, ?_, ?_⟩
  · rintro ⟨k, hk, hon⟩
    have hc : sprite_collides s.display s.ram s.I (s.V x) (s.V y) n = true :=
      (collides_iff_toggled_on _ _ _ _ _ _).mpr ⟨k, (hxor _ _).mp hk, hon⟩
    simp [hc, write]
  · intro hnone
    have hc : ¬ sprite_collides s.display s.ram s.I (s.V x) (s.V y) n = true := by
      intro hc
      obtain ⟨k, hk, hon⟩ := (collides_iff_toggled_on _ _ _ _ _ _).mp hc
      exact hnone ⟨k, (hxor _ _).mpr hk, hon⟩
    simp [hc, write]
  · intro hzero
    have hc : ¬ sprite_collides s.display s.ram s.I (s.V x) (s.V y) n = true := by
      intro hc
      obtain ⟨r, hr, c, hcol, hbit, _⟩ := (sprite_collides_iff _ _ _ _ _ _).mp hc
      rw [sprite_bit_eq_testBit _ _ hcol, hzero r c hr hcol] at hbit
      cases hbit
    simp [hc, write]
  · intro rand' t hopt hd hIt hrows hX hY
    refine ⟨_, draw_DXYN_eq config hw hh rand' t x y n hx hy hn hopt (Or.inr (by rw [hIt]; exact hI)),
      ?_⟩
    have hcc := sprite_collides_congr s.display s.ram t.ram s.I t.I (s.V x) (s.V y) n hrows
    simp only [hd, hX, hY, hcc]
    by_cases hc : sprite_collides s.display s.ram s.I (s.V x) (s.V y) n = true <;>
      simp [hc, write]

theorem draw_DXYN_flag_witness :
    ∃ s', emu_instr (set_config_from_args .CHIP8) 0 draw_machine_once = .ok s' ∧
      ((∃ k, s'.display k ≠ draw_machine_once.display k ∧ draw_machine_once.display k = true) →
        s'.V 0xF = 1) :=
  let ⟨s', h, hone, _⟩ :=
    draw_DXYN_flag (set_config_from_args .CHIP8) rfl rfl 0 draw_machine_once 0 1 1
      (by decide) (by decide) (by decide) rfl (by decide)
  ⟨s', h, hone⟩

/-! ## Opcodes outside the instruction table -/

/-- Claim C15, evaluated at two opcodes that match no pattern of the instruction table:
`9011` with `V0 != V1` advances `PC` by 4, as `9XY0` does (family `0x09` never tests the low
nibble, unlike family `0x05`), and `01E0` clears the display and sets the draw flag, as
`00E0` does (family `0x00` tests only the low byte). -/
theorem unknown_opcodes_act :
    (fetch unknown_9_machine = .ok 0x9011 ∧
      ∃ s', emu_instr (set_config_from_args .CHIP8) 0 unknown_9_machine = .ok s' ∧
        s'.PC = unknown_9_machine.PC + 4) ∧
    (fetch unknown_0_machine = .ok 0x01E0 ∧
      ∃ s', emu_instr (set_config_from_args .CHIP8) 0 unknown_0_machine = .ok s' ∧
        unknown_0_machine.display 0 = true ∧ s'.display 0 = false ∧
        unknown_0_machine.draw = false ∧ s'.draw = true) :=
  ⟨⟨rfl, _, rfl, rfl⟩, ⟨rfl, _, rfl, rfl, rfl, rfl, rfl⟩⟩

theorem WF_with_V_I {s : chip8_t} (h : s.WF) (V : Nat → Nat) (I : Nat)
    (hV : ∀ k, k < 16 → V k < 256) (hI : I < 65536) :
    ({ s with V := V, I := I } : chip8_t).WF :=
  ⟨h.ram_u8, hV, h.stack_u16, h.stack_ptr_le, hI, h.PC_u16, h.delay_u8, h.sound_u8⟩

/-! ## Binary-coded decimal (`FX33`) -/

/-- Claim C21: with `I + 2 <= 4095` and `VX = v`, `FX33` stores `h = v div 100` at `RAM[I]`,
`t = (v div 10) mod 10` at `RAM[I+1]` and `o = v mod 10` at `RAM[I+2]`, where
`100*h + 10*t + o = v`, `h <= 2`, `t <= 9`, `o <= 9`; no other RAM byte, no register and not
`I` is changed. -/
theorem bcd_FX33 (config : config_t) (rand : Nat) (s : chip8_t) (x : Nat)
    (hwf : s.WF) (hx : x < 16) (hop : fetch s = .ok (0xF033 + x * 256)) (hI : s.I + 2 ≤ 4095) :
    ∃ s', emu_instr config rand s = .ok s' ∧
      s'.ram s.I = s.V x / 100 ∧ s'.ram (s.I + 1) = s.V x / 10 % 10 ∧
      s'.ram (s.I + 2) = s.V x % 10 ∧
      100 * (s.V x / 100) + 10 * (s.V x / 10 % 10) + s.V x % 10 = s.V x ∧
      s.V x / 100 ≤ 2 ∧ s.V x / 10 % 10 ≤ 9 ∧ s.V x % 10 ≤ 9 ∧
      (∀ a, a ≠ s.I → a ≠ s.I + 1 → a ≠ s.I + 2 → s'.ram a = s.ram a) ∧
      s'.V = s.V ∧ s'.I = s.I := by
  have hv := hwf.V_u8 x hx
  have e1 : (0xF033 + x * 256) / 4096 % 16 = 15 := by omega
  have e2 : (0xF033 + x * 256) % 256 = 0x33 := by omega
  have e3 : (0xF033 + x * 256) / 256 % 16 = x := by omega
  have hlt : s.I + 2 < 4096 := by omega
  rw [emu_instr_of_fetch hop]
  simp only [execute, exec_misc, family_eq, decode_opcode, decode_nn, decode_x, e1, e2, e3]
  simp only [Nat.reduceEqDiff, if_false, if_true, hlt]
  refine ⟨_, rfl, ?_, ?_, ?_, by omega, by omega, by omega, by omega, ?_, rfl, rfl⟩
  · simp only [write]; simp; omega
  · simp only [write]; simp
  · simp only [write]; simp
  · intro a h0 h1 h2
    simp [write, h0, h1, h2]

theorem bcd_FX33_witness :
    ∃ s', emu_instr (set_config_from_args .CHIP8) 0 bcd_machine = .ok s' ∧
      s'.ram bcd_machine.I = bcd_machine.V 3 / 100 ∧
      s'.ram (bcd_machine.I + 1) = bcd_machine.V 3 / 10 % 10 ∧
      s'.ram (bcd_machine.I + 2) = bcd_machine.V 3 % 10 :=
  let ⟨s', h, h0, h1, h2, _⟩ := bcd_FX33 (set_config_from_args .CHIP8) 0 bcd_machine 3
    (WF_with_V_I (loaded_WF _ (by decide)) _ _ (by intro k _; split_ifs <;> decide)
      (by decide))
    (by decide) rfl (by decide)
  ⟨s', h, h0, h1, h2⟩

/-! ## Immediate loads (`6XNN`, `7XNN`) -/

/-- Claim C29: for `X` other than `0xF`, `7XNN` leaves `VX = (VX + NN) mod 256` and touches
neither `VF` nor any other register, and `6XNN` leaves `VX = NN` with every other register
unchanged. -/
theorem load_add_immediate (config : config_t) (rand : Nat) (s : chip8_t) (x nn : Nat)
    (hx : x < 16) (hxF : x ≠ 0xF) (hnn : nn < 256) :
    (fetch s = .ok (0x7000 + x * 256 + nn) →
      ∃ s', emu_instr config rand s = .ok s' ∧ s'.V x = (s.V x + nn) % 256 ∧
        s'.V 0xF = s.V 0xF ∧ (∀ j, j ≠ x → s'.V j = s.V j) ∧ s'.I = s.I) ∧
    (fetch s = .ok (0x6000 + x * 256 + nn) →
      ∃ s', emu_instr config rand s = .ok s' ∧ s'.V x = nn ∧
        (∀ j, j ≠ x → s'.V j = s.V j) ∧ s'.I = s.I) := by
  refine ⟨fun hop => ?_, fun hop => ?_⟩
  · have e1 : (0x7000 + x * 256 + nn) / 4096 % 16 = 7 := by omega
    have e2 : (0x7000 + x * 256 + nn) % 256 = nn := by omega
    have e3 : (0x7000 + x * 256 + nn) / 256 % 16 = x := by omega
    rw [emu_instr_of_fetch hop]
    simp only [execute, family_eq, decode_opcode, decode_nn, decode_x, e1, e2, e3]
    simp only [Nat.reduceEqDiff, if_false, if_true]
    refine ⟨_, rfl, by simp [write], ?_, fun j hj => by simp [write, hj], rfl⟩
    have : (0xF : Nat) ≠ x := fun h => hxF h.symm
    simp [write, this]
  · have e1 : (0x6000 + x * 256 + nn) / 4096 % 16 = 6 := by omega
    have e2 : (0x6000 + x * 256 + nn) % 256 = nn := by omega
    have e3 : (0x6000 + x * 256 + nn) / 256 % 16 = x := by omega
    rw [emu_instr_of_fetch hop]
    simp only [execute, family_eq, decode_opcode, decode_nn, decode_x, e1, e2, e3]
    simp only [Nat.reduceEqDiff, if_false, if_true]
    exact ⟨_, rfl, by simp [write], fun j hj => by simp [write, hj], rfl⟩

theorem load_add_immediate_witness :
    ∃ s', emu_instr (set_config_from_args .CHIP8) 0 imm_machine = .ok s' ∧
      s'.V 1 = (imm_machine.V 1 + 0xFF) % 256 ∧ s'.V 0xF = imm_machine.V 0xF :=
  let ⟨s', h, hv, hf, _⟩ :=
    (load_add_immediate (set_config_from_args .CHIP8) 0 imm_machine 1 0xFF
      (by decide) (by decide) (by decide)).1 rfl
  ⟨s', h, hv, hf⟩

/-! ## Key skips (`EX9E`, `EXA1`) -/

theorem key_skip_eq (config : config_t) (rand : Nat) (s : chip8_t) (x : Nat) (hx : x < 16)
    (hv : s.V x ≤ 15) :
    (fetch s = .ok (0xE09E + x * 256) →
      emu_instr config rand s
        = .ok { s with inst := decode (0xE09E + x * 256)
                       PC := if s.keypad (s.V x) = true then s.PC + 4 else s.PC + 2 }) ∧
    (fetch s = .ok (0xE0A1 + x * 256) →
      emu_instr config rand s
        = .ok { s with inst := decode (0xE0A1 + x * 256)
                       PC := if s.keypad (s.V x) = false then s.PC + 4 else s.PC + 2 }) := by
  have hv' : s.V x < 16 := by omega
  refine ⟨fun hop => ?_, fun hop => ?_⟩
  · have hb := (fetch_bound hop).1
    have h2 : (s.PC + 2) % 65536 = s.PC + 2 := by omega
    have h4 : (s.PC + 2 + 2) % 65536 = s.PC + 4 := by omega
    have e1 : (0xE09E + x * 256) / 4096 % 16 = 14 := by omega
    have e2 : (0xE09E + x * 256) % 256 = 0x9E := by omega
    have e3 : (0xE09E + x * 256) / 256 % 16 = x := by omega
    rw [emu_instr_of_fetch hop]
    simp only [execute, family_eq, decode_opcode, decode_nn, decode_x, e1, e2, e3, h2, h4]
    simp only [Nat.reduceEqDiff, if_false, if_true, hv']
    cases hk : s.keypad (s.V x) <;> simp
  · have hb := (fetch_bound hop).1
    have h2 : (s.PC + 2) % 65536 = s.PC + 2 := by omega
    have h4 : (s.PC + 2 + 2) % 65536 = s.PC + 4 := by omega
    have e1 : (0xE0A1 + x * 256) / 4096 % 16 = 14 := by omega
    have e2 : (0xE0A1 + x * 256) % 256 = 0xA1 := by omega
    have e3 : (0xE0A1 + x * 256) / 256 % 16 = x := by omega
    rw [emu_instr_of_fetch hop]
    simp only [execute, family_eq, decode_opcode, decode_nn, decode_x, e1, e2, e3, h2, h4]
    simp only [Nat.reduceEqDiff, if_false, if_true, hv']
    cases hk : s.keypad (s.V x) <;> simp

theorem key_skip_oob (config : config_t) (rand : Nat) (s : chip8_t) (x : Nat) (hx : x < 16)
    (hv : 15 < s.V x)
    (hop : fetch s = .ok (0xE09E + x * 256) ∨ fetch s = .ok (0xE0A1 + x * 256)) :
    emu_instr config rand s = .error .keypad_out_of_bounds := by
  have hv' : ¬ s.V x < 16 := by omega
  rcases hop with hop | hop
  · have e1 : (0xE09E + x * 256) / 4096 % 16 = 14 := by omega
    have e2 : (0xE09E + x * 256) % 256 = 0x9E := by omega
    have e3 : (0xE09E + x * 256) / 256 % 16 = x := by omega
    rw [emu_instr_of_fetch hop]
    simp only [execute, family_eq, decode_opcode, decode_nn, decode_x, e1, e2, e3]
    simp only [Nat.reduceEqDiff, if_false, if_true, hv']
  · have e1 : (0xE0A1 + x * 256) / 4096 % 16 = 14 := by omega
    have e2 : (0xE0A1 + x * 256) % 256 = 0xA1 := by omega
    have e3 : (0xE0A1 + x * 256) / 256 % 16 = x := by omega
    rw [emu_instr_of_fetch hop]
    simp only [execute, family_eq, decode_opcode, decode_nn, decode_x, e1, e2, e3]
    simp only [Nat.reduceEqDiff, if_false, if_true, hv']

/-- Claim C30: with `VX <= 15` and the instruction at address `p`, after `EX9E` `PC = p + 4`
if `keypad[VX]` is down and `p + 2` otherwise; after `EXA1` `PC = p + 4` if `keypad[VX]` is up
and `p + 2` otherwise; on machines with the same `PC`, `VX` and keypad exactly one of the
two skips; the index is the whole byte `VX`, outside the 16-entry array when `VX > 15`. -/
theorem key_skip_EX9E_EXA1 (config : config_t) (rand : Nat) (s : chip8_t) (x : Nat)
    (hx : x < 16) :
    (s.V x ≤ 15 →
      (fetch s = .ok (0xE09E + x * 256) →
        ∃ s', emu_instr config rand s = .ok s' ∧
          s'.PC = if s.keypad (s.V x) = true then s.PC + 4 else s.PC + 2) ∧
      (fetch s = .ok (0xE0A1 + x * 256) →
        ∃ s', emu_instr config rand s = .ok s' ∧
          s'.PC = if s.keypad (s.V x) = false then s.PC + 4 else s.PC + 2) ∧
      (∀ (rand' : Nat) (t : chip8_t), t.PC = s.PC → t.V x = s.V x → t.keypad = s.keypad →
        fetch s = .ok (0xE09E + x * 256) → fetch t = .ok (0xE0A1 + x * 256) →
        ∃ s' t', emu_instr config rand s = .ok s' ∧ emu_instr config rand' t = .ok t' ∧
          ((s'.PC = s.PC + 4 ∧ t'.PC = s.PC + 2) ∨ (s'.PC = s.PC + 2 ∧ t'.PC = s.PC + 4)))) ∧
    (15 < s.V x →
      (fetch s = .ok (0xE09E + x * 256) ∨ fetch s = .ok (0xE0A1 + x * 256)) →
      emu_instr config rand s = .error .keypad_out_of_bounds) := by
  refine ⟨fun hv => ⟨fun hop => ?_, fun hop => ?_, ?_⟩, key_skip_oob config rand s x hx⟩
  · exact ⟨_, (key_skip_eq config rand s x hx hv).1 hop, rfl⟩
  · exact ⟨_, (key_skip_eq config rand s x hx hv).2 hop, rfl⟩
  · intro rand' t hpc hvx hkey hops hopt
    refine ⟨_, _, (key_skip_eq config rand s x hx hv).1 hops,
      (key_skip_eq config rand' t x hx (by rw [hvx]; exact hv)).2 hopt, ?_⟩
    simp only [hpc, hvx, hkey]
    cases s.keypad (s.V x) <;> simp

theorem key_skip_EX9E_EXA1_witness :
    ∃ s', emu_instr (set_config_from_args .CHIP8) 0 key_skip_machine = .ok s' ∧
      s'.PC = if key_skip_machine.keypad (key_skip_machine.V 2) = true
              then key_skip_machine.PC + 4 else key_skip_machine.PC + 2 :=
  ((key_skip_EX9E_EXA1 (set_config_from_args .CHIP8) 0 key_skip_machine 2 (by decide)).1
    (by decide)).1 rfl

/-! ## The state left by `init_chip8` -/

theorem init_chip8_ok_eq (fopen_rb : String → Option (List Nat)) (config : config_t)
    (rom_name : String) (rom : List Nat) (hfile : fopen_rb rom_name = some rom)
    (hpos : 1 ≤ rom.length) (hmax : rom.length ≤ 3584) :
    init_chip8 fopen_rb config rom_name
      = (true,
         { zeroed with
           ram := fun k => if 0x200 ≤ k ∧ k < 0x200 + rom.length then rom.getD (k - 0x200) 0
                           else if k < 80 then font.getD k 0 else 0
           state := .RUNNING
           PC := 0x200
           rom_name := rom_name
           stack_ptr := some 0
           pixel_color := fun k => if k < 2048 then (config.bg_color % 256) * 0x01010101 else 0 }) := by
  have hbig : ¬ rom.length > 4096 - 0x200 := by omega
  have hz : ¬ rom.length = 0 := by omega
  unfold init_chip8
  simp only [hfile, hbig, if_false, fread_one, hz, le_refl, if_true, ne_eq, not_true_eq_false,
    Nat.min_self]
  rfl

theorem init_chip8_font (fopen_rb : String → Option (List Nat)) (config : config_t)
    (rom_name : String) (k : Nat) (hk : k < 80) :
    (init_chip8 fopen_rb config rom_name).2.ram k = font.getD k 0 := by
  unfold init_chip8
  cases fopen_rb rom_name with
  | none => simp [hk]
  | some rom =>
    simp only []
    split
    · simp [hk]
    · have hno : ∀ n, ¬ (0x200 ≤ k ∧ k < 0x200 + n) := fun n h => by omega
      split <;> (simp only [fread_one]; split <;> simp [hk, hno])

/-- Claim C23: a successful `init_chip8` leaves `RAM[0..79]` the built-in font, `RAM[80..511]`
and every byte after the program zero, the program from `0x200`, `PC = 0x200`, the call
stack empty, `V0..VF`, `I`, both timers, the keypad and the display zero, the draw flag
false and the state `RUNNING`; the machine depends only on the program bytes and the
configuration (and the stored file name), whatever the machine held before, so a reset
(key `=`) repeated gives the same machine as a single reset. -/
theorem init_chip8_state (fopen_rb : String → Option (List Nat)) (config : config_t)
    (rom_name : String) (rom : List Nat) (hfile : fopen_rb rom_name = some rom)
    (hok : (init_chip8 fopen_rb config rom_name).1 = true) :
    (∀ k, k < 80 → (init_chip8 fopen_rb config rom_name).2.ram k = font.getD k 0) ∧
    (∀ k, 80 ≤ k → k < 0x200 → (init_chip8 fopen_rb config rom_name).2.ram k = 0) ∧
    (∀ k, k < rom.length →
      (init_chip8 fopen_rb config rom_name).2.ram (0x200 + k) = rom.getD k 0) ∧
    (∀ k, 0x200 + rom.length ≤ k → (init_chip8 fopen_rb config rom_name).2.ram k = 0) ∧
    (init_chip8 fopen_rb config rom_name).2.PC = 0x200 ∧
    (init_chip8 fopen_rb config rom_name).2.stack_ptr = some 0 ∧
    (∀ k, (init_chip8 fopen_rb config rom_name).2.V k = 0) ∧
    (init_chip8 fopen_rb config rom_name).2.I = 0 ∧
    (init_chip8 fopen_rb config rom_name).2.delay_timer = 0 ∧
    (init_chip8 fopen_rb config rom_name).2.sound_timer = 0 ∧
    (∀ k, (init_chip8 fopen_rb config rom_name).2.keypad k = false) ∧
    (∀ k, (init_chip8 fopen_rb config rom_name).2.display k = false) ∧
    (init_chip8 fopen_rb config rom_name).2.draw = false ∧
    (init_chip8 fopen_rb config rom_name).2.state = .RUNNING ∧
    (∀ (fopen_rb' : String → Option (List Nat)) (config' : config_t) (rom_name' : String),
      fopen_rb' rom_name' = some rom → config'.bg_color = config.bg_color →
      (init_chip8 fopen_rb' config' rom_name').2
        = { (init_chip8 fopen_rb config rom_name).2 with rom_name := rom_name' }) ∧
    (∀ prior : chip8_t, prior.rom_name = rom_name →
      handle_event fopen_rb config prior (.KEYDOWN .EQUALS)
        = (init_chip8 fopen_rb config rom_name).2 ∧
      handle_event fopen_rb config
          (handle_event fopen_rb config prior (.KEYDOWN .EQUALS)) (.KEYDOWN .EQUALS)
        = handle_event fopen_rb config prior (.KEYDOWN .EQUALS)) := by
  obtain ⟨hpos, hmax⟩ := (init_chip8_load fopen_rb config rom_name rom hfile).1.mp hok
  have heq := init_chip8_ok_eq fopen_rb config rom_name rom hfile hpos hmax
  have hname : (init_chip8 fopen_rb config rom_name).2.rom_name = rom_name := by rw [heq]
  refine ⟨fun k hk => init_chip8_font _ _ _ k hk, ?_, ?_, ?_, ?_, ?_, ?_, ?_, ?_, ?_, ?_, ?_, ?_,
    ?_, ?_, ?_⟩
  · intro k h1 h2
    have h3 : ¬ (0x200 ≤ k ∧ k < 0x200 + rom.length) := by omega
    have h4 : ¬ k < 80 := by omega
    rw [heq]; simp only [h3, h4, if_false]
  · intro k hk
    have h3 : 0x200 ≤ 0x200 + k ∧ 0x200 + k < 0x200 + rom.length := by omega
    rw [heq]; simp only [h3, and_self, if_true, Nat.add_sub_cancel_left]
  · intro k hk
    have h3 : ¬ (0x200 ≤ k ∧ k < 0x200 + rom.length) := by omega
    have h4 : ¬ k < 80 := by omega
    rw [heq]; simp only [h3, h4, if_false]
  · rw [heq]
  · rw [heq]
  · intro k; rw [heq]; rfl
  · rw [heq]; rfl
  · rw [heq]; rfl
  · rw [heq]; rfl
  · intro k; rw [heq]; rfl
  · intro k; rw [heq]; rfl
  · rw [heq]; rfl
  · rw [heq]
  · intro fopen_rb' config' rom_name' hfile' hbg
    rw [heq, init_chip8_ok_eq fopen_rb' config' rom_name' rom hfile' hpos hmax, hbg]
  · intro prior hprior
    have h1 : handle_event fopen_rb config prior (.KEYDOWN .EQUALS)
        = (init_chip8 fopen_rb config rom_name).2 := by
      simp only [handle_event, hprior]
    refine ⟨h1, ?_⟩
    rw [h1]
    simp only [handle_event, hname]

theorem init_chip8_state_witness :
    (init_chip8 (fun _ => some [0x12, 0x00]) (set_config_from_args .CHIP8) "pong.ch8").2.PC
        = 0x200 ∧
    (init_chip8 (fun _ => some [0x12, 0x00]) (set_config_from_args .CHIP8) "pong.ch8").2.state
        = .RUNNING :=
  let h := init_chip8_state (fun _ => some [0x12, 0x00]) (set_config_from_args .CHIP8)
    "pong.ch8" [0x12, 0x00] rfl rfl
  ⟨h.2.2.2.2.1, h.2.2.2.2.2.2.2.2.2.2.2.2.2.1⟩

/-! ## The font pointer (`FX29`) -/

/-- Claim C22: `FX29` sets `I = 5 * VX` without 8-bit truncation (so `I <= 1275`); on a machine
whose `RAM[0..79]` is as `init_chip8` left it, for `VX = d <= 15` the five bytes
`RAM[I..I+4]` after `FX29` are the five font bytes of glyph `d`, inside `0x000-0x04F`. -/
theorem font_FX29 (config : config_t) (rand : Nat) (s : chip8_t) (x : Nat)
    (hwf : s.WF) (hx : x < 16) (hop : fetch s = .ok (0xF029 + x * 256)) :
    ∃ s', emu_instr config rand s = .ok s' ∧ s'.I = 5 * s.V x ∧ s'.I ≤ 1275 ∧
      (∀ (fopen_rb : String → Option (List Nat)) (config0 : config_t) (rom_name : String),
        (init_chip8 fopen_rb config0 rom_name).1 = true →
        (∀ k, k < 80 → s.ram k = (init_chip8 fopen_rb config0 rom_name).2.ram k) →
        s.V x ≤ 15 →
        s'.I + 4 ≤ 0x04F ∧ ∀ j, j < 5 → s'.ram (s'.I + j) = font.getD (5 * s.V x + j) 0) := by
  have hv := hwf.V_u8 x hx
  have e1 : (0xF029 + x * 256) / 4096 % 16 = 15 := by omega
  have e2 : (0xF029 + x * 256) % 256 = 0x29 := by omega
  have e3 : (0xF029 + x * 256) / 256 % 16 = x := by omega
  have hmod : (s.V x * 5) % 65536 = 5 * s.V x := by omega
  rw [emu_instr_of_fetch hop]
  simp only [execute, exec_misc, family_eq, decode_opcode, decode_nn, decode_x, e1, e2, e3, hmod]
  simp only [Nat.reduceEqDiff, if_false, if_true]
  refine ⟨_, rfl, rfl, ?_, ?_⟩
  · show 5 * s.V x ≤ 1275
    omega
  · intro fopen_rb config0 rom_name _ hram hd
    refine ⟨?_, ?_⟩
    · show 5 * s.V x + 4 ≤ 0x04F
      omega
    · intro j hj
      show s.ram (5 * s.V x + j) = _
      rw [hram _ (by omega), init_chip8_font _ _ _ _ (by omega)]

theorem font_FX29_witness :
    ∃ s', emu_instr (set_config_from_args .CHIP8) 0 font_machine = .ok s' ∧
      s'.I = 5 * font_machine.V 1 ∧
      ∀ j, j < 5 → s'.ram (s'.I + j) = font.getD (5 * font_machine.V 1 + j) 0 :=
  let ⟨s', h, hI, _, hfont⟩ := font_FX29 (set_config_from_args .CHIP8) 0 font_machine 1
    (WF_with_V (loaded_WF _ (by decide)) _ (by intro k _; split_ifs <;> decide))
    (by decide) rfl
  ⟨s', h, hI,
    (hfont (fun _ => some [0xF1, 0x29]) (set_config_from_args .CHIP8) "rom" rfl
      (fun _ _ => rfl) (by decide)).2⟩

/-! ## Timers (`update_timers`) -/

theorem update_timers_eq (s : chip8_t) :
    (update_timers s).1
      = { s with delay_timer := s.delay_timer - 1, sound_timer := s.sound_timer - 1 } := by
  unfold update_timers
  by_cases hd : s.delay_timer > 0 <;> by_cases hs : s.sound_timer > 0
  · simp [hd, hs]
  · have : s.sound_timer = 0 := by omega
    simp [hd, hs, this]
  · have : s.delay_timer = 0 := by omega
    simp [hd, hs, this]
  · have h1 : s.delay_timer = 0 := by omega
    have h2 : s.sound_timer = 0 := by omega
    simp only [hd, hs, if_false]
    cases s
    simp only at h1 h2
    subst h1 h2
    rfl

theorem update_timers_iterate (s : chip8_t) (k : Nat) :
    Nat.iterate (fun t => (update_timers t).1) k s
      = { s with delay_timer := s.delay_timer - k, sound_timer := s.sound_timer - k } := by
  induction k with
  | zero => rfl
  | succ k ih =>
    rw [Function.iterate_succ_apply', ih, update_timers_eq]
    simp only [Nat.sub_sub]

/-- Claim C24: one call of `update_timers` changes the delay timer from `d` to `d - 1` if
`d > 0` and leaves it 0 if `d = 0`, and does the same to the sound timer; after `k`
consecutive calls the timers hold `max(0, d - k)` and `max(0, s - k)`; nothing else in the
machine changes. -/
theorem update_timers_countdown (s : chip8_t) :
    (s.delay_timer > 0 → (update_timers s).1.delay_timer = s.delay_timer - 1) ∧
    (s.delay_timer = 0 → (update_timers s).1.delay_timer = 0) ∧
    (s.sound_timer > 0 → (update_timers s).1.sound_timer = s.sound_timer - 1) ∧
    (s.sound_timer = 0 → (update_timers s).1.sound_timer = 0) ∧
    (update_timers s).1
      = { s with delay_timer := (update_timers s).1.delay_timer
                 sound_timer := (update_timers s).1.sound_timer } ∧
    (∀ k : Nat,
      ((Nat.iterate (fun t => (update_timers t).1) k s).delay_timer : Int)
        = max 0 ((s.delay_timer : Int) - k) ∧
      ((Nat.iterate (fun t => (update_timers t).1) k s).sound_timer : Int)
        = max 0 ((s.sound_timer : Int) - k) ∧
      Nat.iterate (fun t => (update_timers t).1) k s
        = { s with
            delay_timer := (Nat.iterate (fun t => (update_timers t).1) k s).delay_timer
            sound_timer := (Nat.iterate (fun t => (update_timers t).1) k s).sound_timer }) := by
  refine ⟨fun _ => by rw [update_timers_eq], fun h => by rw [update_timers_eq]; simp [h],
    fun _ => by rw [update_timers_eq], fun h => by rw [update_timers_eq]; simp [h],
    by rw [update_timers_eq], fun k => ?_⟩
  rw [update_timers_iterate]
  refine ⟨?_, ?_, rfl⟩
  · show ((s.delay_timer - k : Nat) : Int) = _
    omega
  · show ((s.sound_timer - k : Nat) : Int) = _
    omega

/-! ## The instruction copy `inst` is written only by the fetch -/

theorem for_loop_field {α : Type} (f : chip8_t → α)
    (body : chip8_t → Nat → Except fault_t chip8_t)
    (hbody : ∀ s i s', body s i = .ok s' → f s' = f s) :
    ∀ (n : Nat) (s s' : chip8_t), for_loop body n s = .ok s' → f s' = f s := by
  intro n
  induction n with
  | zero =>
    intro s s' h
    rw [for_loop] at h
    injection h with h
    rw [h]
  | succ n ih =>
    intro s s' h
    rw [for_loop] at h
    cases hn : for_loop body n s with
    | error e => rw [hn] at h; cases h
    | ok s1 =>
      rw [hn] at h
      exact (hbody s1 n s' h).trans (ih s s1 hn)

theorem draw_col_inst (config : config_t) (vx yp b : Nat) (s : chip8_t) (col : Nat)
    (s' : chip8_t) (h : draw_col config vx yp b s col = .ok s') : s'.inst = s.inst := by
  unfold draw_col at h
  dsimp only at h
  split_ifs at h <;> (injection h with h; subst h; rfl)

theorem draw_row_inst (config : config_t) (vx vy : Nat) (s : chip8_t) (row : Nat)
    (s' : chip8_t) (h : draw_row config vx vy s row = .ok s') : s'.inst = s.inst := by
  simp only [draw_row] at h
  split_ifs at h
  exact for_loop_field (fun t => t.inst) _ (draw_col_inst config _ _ _) _ _ _ h

theorem draw_sprite_inst (config : config_t) (s s' : chip8_t)
    (h : draw_sprite config s = .ok s') : s'.inst = s.inst := by
  unfold draw_sprite at h
  simp only at h
  split at h
  · rename_i s1 h1
    injection h with h
    have h2 := for_loop_field (fun t => t.inst) _ (draw_row_inst config _ _) _ _ _ h1
    rw [← h]
    exact h2
  · cases h

theorem store_reg_inst (config : config_t) (s : chip8_t) (i : Nat) (s' : chip8_t)
    (h : store_reg config s i = .ok s') : s'.inst = s.inst := by
  unfold store_reg at h
  split_ifs at h <;> (injection h with h; subst h; rfl)

theorem load_reg_inst (config : config_t) (s : chip8_t) (i : Nat) (s' : chip8_t)
    (h : load_reg config s i = .ok s') : s'.inst = s.inst := by
  unfold load_reg at h
  split_ifs at h <;> (injection h with h; subst h; rfl)

theorem ite_field {α : Type} (f : chip8_t → α) (v : α) (c : Prop) [Decidable c]
    (a b : chip8_t) (ha : f a = v) (hb : f b = v) : f (if c then a else b) = v := by
  split <;> assumption

theorem exec_alu_inst (config : config_t) (s : chip8_t) : (exec_alu config s).inst = s.inst := by
  unfold exec_alu
  dsimp only
  repeat' (first | rfl | refine ite_field chip8_t.inst _ _ _ _ ?_ ?_)

theorem exec_misc_inst (config : config_t) (s s' : chip8_t)
    (h : exec_misc config s = .ok s') : s'.inst = s.inst := by
  unfold exec_misc at h
  simp only at h
  split_ifs at h
  · split at h <;> (injection h with h; subst h; rfl)
  all_goals first
    | (injection h with h; subst h; rfl)
    | cases h
    | exact for_loop_field (fun t => t.inst) _ (store_reg_inst config) _ _ _ h
    | exact for_loop_field (fun t => t.inst) _ (load_reg_inst config) _ _ _ h

theorem ite_ok_field {α : Type} (f : chip8_t → α) (v : α) (c : Prop) [Decidable c]
    (a b : Except fault_t chip8_t) (ha : ∀ s', a = .ok s' → f s' = v)
    (hb : ∀ s', b = .ok s' → f s' = v) : ∀ s', (if c then a else b) = .ok s' → f s' = v := by
  split <;> assumption

theorem ok_field {α : Type} (f : chip8_t → α) (v : α) (t : chip8_t) (ht : f t = v) :
    ∀ s', (Except.ok t : Except fault_t chip8_t) = .ok s' → f s' = v := by
  intro s' h
  injection h with h
  rw [← h]; exact ht

theorem error_field {α : Type} (f : chip8_t → α) (v : α) (e : fault_t) :
    ∀ s', (Except.error e : Except fault_t chip8_t) = .ok s' → f s' = v := by
  intro s' h
  cases h

theorem execute_inst (config : config_t) (rand : Nat) (s : chip8_t) :
    ∀ s', execute config rand s = .ok s' → s'.inst = s.inst := by
  unfold execute
  dsimp only
  repeat' first
    | exact ok_field chip8_t.inst _ _ rfl
    | exact ok_field chip8_t.inst _ _ (exec_alu_inst config s)
    | exact error_field chip8_t.inst _ _
    | exact fun s' h => draw_sprite_inst config s s' h
    | exact fun s' h => exec_misc_inst config s s' h
    | refine ite_ok_field chip8_t.inst _ _ _ _ ?_ ?_
    | (intro s' h; split at h <;> revert s' h)

theorem emu_instr_inst (config : config_t) (rand : Nat) (s s' : chip8_t) (w : Nat)
    (hop : fetch s = .ok w) (h : emu_instr config rand s = .ok s') : s'.inst.opcode = w := by
  rw [emu_instr_of_fetch hop] at h
  rw [execute_inst config rand _ s' h]
  rfl

/-! ## Quirk modes other than `CHIP8` -/

theorem emu_instr_config_congr (c1 c2 : config_t) (hw : c1.window_width = c2.window_width)
    (hh : c1.window_height = c2.window_height)
    (hq : c1.current_extension = .CHIP8 ↔ c2.current_extension = .CHIP8)
    (rand : Nat) (s : chip8_t) : emu_instr c1 rand s = emu_instr c2 rand s := by
  have hq' : ¬ c1.current_extension = .CHIP8 → ¬ c2.current_extension = .CHIP8 :=
    fun h h2 => h (hq.mpr h2)
  have hstore : store_reg c1 = store_reg c2 := by
    funext t i
    by_cases h : c1.current_extension = .CHIP8
    · simp [store_reg, h, hq.mp h]
    · simp [store_reg, h, hq' h]
  have hload : load_reg c1 = load_reg c2 := by
    funext t i
    by_cases h : c1.current_extension = .CHIP8
    · simp [load_reg, h, hq.mp h]
    · simp [load_reg, h, hq' h]
  have halu : exec_alu c1 = exec_alu c2 := by
    funext t
    by_cases h : c1.current_extension = .CHIP8
    · simp [exec_alu, h, hq.mp h]
    · simp [exec_alu, h, hq' h]
  have hcol : draw_col c1 = draw_col c2 := by
    funext vx yp b t col
    simp [draw_col, hw]
  have hrow : draw_row c1 = draw_row c2 := by
    funext vx vy t row
    simp [draw_row, hh, hcol]
  have hdraw : draw_sprite c1 = draw_sprite c2 := by
    funext t
    simp [draw_sprite, hrow]
  have hmisc : exec_misc c1 = exec_misc c2 := by
    funext t
    simp [exec_misc, hstore, hload]
  have hexec : execute c1 rand = execute c2 rand := by
    funext t
    simp [execute, halu, hdraw, hmisc]
  simp [emu_instr, hexec]

/-! ## The instruction burst of the main loop -/

theorem emu_steps_succ (config : config_t) (rands : Nat → Nat) (n : Nat) (s : chip8_t) :
    emu_steps config rands (n + 1) s
      = match emu_steps config rands n s with
        | .ok s1 => emu_instr config (rands n) s1
        | .error e => .error e := rfl

theorem emu_steps_error_mono (config : config_t) (rands : Nat → Nat) (s : chip8_t) (e : fault_t)
    (m m' : Nat) (hm : m ≤ m') (h : emu_steps config rands m s = .error e) :
    emu_steps config rands m' s = .error e :=
  for_loop_error_mono _ s e m m' hm h

theorem emu_steps_prefix (config : config_t) (rands : Nat → Nat) (s t : chip8_t)
    (m j : Nat) (hj : j ≤ m) (h : emu_steps config rands m s = .ok t) :
    ∃ sj, emu_steps config rands j s = .ok sj := by
  cases hs : emu_steps config rands j s with
  | ok sj => exact ⟨sj, rfl⟩
  | error e =>
    rw [emu_steps_error_mono config rands s e j m hj hs] at h
    cases h

theorem instr_burst_eq_steps (config : config_t) (hq : config.current_extension ≠ .CHIP8)
    (rands : Nat → Nat) (s0 : chip8_t) :
    ∀ (b i : Nat) (si : chip8_t), emu_steps config rands i s0 = .ok si →
      instr_burst config rands b i si
        = match emu_steps config rands (i + b) s0 with
          | .ok s' => .ok (i + b, s')
          | .error e => .error e := by
  intro b
  induction b with
  | zero =>
    intro i si hi
    simp only [instr_burst, Nat.add_zero, hi]
  | succ b ih =>
    intro i si hi
    have hstep : emu_steps config rands (i + 1) s0 = emu_instr config (rands i) si := by
      rw [emu_steps_succ, hi]
    rw [instr_burst]
    cases h1 : emu_instr config (rands i) si with
    | error e =>
      rw [h1] at hstep
      rw [emu_steps_error_mono config rands s0 e (i + 1) (i + (b + 1)) (by omega) hstep]
    | ok s1 =>
      rw [h1] at hstep
      simp only [hq, false_and, if_false]
      rw [ih (i + 1) s1 hstep]
      have : i + 1 + b = i + (b + 1) := by omega
      rw [this]

theorem instr_burst_legacy (config : config_t) (hq : config.current_extension = .CHIP8)
    (rands : Nat → Nat) (s0 : chip8_t) :
    ∀ (b i : Nat) (si : chip8_t), emu_steps config rands i s0 = .ok si →
      ∀ (c : Nat) (s' : chip8_t), instr_burst config rands b i si = .ok (c, s') →
        i ≤ c ∧ c ≤ i + b ∧ emu_steps config rands c s0 = .ok s' ∧
        (∀ j sj, i < j → j < c → emu_steps config rands j s0 = .ok sj →
          sj.inst.opcode >>> 12 ≠ 0xD) ∧
        (c < i + b → i < c ∧ s'.inst.opcode >>> 12 = 0xD) := by
  intro b
  induction b with
  | zero =>
    intro i si hi c s' h
    rw [instr_burst] at h
    injection h with h
    injection h with hc hs
    subst hc hs
    exact ⟨le_refl _, le_refl _, hi, fun j sj h1 h2 => by omega, fun h => by omega⟩
  | succ b ih =>
    intro i si hi c s' h
    have hstep : emu_steps config rands (i + 1) s0 = emu_instr config (rands i) si := by
      rw [emu_steps_succ, hi]
    rw [instr_burst] at h
    cases h1 : emu_instr config (rands i) si with
    | error e => rw [h1] at h; cases h
    | ok s1 =>
      rw [h1] at h hstep
      simp only [hq, true_and] at h
      by_cases hD : s1.inst.opcode >>> 12 = 0xD
      · rw [if_pos hD] at h
        injection h with h
        injection h with hc hs
        subst hc hs
        exact ⟨by omega, by omega, hstep, fun j sj h1 h2 => by omega, fun _ => ⟨by omega, hD⟩⟩
      · rw [if_neg hD] at h
        obtain ⟨h1', h2', h3', h4', h5'⟩ := ih (i + 1) s1 hstep c s' h
        refine ⟨by omega, by omega, h3', ?_, fun hc => ⟨by omega, (h5' (by omega)).2⟩⟩
        intro j sj hij hjc hsj
        by_cases hj : j = i + 1
        · subst hj
          rw [hstep] at hsj
          injection hsj with hsj
          rw [← hsj]; exact hD
        · exact h4' j sj (by omega) hjc hsj

theorem instr_burst_defined (config : config_t) (rands : Nat → Nat) (s0 : chip8_t) :
    ∀ (b i : Nat) (si : chip8_t), emu_steps config rands i s0 = .ok si →
      (∃ t, emu_steps config rands (i + b) s0 = .ok t) →
      ∃ c s', instr_burst config rands b i si = .ok (c, s') := by
  intro b
  induction b with
  | zero =>
    intro i si _ _
    exact ⟨i, si, rfl⟩
  | succ b ih =>
    intro i si hi ⟨t, ht⟩
    have hstep : emu_steps config rands (i + 1) s0 = emu_instr config (rands i) si := by
      rw [emu_steps_succ, hi]
    obtain ⟨s1, hs1⟩ := emu_steps_prefix config rands s0 t (i + (b + 1)) (i + 1) (by omega) ht
    rw [instr_burst, ← hstep, hs1]
    simp only
    split
    · exact ⟨_, _, rfl⟩
    · exact ih (i + 1) s1 hs1 ⟨t, by rw [show i + 1 + b = i + (b + 1) by omega]; exact ht⟩

theorem main_burst_nonlegacy (config : config_t) (rands : Nat → Nat) (s : chip8_t)
    (hq : config.current_extension ≠ .CHIP8) :
    main_burst config rands s
      = match emu_steps config rands (config.instr_per_sec / 60) s with
        | .ok s' => .ok (config.instr_per_sec / 60, s')
        | .error e => .error e := by
  have := instr_burst_eq_steps config hq rands s (config.instr_per_sec / 60) 0 s rfl
  simp only [Nat.zero_add] at this
  exact this

/-- Claim C25: with budget `B = floor(instr_per_sec / 60)`, the instruction burst of one pass
of the main loop in `SUPERCHIP` and `XOCHIP` modes is exactly `B` consecutive calls of
`emu_instr`; in `CHIP8` mode it makes at most `B` calls, an instruction whose top nibble is
`0xD` is the last one executed (so at most one draw opcode executes), a burst of fewer than
`B` calls ends with such an instruction, and the burst is defined whenever `B` consecutive
calls are. -/
theorem main_burst_count (config : config_t) (rands : Nat → Nat) (s : chip8_t) :
    (config.current_extension ≠ .CHIP8 →
      main_burst config rands s
        = match emu_steps config rands (config.instr_per_sec / 60) s with
          | .ok s' => .ok (config.instr_per_sec / 60, s')
          | .error e => .error e) ∧
    (config.current_extension = .CHIP8 →
      (∀ (c : Nat) (s' : chip8_t), main_burst config rands s = .ok (c, s') →
        c ≤ config.instr_per_sec / 60 ∧ emu_steps config rands c s = .ok s' ∧
        (∀ j sj w, j < c → emu_steps config rands j s = .ok sj → fetch sj = .ok w →
          w >>> 12 = 0xD → j + 1 = c) ∧
        (c < config.instr_per_sec / 60 →
          0 < c ∧ ∃ sj w, emu_steps config rands (c - 1) s = .ok sj ∧ fetch sj = .ok w ∧
            w >>> 12 = 0xD)) ∧
      ((∃ t, emu_steps config rands (config.instr_per_sec / 60) s = .ok t) →
        ∃ c s', main_burst config rands s = .ok (c, s'))) := by
  have h0 : emu_steps config rands 0 s = .ok s := rfl
  refine ⟨fun hq => ?_, fun hq => ⟨?_, ?_⟩⟩
  · have := instr_burst_eq_steps config hq rands s (config.instr_per_sec / 60) 0 s h0
    simp only [Nat.zero_add] at this
    exact this
  · intro c s' h
    obtain ⟨_, hle, hsteps, hnone, hlast⟩ :=
      instr_burst_legacy config hq rands s (config.instr_per_sec / 60) 0 s h0 c s' h
    simp only [Nat.zero_add] at hle hlast
    have hexec : ∀ j sj w, j < c → emu_steps config rands j s = .ok sj → fetch sj = .ok w →
        ∃ sj', emu_steps config rands (j + 1) s = .ok sj' ∧ sj'.inst.opcode = w := by
      intro j sj w hj hsj hw
      obtain ⟨sj', hsj'⟩ := emu_steps_prefix config rands s s' c (j + 1) (by omega) hsteps
      refine ⟨sj', hsj', ?_⟩
      rw [emu_steps_succ, hsj] at hsj'
      exact emu_instr_inst config (rands j) sj sj' w hw hsj'
    refine ⟨hle, hsteps, ?_, ?_⟩
    · intro j sj w hj hsj hw hD
      obtain ⟨sj', hsj', hop⟩ := hexec j sj w hj hsj hw
      by_contra hne
      exact hnone (j + 1) sj' (by omega) (by omega) hsj' (by rw [hop]; exact hD)
    · intro hc
      obtain ⟨hpos, hD⟩ := hlast hc
      refine ⟨hpos, ?_⟩
      obtain ⟨sj, hsj⟩ := emu_steps_prefix config rands s s' c (c - 1) (by omega) hsteps
      have hlastStep : emu_instr config (rands (c - 1)) sj = .ok s' := by
        have := emu_steps_succ config rands (c - 1) s
        rw [show c - 1 + 1 = c by omega, hsteps, hsj] at this
        exact this.symm
      cases hf : fetch sj with
      | error e =>
        unfold emu_instr at hlastStep
        rw [hf] at hlastStep
        cases hlastStep
      | ok w =>
        refine ⟨sj, w, hsj, hf, ?_⟩
        rw [← emu_instr_inst config _ sj s' w hf hlastStep]
        exact hD
  · intro ht
    have := instr_burst_defined config rands s (config.instr_per_sec / 60) 0 s h0
      (by simpa using ht)
    exact this

/-- Claim C28: `SUPERCHIP` and `XOCHIP` modes are behaviourally identical: for every machine,
hence every opcode, and every value of `rand()`, `emu_instr` gives the same result under
both, and the instruction burst of the main loop makes the same number of calls and leaves
the same machine under both. -/
theorem superchip_xochip_same (config : config_t) (rand : Nat) (rands : Nat → Nat)
    (s : chip8_t) :
    emu_instr { config with current_extension := .SUPERCHIP } rand s
      = emu_instr { config with current_extension := .XOCHIP } rand s ∧
    main_burst { config with current_extension := .SUPERCHIP } rands s
      = main_burst { config with current_extension := .XOCHIP } rands s := by
  have hcongr : ∀ r t, emu_instr { config with current_extension := .SUPERCHIP } r t
      = emu_instr { config with current_extension := .XOCHIP } r t := fun r t =>
    emu_instr_config_congr _ _ rfl rfl (by simp) r t
  refine ⟨hcongr rand s, ?_⟩
  have hsteps : ∀ n, emu_steps { config with current_extension := .SUPERCHIP } rands n s
      = emu_steps { config with current_extension := .XOCHIP } rands n s := by
    intro n
    unfold emu_steps
    have : (fun t i => emu_instr { config with current_extension := .SUPERCHIP } (rands i) t)
        = (fun t i => emu_instr { config with current_extension := .XOCHIP } (rands i) t) := by
      funext t i; exact hcongr _ _
    rw [this]
  have h1 := (main_burst_nonlegacy { config with current_extension := .SUPERCHIP } rands s
    (by simp))
  have h2 := (main_burst_nonlegacy { config with current_extension := .XOCHIP } rands s
    (by simp))
  rw [h1, h2, hsteps]

/-! ## The quit state and later events -/

/-- Claim C26, evaluated on a running machine: the Escape key alone leaves state `QUIT`, but
Escape followed in the same call of `handle_input` by the space key leaves `RUNNING`, and
a window-close event followed by a successful reset (key `=`) leaves `RUNNING` as well. -/
theorem quit_then_resume :
    (handle_input (fun _ => none) (set_config_from_args .CHIP8) [.KEYDOWN .ESCAPE]
      (loaded [0x12, 0x00])).state = .QUIT ∧
    (handle_input (fun _ => none) (set_config_from_args .CHIP8)
      [.KEYDOWN .ESCAPE, .KEYDOWN .SPACE] (loaded [0x12, 0x00])).state = .RUNNING ∧
    (handle_input (fun _ => some [0x12, 0x00]) (set_config_from_args .CHIP8)
      [.QUIT, .KEYDOWN .EQUALS] (loaded [0x12, 0x00])).state = .RUNNING :=
  ⟨rfl, rfl, rfl⟩

/-! ## Call on a full stack -/

/-- Counterexample to claim C27 as stated, on the ROM `2200` (a subroutine calling itself):
after 16 calls the stack pointer is `&stack[16]`, and the 17th `2NNN` does not fail with
nothing written: it executes the store `*stack_ptr++ = PC` outside the 16-entry array, which
is undefined behaviour; no guard precedes the store. -/
theorem call_on_full_stack :
    ∃ s16, emu_steps (set_config_from_args .CHIP8) (fun _ => 0) 16 recursion_machine = .ok s16 ∧
      s16.stack_ptr = some 16 ∧ fetch s16 = .ok 0x2200 ∧
      emu_instr (set_config_from_args .CHIP8) 0 s16 = .error .stack_out_of_bounds :=
  ⟨_, rfl, rfl, rfl, rfl⟩

/-- Claim C27, amended: with `d < 16` return addresses on the stack, `2NNN` stores `PC + 2` in
`stack[d]`, leaves every other entry as it was, makes the depth `d + 1` (at most 16) and sets
`PC = NNN`; with 16 or more the store `*stack_ptr++ = PC` is executed all the same, through
an address outside `stack[16]`: no guard precedes it and the call has no defined result. -/
theorem call_2NNN_depth (config : config_t) (rand : Nat) (s : chip8_t) (nnn d : Nat)
    (hnnn : nnn < 4096) (hsp : s.stack_ptr = some d) (hop : fetch s = .ok (0x2000 + nnn)) :
    (d < 16 →
      ∃ s', emu_instr config rand s = .ok s' ∧
        s'.stack_ptr = some (d + 1) ∧ d + 1 ≤ 16 ∧ s'.stack d = s.PC + 2 ∧
        (∀ k, k ≠ d → s'.stack k = s.stack k) ∧ s'.PC = nnn) ∧
    (16 ≤ d → emu_instr config rand s = .error .stack_out_of_bounds) := by
  constructor
  · intro hd
    refine ⟨_, call_2NNN_eq config rand s nnn d hnnn hd hsp hop, rfl, by omega, ?_, ?_, rfl⟩
    · simp [write]
    · intro k hk
      simp [write, hk]
  · intro hd
    have e1 : (0x2000 + nnn) / 4096 % 16 = 2 := by omega
    have hlt : ¬ d < 16 := by omega
    rw [emu_instr_of_fetch hop]
    simp only [execute, family_eq, decode_opcode, e1, hsp]
    simp [hlt]

theorem call_2NNN_depth_witness :
    ∃ s', emu_instr (set_config_from_args .CHIP8) 0 call_machine = .ok s' ∧
      s'.stack_ptr = some 1 ∧ s'.stack 0 = call_machine.PC + 2 ∧ s'.PC = 0x204 :=
  let ⟨s', h, hsp, _, htop, _, hpc⟩ :=
    (call_2NNN_depth (set_config_from_args .CHIP8) 0 call_machine 0x204 0
      (by decide) rfl rfl).1 (by decide)
  ⟨s', h, hsp, htop, hpc⟩

/-- The burst on `draw_machine`: one call in `CHIP8` mode (the first opcode draws), eleven
calls (`700 / 60`) in `SUPERCHIP` mode. -/
theorem main_burst_draw_machine :
    (∃ s', main_burst (set_config_from_args .CHIP8) (fun _ => 0) draw_machine = .ok (1, s')) ∧
    (∃ s', main_burst (set_config_from_args .SUPERCHIP) (fun _ => 0) draw_machine
      = .ok (11, s')) :=
  ⟨⟨_, rfl⟩, ⟨_, rfl⟩⟩

/-! ## The keypad is only read by `emu_instr` -/

theorem draw_col_keypad (config : config_t) (vx yp b : Nat) (s : chip8_t) (col : Nat)
    (s' : chip8_t) (h : draw_col config vx yp b s col = .ok s') : s'.keypad = s.keypad := by
  unfold draw_col at h
  dsimp only at h
  split_ifs at h <;> (injection h with h; subst h; rfl)

theorem draw_row_keypad (config : config_t) (vx vy : Nat) (s : chip8_t) (row : Nat)
    (s' : chip8_t) (h : draw_row config vx vy s row = .ok s') : s'.keypad = s.keypad := by
  simp only [draw_row] at h
  split_ifs at h
  exact for_loop_field (fun t => t.keypad) _ (draw_col_keypad config _ _ _) _ _ _ h

theorem draw_sprite_keypad (config : config_t) (s s' : chip8_t)
    (h : draw_sprite config s = .ok s') : s'.keypad = s.keypad := by
  unfold draw_sprite at h
  simp only at h
  split at h
  · rename_i s1 h1
    injection h with h
    have h2 := for_loop_field (fun t => t.keypad) _ (draw_row_keypad config _ _) _ _ _ h1
    rw [← h]
    exact h2
  · cases h

theorem store_reg_keypad (config : config_t) (s : chip8_t) (i : Nat) (s' : chip8_t)
    (h : store_reg config s i = .ok s') : s'.keypad = s.keypad := by
  unfold store_reg at h
  split_ifs at h <;> (injection h with h; subst h; rfl)

theorem load_reg_keypad (config : config_t) (s : chip8_t) (i : Nat) (s' : chip8_t)
    (h : load_reg config s i = .ok s') : s'.keypad = s.keypad := by
  unfold load_reg at h
  split_ifs at h <;> (injection h with h; subst h; rfl)

theorem exec_alu_keypad (config : config_t) (s : chip8_t) :
    (exec_alu config s).keypad = s.keypad := by
  unfold exec_alu
  dsimp only
  repeat' (first | rfl | refine ite_field chip8_t.keypad _ _ _ _ ?_ ?_)

theorem exec_misc_keypad (config : config_t) (s s' : chip8_t)
    (h : exec_misc config s = .ok s') : s'.keypad = s.keypad := by
  unfold exec_misc at h
  simp only at h
  split_ifs at h
  · split at h <;> (injection h with h; subst h; rfl)
  all_goals first
    | (injection h with h; subst h; rfl)
    | cases h
    | exact for_loop_field (fun t => t.keypad) _ (store_reg_keypad config) _ _ _ h
    | exact for_loop_field (fun t => t.keypad) _ (load_reg_keypad config) _ _ _ h

theorem execute_keypad (config : config_t) (rand : Nat) (s : chip8_t) :
    ∀ s', execute config rand s = .ok s' → s'.keypad = s.keypad := by
  unfold execute
  dsimp only
  repeat' first
    | exact ok_field chip8_t.keypad _ _ rfl
    | exact ok_field chip8_t.keypad _ _ (exec_alu_keypad config s)
    | exact error_field chip8_t.keypad _ _
    | exact fun s' h => draw_sprite_keypad config s s' h
    | exact fun s' h => exec_misc_keypad config s s' h
    | refine ite_ok_field chip8_t.keypad _ _ _ _ ?_ ?_
    | (intro s' h; split at h <;> revert s' h)

/-! ## The flag register as destination (`8FYN`) -/

/-- Claim C33: when `X = 0xF` the flag is written after the result and is what `VF` holds
afterwards: after `8FY4` the carry of old `VF + VY`, after `8FY5` the no-borrow bit of old
`VF - VY`, after `8FY7` the no-borrow bit of old `VY - VF`, after `8FY6` and `8FYE` the bit
shifted out of the shifted operand (old `VY` in `CHIP8` mode, old `VF` otherwise), after
`8FY1`, `8FY2` and `8FY3` zero. -/
theorem flag_destination (config : config_t) (rand : Nat) (s : chip8_t) (y : Nat)
    (hwf : s.WF) (hy : y < 16) :
    (fetch s = .ok (0x8F04 + y * 16) →
      ∃ s', emu_instr config rand s = .ok s' ∧
        s'.V 0xF = if s.V 0xF + s.V y > 255 then 1 else 0) ∧
    (fetch s = .ok (0x8F05 + y * 16) →
      ∃ s', emu_instr config rand s = .ok s' ∧
        s'.V 0xF = if s.V 0xF ≥ s.V y then 1 else 0) ∧
    (fetch s = .ok (0x8F07 + y * 16) →
      ∃ s', emu_instr config rand s = .ok s' ∧
        s'.V 0xF = if s.V y ≥ s.V 0xF then 1 else 0) ∧
    (fetch s = .ok (0x8F06 + y * 16) →
      ∃ s', emu_instr config rand s = .ok s' ∧
        (config.current_extension = .CHIP8 → s'.V 0xF = s.V y % 2) ∧
        (config.current_extension ≠ .CHIP8 → s'.V 0xF = s.V 0xF % 2)) ∧
    (fetch s = .ok (0x8F0E + y * 16) →
      ∃ s', emu_instr config rand s = .ok s' ∧
        (config.current_extension = .CHIP8 → s'.V 0xF = s.V y / 128 % 2) ∧
        (config.current_extension ≠ .CHIP8 → s'.V 0xF = s.V 0xF / 128 % 2)) ∧
    (fetch s = .ok (0x8F01 + y * 16) →
      ∃ s', emu_instr config rand s = .ok s' ∧ s'.V 0xF = 0) ∧
    (fetch s = .ok (0x8F02 + y * 16) →
      ∃ s', emu_instr config rand s = .ok s' ∧ s'.V 0xF = 0) ∧
    (fetch s = .ok (0x8F03 + y * 16) →
      ∃ s', emu_instr config rand s = .ok s' ∧ s'.V 0xF = 0) := by
  have hF := hwf.V_u8 0xF (by decide)
  have hY := hwf.V_u8 y hy
  have hv : ∀ (V : Nat → Nat) (a c : Nat), write (write V 0xF a) 0xF c 0xF = c := by
    intro V a c; simp [write]
  have hbit : ∀ m : Nat, (if (m % 2 != 0) = true then 1 else 0) = m % 2 := by
    intro m
    rcases Nat.mod_two_eq_zero_or_one m with h | h <;> simp [h]
  refine ⟨fun hop => ?_, fun hop => ?_, fun hop => ?_, fun hop => ?_, fun hop => ?_,
    fun hop => ?_, fun hop => ?_, fun hop => ?_⟩
  · refine ⟨_, emu_instr_alu config rand s 0xF y 4 _ (by decide) hy (by decide) (by omega) hop, ?_⟩
    have hsum : (s.V 15 + s.V y) % 65536 = s.V 15 + s.V y := by omega
    simp only [exec_alu]
    simp only [Nat.reduceEqDiff, if_false, if_true, hv, hsum]
    by_cases hc : s.V 15 + s.V y > 255 <;> simp [hc]
  · refine ⟨_, emu_instr_alu config rand s 0xF y 5 _ (by decide) hy (by decide) (by omega) hop, ?_⟩
    simp only [exec_alu]
    simp only [Nat.reduceEqDiff, if_false, if_true, hv]
    by_cases hc : s.V 15 ≥ s.V y <;> simp [hc]
  · refine ⟨_, emu_instr_alu config rand s 0xF y 7 _ (by decide) hy (by decide) (by omega) hop, ?_⟩
    simp only [exec_alu]
    simp only [Nat.reduceEqDiff, if_false, if_true, hv]
    by_cases hc : s.V y ≥ s.V 15 <;> simp [hc]
  · refine ⟨_, emu_instr_alu config rand s 0xF y 6 _ (by decide) hy (by decide) (by omega) hop,
      fun hext => ?_, fun hext => ?_⟩
    · simp only [exec_alu, hext, land_1]
      simp only [Nat.reduceEqDiff, if_false, if_true, hv]
      exact hbit _
    · simp only [exec_alu, hext, land_1]
      simp only [Nat.reduceEqDiff, if_false, if_true, hv]
      exact hbit _
  · refine ⟨_, emu_instr_alu config rand s 0xF y 0xE _ (by decide) hy (by decide) (by omega) hop,
      fun hext => ?_, fun hext => ?_⟩
    · simp only [exec_alu, hext, bit7]
      simp only [Nat.reduceEqDiff, if_false, if_true, hv]
      exact hbit _
    · simp only [exec_alu, hext, bit7]
      simp only [Nat.reduceEqDiff, if_false, if_true, hv]
      exact hbit _
  · refine ⟨_, emu_instr_alu config rand s 0xF y 1 _ (by decide) hy (by decide) (by omega) hop, ?_⟩
    simp only [exec_alu]
    simp only [Nat.reduceEqDiff, if_false, if_true, hv]
  · refine ⟨_, emu_instr_alu config rand s 0xF y 2 _ (by decide) hy (by decide) (by omega) hop, ?_⟩
    simp only [exec_alu]
    simp only [Nat.reduceEqDiff, if_false, if_true, hv]
  · refine ⟨_, emu_instr_alu config rand s 0xF y 3 _ (by decide) hy (by decide) (by omega) hop, ?_⟩
    simp only [exec_alu]
    simp only [Nat.reduceEqDiff, if_false, if_true, hv]

theorem flag_destination_witness :
    ∃ s', emu_instr (set_config_from_args .CHIP8) 0 (flag_dest_machine 4) = .ok s' ∧
      s'.V 0xF = if (flag_dest_machine 4).V 0xF + (flag_dest_machine 4).V 2 > 255 then 1 else 0 :=
  (flag_destination (set_config_from_args .CHIP8) 0 (flag_dest_machine 4) 2
    (WF_with_V (loaded_WF _ (by decide)) _ (by intro k _; split_ifs <;> decide))
    (by decide)).1 rfl

/-! ## Display indices of `DXYN` on the 64x32 display -/

theorem draw_row_y_pos (config : config_t) (vx vy : Nat) (s : chip8_t) (row : Nat)
    (hh : config.window_height ≠ 0) (hI : s.I + row < 4096) :
    draw_row config vx vy s row
      = for_loop (draw_col config vx (y_pos config vy row) (s.ram (s.I + row))) 8 s := by
  simp only [draw_row, hh, hI, if_false, if_true, y_pos]

theorem draw_col_display_idx (config : config_t) (vx vy b : Nat) (s : chip8_t) (row col : Nat)
    (hw : config.window_width ≠ 0) (hb : sprite_bit b col = true) :
    draw_col config vx (y_pos config vy row) b s col
      = if display_idx config vx vy row col < 2048 then
          .ok { s with
                display := write s.display (display_idx config vx vy row col)
                  (!s.display (display_idx config vx vy row col))
                V := if s.display (display_idx config vx vy row col) then write s.V 0xF 1
                     else s.V }
        else .error .display_out_of_bounds := by
  simp only [draw_col, hw, hb, display_idx, x_pos, y_pos]
  split_ifs <;> simp_all

theorem display_idx_64x32 (config : config_t) (hw : config.window_width = 64)
    (hh : config.window_height = 32) (vx vy row col : Nat) :
    display_idx config vx vy row col = cell vx ((vy + row) % 32) col := by
  unfold display_idx x_pos y_pos cell
  rw [hw, hh]
  omega

/-- Claim C34: on the 64x32 display, for every machine and `DXYN` opcode, every column
position the draw loop computes is below 64, every line position below 32 and every display
index below 2048, so that the call never indexes `display` out of range; and the indices
computed for two different pairs of a row below `N` and a column below 8 differ, so that no
cell is toggled twice in one call. -/
theorem draw_indices_distinct (config : config_t) (hw : config.window_width = 64)
    (hh : config.window_height = 32) (rand : Nat) (s : chip8_t) (x y n : Nat)
    (hx : x < 16) (hy : y < 16) (hn : n < 16)
    (hop : fetch s = .ok (0xD000 + x * 256 + y * 16 + n)) :
    (∀ row col, x_pos config (s.V x) col < 64 ∧ y_pos config (s.V y) row < 32 ∧
      display_idx config (s.V x) (s.V y) row col < 2048) ∧
    (∀ row col row' col', row < n → row' < n → col < 8 → col' < 8 →
      display_idx config (s.V x) (s.V y) row col = display_idx config (s.V x) (s.V y) row' col' →
      row = row' ∧ col = col') ∧
    emu_instr config rand s ≠ .error .display_out_of_bounds := by
  refine ⟨fun row col => ⟨?_, ?_, ?_⟩, ?_, ?_⟩
  · unfold x_pos
    rw [hw]
    omega
  · unfold y_pos
    rw [hh]
    omega
  · rw [display_idx_64x32 config hw hh]
    exact cell_lt (Nat.mod_lt _ (by decide))
  · intro row col row' col' hr hr' hc hc' h
    rw [display_idx_64x32 config hw hh, display_idx_64x32 config hw hh] at h
    obtain ⟨h1, h2⟩ := cell_inj hc hc' h
    exact ⟨by omega, h2⟩
  · by_cases hI : n = 0 ∨ s.I + n ≤ 4096
    · rw [draw_DXYN_eq config hw hh rand s x y n hx hy hn hop hI]
      intro h
      cases h
    · rw [draw_DXYN_oob config hw hh rand s x y n hx hy hn hop hI]
      intro h
      cases h

theorem draw_indices_distinct_witness :
    display_idx (set_config_from_args .CHIP8) (draw_machine.V 0) (draw_machine.V 1) 0 7 < 2048 ∧
      emu_instr (set_config_from_args .CHIP8) 0 draw_machine ≠ .error .display_out_of_bounds :=
  let h := draw_indices_distinct (set_config_from_args .CHIP8) rfl rfl 0 draw_machine 0 1 1
    (by decide) (by decide) (by decide) rfl
  ⟨(h.1 0 7).2.2, h.2.2⟩

/-! ## Where the quirk mode is read -/

theorem exec_alu_mode (c1 c2 : config_t) (s : chip8_t) (h6 : s.inst.n ≠ 6)
    (hE : s.inst.n ≠ 0xE) : exec_alu c1 s = exec_alu c2 s := by
  simp [exec_alu, h6, hE]

theorem exec_misc_mode (c1 c2 : config_t) (s : chip8_t) (h55 : s.inst.nn ≠ 0x55)
    (h65 : s.inst.nn ≠ 0x65) : exec_misc c1 s = exec_misc c2 s := by
  simp [exec_misc, h55, h65]

theorem execute_mode (c1 c2 : config_t) (hw : c1.window_width = c2.window_width)
    (hh : c1.window_height = c2.window_height) (rand : Nat) (s : chip8_t)
    (h8 : (s.inst.opcode >>> 12) &&& 0x0F = 0x08 → s.inst.n ≠ 6 ∧ s.inst.n ≠ 0xE)
    (hF : (s.inst.opcode >>> 12) &&& 0x0F = 0x0F → s.inst.nn ≠ 0x55 ∧ s.inst.nn ≠ 0x65) :
    execute c1 rand s = execute c2 rand s := by
  have hcol : draw_col c1 = draw_col c2 := by
    funext vx yp b t col
    simp [draw_col, hw]
  have hrow : draw_row c1 = draw_row c2 := by
    funext vx vy t row
    simp [draw_row, hh, hcol]
  have hdraw : draw_sprite c1 = draw_sprite c2 := by
    funext t
    simp [draw_sprite, hrow]
  by_cases f8 : (s.inst.opcode >>> 12) &&& 0x0F = 0x08
  · simp [execute, f8, exec_alu_mode c1 c2 s (h8 f8).1 (h8 f8).2]
  · by_cases fF : (s.inst.opcode >>> 12) &&& 0x0F = 0x0F
    · simp [execute, fF, exec_misc_mode c1 c2 s (hF fF).1 (hF fF).2]
    · simp [execute, f8, fF, hdraw]

/-- Claim C35: the quirk mode reaches `emu_instr` only through `8XY6`, `8XYE`, `FX55` and
`FX65`: on a machine whose next opcode is none of these, the call gives the same result
(the same machine, or the same fault) in `CHIP8` mode as in `SUPERCHIP` mode, for every value
of `rand()`. -/
theorem mode_only_in_shift_and_dump (config : config_t) (rand : Nat) (s : chip8_t)
    (hop : ∀ w, fetch s = .ok w →
      ¬ (w / 4096 % 16 = 0x8 ∧ (w % 16 = 0x6 ∨ w % 16 = 0xE)) ∧
      ¬ (w / 4096 % 16 = 0xF ∧ (w % 256 = 0x55 ∨ w % 256 = 0x65))) :
    emu_instr { config with current_extension := .CHIP8 } rand s
      = emu_instr { config with current_extension := .SUPERCHIP } rand s := by
  unfold emu_instr
  cases hf : fetch s with
  | error e => rfl
  | ok w =>
    obtain ⟨h8, hF⟩ := hop w hf
    refine execute_mode { config with current_extension := .CHIP8 }
      { config with current_extension := .SUPERCHIP } rfl rfl rand
      { s with PC := (s.PC + 2) % 65536, inst := decode w } ?_ ?_
    · intro hfam
      simp only [family_eq, decode_opcode] at hfam
      simp only [decode_n]
      omega
    · intro hfam
      simp only [family_eq, decode_opcode] at hfam
      simp only [decode_nn]
      omega

theorem mode_only_in_shift_and_dump_witness :
    emu_instr { set_config_from_args .XOCHIP with current_extension := .CHIP8 } 0 (alu_machine 4)
      = emu_instr { set_config_from_args .XOCHIP with current_extension := .SUPERCHIP } 0
          (alu_machine 4) :=
  mode_only_in_shift_and_dump (set_config_from_args .XOCHIP) 0 (alu_machine 4)
    (fun w hw => by
      have h : w = 0x8124 := by
        have h2 : fetch (alu_machine 4) = .ok 0x8124 := rfl
        rw [h2] at hw
        injection hw with hw
        exact hw.symm
      subst h
      decide)

/-! ## The draw flag after `DXYN` -/

theorem sprite_bit_zero (col : Nat) : sprite_bit 0 col = false := by
  simp [sprite_bit]

/-- Claim C36: every call of `emu_instr` on a `DXYN` opcode that returns leaves `draw` set; on
the 64x32 display with the sprite rows inside RAM it returns, and when `N = 0` or every sprite
byte `ram[I + row]` is zero the display is unchanged and `VF = 0`. -/
theorem draw_DXYN_sets_draw (config : config_t) (rand : Nat) (s : chip8_t) (x y n : Nat)
    (hx : x < 16) (hy : y < 16) (hn : n < 16)
    (hop : fetch s = .ok (0xD000 + x * 256 + y * 16 + n)) :
    (∀ s', emu_instr config rand s = .ok s' → s'.draw = true) ∧
    (config.window_width = 64 → config.window_height = 32 → (n = 0 ∨ s.I + n ≤ 4096) →
      ∃ s', emu_instr config rand s = .ok s' ∧ s'.draw = true ∧
        ((n = 0 ∨ ∀ row, row < n → s.ram (s.I + row) = 0) →
          s'.display = s.display ∧ s'.V 0xF = 0)) := by
  constructor
  · intro s' h
    have e1 : (0xD000 + x * 256 + y * 16 + n) / 4096 % 16 = 13 := by omega
    rw [emu_instr_of_fetch hop] at h
    simp only [execute, family_eq, decode_opcode, e1] at h
    simp only [Nat.reduceEqDiff, if_false, if_true] at h
    unfold draw_sprite at h
    simp only at h
    split at h
    · injection h with h
      rw [← h]
    · cases h
  · intro hw hh hI
    refine ⟨_, draw_DXYN_eq config hw hh rand s x y n hx hy hn hop hI, rfl, ?_⟩
    intro hz
    have hbit : ∀ r, r < n → ∀ c, sprite_bit (s.ram (s.I + r)) c = false := by
      intro r hr c
      rcases hz with h0 | hall
      · omega
      · rw [hall r hr]; exact sprite_bit_zero c
    have hhits : ∀ k, sprite_hits s.ram s.I (s.V x) (s.V y) n k = false := by
      intro k
      rw [Bool.eq_false_iff]
      intro h
      obtain ⟨r, hr, c, _, hb, _⟩ := (sprite_hits_iff _ _ _ _ _ _).mp h
      rw [hbit r hr c] at hb
      cases hb
    have hcol : sprite_collides s.display s.ram s.I (s.V x) (s.V y) n = false := by
      rw [Bool.eq_false_iff]
      intro h
      obtain ⟨r, hr, c, _, hb, _⟩ := (sprite_collides_iff _ _ _ _ _ _).mp h
      rw [hbit r hr c] at hb
      cases hb
    constructor
    · funext k
      simp [hhits k]
    · simp [hcol, write]

theorem draw_DXYN_sets_draw_witness :
    ∃ s', emu_instr (set_config_from_args .CHIP8) 0 zero_sprite_machine = .ok s' ∧
      s'.draw = true ∧ s'.display = zero_sprite_machine.display ∧ s'.V 0xF = 0 :=
  let ⟨s', h, hd, hz⟩ := (draw_DXYN_sets_draw (set_config_from_args .CHIP8) 0 zero_sprite_machine
    0 1 2 (by decide) (by decide) (by decide) rfl).2 rfl rfl (Or.inr (by decide))
  ⟨s', h, hd, hz (Or.inr (fun row hr => by interval_cases row <;> rfl))⟩

/-! ## RAM addresses used by one instruction -/

theorem for_loop_ne_error (body : chip8_t → Nat → Except fault_t chip8_t) (e : fault_t)
    (hbody : ∀ s i, body s i ≠ .error e) (n : Nat) (s : chip8_t) :
    for_loop body n s ≠ .error e := by
  cases n with
  | zero =>
    intro h
    rw [for_loop] at h
    cases h
  | succ n =>
    rw [for_loop]
    cases hn : for_loop body n s with
    | error e' =>
      intro h
      exact for_loop_ne_error body e hbody n s (hn.trans h)
    | ok s1 => exact hbody s1 n

theorem draw_col_ram (config : config_t) (vx yp b : Nat) (s : chip8_t) (col : Nat) :
    draw_col config vx yp b s col ≠ .error .ram_out_of_bounds := by
  unfold draw_col
  dsimp only
  split_ifs <;> (intro h; cases h)

theorem draw_col_I (config : config_t) (vx yp b : Nat) (s : chip8_t) (col : Nat)
    (s' : chip8_t) (h : draw_col config vx yp b s col = .ok s') : s'.I = s.I := by
  unfold draw_col at h
  dsimp only at h
  split_ifs at h <;> (injection h with h; subst h; rfl)

theorem draw_row_I (config : config_t) (vx vy : Nat) (s : chip8_t) (row : Nat)
    (s' : chip8_t) (h : draw_row config vx vy s row = .ok s') : s'.I = s.I := by
  simp only [draw_row] at h
  split_ifs at h
  exact for_loop_field (fun t => t.I) _ (draw_col_I config _ _ _) _ _ _ h

theorem draw_rows_ram (config : config_t) (vx vy : Nat) (n : Nat) (s : chip8_t)
    (hI : n = 0 ∨ s.I + n ≤ 4096) :
    for_loop (draw_row config vx vy) n s ≠ .error .ram_out_of_bounds := by
  induction n with
  | zero =>
    intro h
    rw [for_loop] at h
    cases h
  | succ n ih =>
    rw [for_loop]
    cases hn : for_loop (draw_row config vx vy) n s with
    | error e' =>
      intro h
      exact ih (by omega) (hn.trans h)
    | ok s1 =>
      have h1 : s1.I = s.I := for_loop_field (fun t => t.I) _ (draw_row_I config vx vy) _ _ _ hn
      have h2 : s1.I + n < 4096 := by omega
      simp only [draw_row, h2, if_true]
      split_ifs
      · intro h; cases h
      · exact for_loop_ne_error _ _ (draw_col_ram config _ _ _) 8 s1

theorem draw_sprite_ram (config : config_t) (s : chip8_t)
    (hI : s.inst.n = 0 ∨ s.I + s.inst.n ≤ 4096) :
    draw_sprite config s ≠ .error .ram_out_of_bounds := by
  unfold draw_sprite
  simp only
  have h := draw_rows_ram config (s.V s.inst.x) (s.V s.inst.y) s.inst.n
    { s with V := write s.V 0xF 0 } hI
  split
  · intro h'; cases h'
  · rename_i e he
    intro h'
    injection h' with h'
    rw [h'] at he
    exact h he

theorem exec_misc_ram (config : config_t) (s : chip8_t)
    (h33 : s.inst.nn = 0x33 → s.I + 2 ≤ 4095)
    (h55 : s.inst.nn = 0x55 ∨ s.inst.nn = 0x65 → s.I + s.inst.x ≤ 4095) :
    exec_misc config s ≠ .error .ram_out_of_bounds := by
  unfold exec_misc
  simp only
  split_ifs with h1 h2 h3 h4 h5 h6 h7 h8 h9 h10
  · split <;> (intro h; cases h)
  all_goals first
    | (intro h; cases h; done)
    | (exfalso; have := h33 h7; omega)
    | (rw [store_loop_eq config s (s.inst.x + 1) (by have := h55 (Or.inl h9); omega)]
       intro h; cases h)
    | (rw [load_loop_eq config s (s.inst.x + 1) (by have := h55 (Or.inr h10); omega)]
       intro h; cases h)

theorem ite_ne_error (e : fault_t) (c : Prop) [Decidable c] (a b : Except fault_t chip8_t)
    (ha : c → a ≠ .error e) (hb : ¬ c → b ≠ .error e) : (if c then a else b) ≠ .error e := by
  split
  · exact ha ‹_›
  · exact hb ‹_›

theorem ok_ne_error (e : fault_t) (t : chip8_t) :
    (Except.ok t : Except fault_t chip8_t) ≠ .error e := by
  intro h
  cases h

theorem error_ne_error (e e' : fault_t) (h : e' ≠ e) :
    (Except.error e' : Except fault_t chip8_t) ≠ .error e := by
  intro h'
  injection h' with h'
  exact h h'

theorem execute_ram (config : config_t) (rand : Nat) (s : chip8_t)
    (hD : (s.inst.opcode >>> 12) &&& 0x0F = 0x0D → s.inst.n = 0 ∨ s.I + s.inst.n ≤ 4096)
    (h33 : (s.inst.opcode >>> 12) &&& 0x0F = 0x0F → s.inst.nn = 0x33 → s.I + 2 ≤ 4095)
    (h55 : (s.inst.opcode >>> 12) &&& 0x0F = 0x0F → s.inst.nn = 0x55 ∨ s.inst.nn = 0x65 →
      s.I + s.inst.x ≤ 4095) :
    execute config rand s ≠ .error .ram_out_of_bounds := by
  unfold execute
  dsimp only
  repeat' first
    | exact ok_ne_error _ _
    | exact error_ne_error _ _ (by decide)
    | exact draw_sprite_ram config s (hD ‹_›)
    | exact exec_misc_ram config s (h33 ‹_›) (h55 ‹_›)
    | refine ite_ne_error _ _ _ _ (fun _ => ?_) (fun _ => ?_)
    | split

/-- Claim C31 (amended): for a machine with `PC <= 4094`, one call of `emu_instr` indexes `ram`
only inside `[0, 4095]` (the embedding reports any other index as the fault
`ram_out_of_bounds`), provided the range addressed through `I` ends inside RAM:
`I + N <= 4096` for `DXYN` with `N > 0`, `I + 2 <= 4095` for `FX33`, `I + X <= 4095` for `FX55`
and `FX65`. -/
theorem ram_access_in_bounds (config : config_t) (rand : Nat) (s : chip8_t)
    (hPC : s.PC ≤ 4094)
    (hI : ∀ w, fetch s = .ok w →
      (w / 4096 % 16 = 0xD → w % 16 = 0 ∨ s.I + w % 16 ≤ 4096) ∧
      (w / 4096 % 16 = 0xF → w % 256 = 0x33 → s.I + 2 ≤ 4095) ∧
      (w / 4096 % 16 = 0xF → w % 256 = 0x55 ∨ w % 256 = 0x65 → s.I + w / 256 % 16 ≤ 4095)) :
    (∃ w, fetch s = .ok w) ∧ emu_instr config rand s ≠ .error .ram_out_of_bounds := by
  have hf : fetch s = .ok ((((s.ram s.PC) <<< 8) ||| s.ram (s.PC + 1)) % 65536) := by
    unfold fetch
    rw [if_pos (by omega)]
  refine ⟨⟨_, hf⟩, ?_⟩
  obtain ⟨hD, h33, h55⟩ := hI _ hf
  rw [emu_instr_of_fetch hf]
  refine execute_ram config rand _ ?_ ?_ ?_
  · intro hfam
    simp only [family_eq, decode_opcode] at hfam
    simp only [decode_n]
    exact hD hfam
  · intro hfam hnn
    simp only [family_eq, decode_opcode] at hfam
    simp only [decode_nn] at hnn
    exact h33 hfam hnn
  · intro hfam hnn
    simp only [family_eq, decode_opcode] at hfam
    simp only [decode_nn] at hnn
    simp only [decode_x]
    exact h55 hfam hnn

theorem ram_access_in_bounds_witness :
    (∃ w, fetch bcd_machine = .ok w) ∧
      emu_instr (set_config_from_args .CHIP8) 0 bcd_machine ≠ .error .ram_out_of_bounds :=
  ram_access_in_bounds (set_config_from_args .CHIP8) 0 bcd_machine (by decide)
    (fun w hw => by
      have h : w = 0xF333 := by
        have h2 : fetch bcd_machine = .ok 0xF333 := rfl
        rw [h2] at hw
        injection hw with hw
        exact hw.symm
      subst h
      decide)

/-- Claim C31 as stated fails: after the jump `1FFF` the machine has `PC = 4095` and `I = 0`,
both in `[0, 4095]`, and the next opcode fetch reads `ram[PC + 1] = ram[4096]`; after
`AFFF` the machine has `I = 4095` and `FX33` writes `ram[I + 2] = ram[4097]`. -/
theorem ram_access_out_of_bounds :
    (emu_instr (set_config_from_args .CHIP8) 0 jump_end_machine = .ok jump_end_machine_once ∧
      jump_end_machine_once.PC = 4095 ∧ jump_end_machine_once.I = 0 ∧
      emu_instr (set_config_from_args .CHIP8) 0 jump_end_machine_once
        = .error .ram_out_of_bounds) ∧
    (emu_instr (set_config_from_args .CHIP8) 0 index_end_machine = .ok index_end_machine_once ∧
      index_end_machine_once.PC = 0x202 ∧ index_end_machine_once.I = 4095 ∧
      emu_instr (set_config_from_args .CHIP8) 0 index_end_machine_once
        = .error .ram_out_of_bounds) :=
  ⟨⟨rfl, rfl, rfl, rfl⟩, ⟨rfl, rfl, rfl, rfl⟩⟩

/-! ## When one instruction returns -/

theorem ite_defined (c : Prop) [Decidable c] (a b : Except fault_t chip8_t)
    (ha : c → ∃ s', a = .ok s') (hb : ¬ c → ∃ s', b = .ok s') :
    ∃ s', (if c then a else b) = .ok s' := by
  split
  · exact ha ‹_›
  · exact hb ‹_›

theorem draw_sprite_defined (config : config_t) (hw : config.window_width = 64)
    (hh : config.window_height = 32) (s : chip8_t) (hn : s.inst.n ≤ 16)
    (hI : s.inst.n = 0 ∨ s.I + s.inst.n ≤ 4096) :
    ∃ s', draw_sprite config s = .ok s' := by
  unfold draw_sprite
  simp only
  rw [draw_rows_eq config hw hh (s.V s.inst.x) (s.V s.inst.y) { s with V := write s.V 0xF 0 }
    s.inst.n hn hI]
  exact ⟨_, rfl⟩

theorem exec_misc_defined (config : config_t) (s : chip8_t)
    (h33 : s.inst.nn = 0x33 → s.I + 2 ≤ 4095)
    (h55 : s.inst.nn = 0x55 ∨ s.inst.nn = 0x65 → s.I + s.inst.x ≤ 4095) :
    ∃ s', exec_misc config s = .ok s' := by
  unfold exec_misc
  simp only
  split_ifs with h1 h2 h3 h4 h5 h6 h7 h8 h9 h10
  · split <;> exact ⟨_, rfl⟩
  all_goals first
    | exact ⟨_, rfl⟩
    | (exfalso; have := h33 h7; omega)
    | (rw [store_loop_eq config s (s.inst.x + 1) (by have := h55 (Or.inl h9); omega)]
       exact ⟨_, rfl⟩)
    | (rw [load_loop_eq config s (s.inst.x + 1) (by have := h55 (Or.inr h10); omega)]
       exact ⟨_, rfl⟩)

theorem execute_defined (config : config_t) (rand : Nat) (s : chip8_t)
    (hret : (s.inst.opcode >>> 12) &&& 0x0F = 0x00 → s.inst.nn = 0xEE →
      ∃ d, s.stack_ptr = some d ∧ (0 < d ∧ d ≤ 16))
    (hcall : (s.inst.opcode >>> 12) &&& 0x0F = 0x02 → ∃ d, s.stack_ptr = some d ∧ d < 16)
    (hdraw : (s.inst.opcode >>> 12) &&& 0x0F = 0x0D → ∃ s', draw_sprite config s = .ok s')
    (hkey : (s.inst.opcode >>> 12) &&& 0x0F = 0x0E → s.inst.nn = 0x9E ∨ s.inst.nn = 0xA1 →
      s.V s.inst.x < 16)
    (hmisc : (s.inst.opcode >>> 12) &&& 0x0F = 0x0F → ∃ s', exec_misc config s = .ok s') :
    ∃ s', execute config rand s = .ok s' := by
  unfold execute
  dsimp only
  repeat' first
    | exact ⟨_, rfl⟩
    | exact hdraw ‹_›
    | exact hmisc ‹_›
    | exact absurd (hkey ‹_› (Or.inl ‹_›)) ‹_›
    | exact absurd (hkey ‹_› (Or.inr ‹_›)) ‹_›
    | (obtain ⟨d, hd, h1⟩ := hret ‹_› ‹_›
       rw [hd]
       exact ⟨_, if_pos h1⟩)
    | (obtain ⟨d, hd, h1⟩ := hcall ‹_›
       rw [hd]
       exact ⟨_, if_pos h1⟩)
    | refine ite_defined _ _ _ (fun _ => ?_) (fun _ => ?_)

theorem emu_instr_defined (config : config_t) (hw : config.window_width = 64)
    (hh : config.window_height = 32) (rand : Nat) (s : chip8_t) (hPC : s.PC ≤ 4094)
    (hin : ∀ w, fetch s = .ok w →
      (w / 4096 % 16 = 0x0 → w % 256 = 0xEE → ∃ d, s.stack_ptr = some d ∧ (0 < d ∧ d ≤ 16)) ∧
      (w / 4096 % 16 = 0x2 → ∃ d, s.stack_ptr = some d ∧ d < 16) ∧
      (w / 4096 % 16 = 0xD → w % 16 = 0 ∨ s.I + w % 16 ≤ 4096) ∧
      (w / 4096 % 16 = 0xE → w % 256 = 0x9E ∨ w % 256 = 0xA1 → s.V (w / 256 % 16) ≤ 15) ∧
      (w / 4096 % 16 = 0xF → w % 256 = 0x33 → s.I + 2 ≤ 4095) ∧
      (w / 4096 % 16 = 0xF → w % 256 = 0x55 ∨ w % 256 = 0x65 → s.I + w / 256 % 16 ≤ 4095)) :
    ∃ s', emu_instr config rand s = .ok s' := by
  have hf : fetch s = .ok ((((s.ram s.PC) <<< 8) ||| s.ram (s.PC + 1)) % 65536) := by
    unfold fetch
    rw [if_pos (by omega)]
  obtain ⟨hret, hcall, hD, hkey, h33, h55⟩ := hin _ hf
  rw [emu_instr_of_fetch hf]
  refine execute_defined config rand _ ?_ ?_ ?_ ?_ ?_
  · intro hfam hnn
    simp only [family_eq, decode_opcode] at hfam
    simp only [decode_nn] at hnn
    exact hret hfam hnn
  · intro hfam
    simp only [family_eq, decode_opcode] at hfam
    exact hcall hfam
  · intro hfam
    simp only [family_eq, decode_opcode] at hfam
    refine draw_sprite_defined config hw hh _ ?_ ?_
    · simp only [decode_n]
      omega
    · simp only [decode_n]
      exact hD hfam
  · intro hfam hnn
    simp only [family_eq, decode_opcode] at hfam
    simp only [decode_nn] at hnn
    simp only [decode_x]
    have := hkey hfam hnn
    omega
  · intro hfam
    simp only [family_eq, decode_opcode] at hfam
    refine exec_misc_defined config _ ?_ ?_
    · intro hnn
      simp only [decode_nn] at hnn
      exact h33 hfam hnn
    · intro hnn
      simp only [decode_nn] at hnn
      simp only [decode_x]
      exact h55 hfam hnn

set_option maxRecDepth 100000 in
/-- Counterexample to claim C32 as stated: the ROM of `far_store_machine` reaches, by 45 calls
that stay inside every array, a machine with `I = 14402` and `V0 = 1` whose next opcode is
`F055`; the store `ram[I++] = V[0]` of that call is outside `ram[4096]`, so the call has no
defined result and no machine with the old keypad comes out of it. -/
theorem far_store_out_of_ram :
    emu_steps (set_config_from_args .CHIP8) (fun _ => 0) 45 far_store_machine
        = .ok far_store_machine_at_store ∧
      far_store_machine_at_store.I = 14402 ∧ far_store_machine_at_store.V 0 = 1 ∧
      fetch far_store_machine_at_store = .ok 0xF055 ∧
      emu_instr (set_config_from_args .CHIP8) 0 far_store_machine_at_store
        = .error .ram_out_of_bounds ∧
      ¬ ∃ s', emu_instr (set_config_from_args .CHIP8) 0 far_store_machine_at_store = .ok s' ∧
        s'.keypad = far_store_machine_at_store.keypad :=
  ⟨rfl, rfl, rfl, rfl, rfl, fun ⟨_, h, _⟩ =>
    Except.noConfusion ((rfl : emu_instr (set_config_from_args .CHIP8) 0
      far_store_machine_at_store = .error .ram_out_of_bounds).symm.trans h)⟩

/-- Claim C32, amended: whenever a call of `emu_instr` returns a machine, in any configuration
and for any opcode and value of `rand()`, the keypad of that machine is the keypad it was
called with, at all 16 entries; and on the 64x32 display the call does return when every
index it uses is inside its array: `PC <= 4094`, the stack depth in `[1, 16]` for `00EE` and
below 16 for `2NNN`, `I + N <= 4096` for `DXYN` with `N > 0`, `VX <= 15` for `EX9E` and `EXA1`,
`I + 2 <= 4095` for `FX33`, `I + X <= 4095` for `FX55` and `FX65`. -/
theorem keypad_unchanged (config : config_t) (rand : Nat) (s : chip8_t) :
    (∀ s', emu_instr config rand s = .ok s' → s'.keypad = s.keypad) ∧
    (config.window_width = 64 → config.window_height = 32 → s.PC ≤ 4094 →
      (∀ w, fetch s = .ok w →
        (w / 4096 % 16 = 0x0 → w % 256 = 0xEE →
          ∃ d, s.stack_ptr = some d ∧ (0 < d ∧ d ≤ 16)) ∧
        (w / 4096 % 16 = 0x2 → ∃ d, s.stack_ptr = some d ∧ d < 16) ∧
        (w / 4096 % 16 = 0xD → w % 16 = 0 ∨ s.I + w % 16 ≤ 4096) ∧
        (w / 4096 % 16 = 0xE → w % 256 = 0x9E ∨ w % 256 = 0xA1 → s.V (w / 256 % 16) ≤ 15) ∧
        (w / 4096 % 16 = 0xF → w % 256 = 0x33 → s.I + 2 ≤ 4095) ∧
        (w / 4096 % 16 = 0xF → w % 256 = 0x55 ∨ w % 256 = 0x65 →
          s.I + w / 256 % 16 ≤ 4095)) →
      ∃ s', emu_instr config rand s = .ok s' ∧ s'.keypad = s.keypad) := by
  have hframe : ∀ s', emu_instr config rand s = .ok s' → s'.keypad = s.keypad := by
    intro s' h
    unfold emu_instr at h
    split at h
    · cases h
    · rename_i w _
      exact execute_keypad config rand { s with PC := (s.PC + 2) % 65536, inst := decode w } s' h
  refine ⟨hframe, fun hw hh hPC hin => ?_⟩
  obtain ⟨s', h⟩ := emu_instr_defined config hw hh rand s hPC hin
  exact ⟨s', h, hframe s' h⟩

theorem keypad_unchanged_witness :
    ∃ s', emu_instr (set_config_from_args .CHIP8) 0 key_machine = .ok s' ∧
      s'.keypad = key_machine.keypad :=
  (keypad_unchanged (set_config_from_args .CHIP8) 0 key_machine).2 rfl rfl (by decide)
    (fun w hw => by
      have h : w = 0xF30A := by
        have h2 : fetch key_machine = .ok 0xF30A := rfl
        rw [h2] at hw
        injection hw with hw
        exact hw.symm
      subst h
      decide)

end Chip8
